import Mathlib

/-!
# Kinematic motion planning (OMPL, arm_navigation): motion checks and tree planners

A shallow embedding of

* `ompl/extension/kinematic/src/SpaceInformationKinematic.cpp`
  (`findDifferenceStep`, `checkMotionSubdivision`, `checkMotionIncremental`, `checkPath`),
* `ompl/extension/kinematic/extension/est/src/EST.cpp` (`addMotion`, `selectMotion`, `solve`),
* `ompl/kinematic/planners/kpiece/src/KPIECE1.cpp` (`addMotion`, `selectMotion`, `solve`).

Conventions of the embedding.

* A C++ `double` is an exact rational (`ℚ`): rounding, NaN and infinities are not modelled.
  The one infinite constant of the sources, `approxdif = INFINITY`, is `none : Option ℚ`; every
  goal distance is a rational, hence finite.
* A C++ `int` is a 32-bit integer held in `ℤ`.  `(int) x` truncates toward zero and leaves the
  range of `int` as the conversion of the machine does (`castInt`); `a / b` on `int` is
  `Int.tdiv`; a sum that can leave the range is wrapped explicitly (`wrapInt`).  The loop
  `subdivisionLoop` adds the two ends of an interval without wrapping, which is the addition of
  the source as long as the sum fits an `int`; `subdivisionRun` is the same loop with the sum
  wrapped.
* A `base::State` is the list of its `values`; `s->values[j]` is `s.getD j 0`.
* Pointers to motions are indices into the arena of motions created so far; a `NULL` pointer
  is `none`.
* Everything the planners obtain from their environment (clock, random numbers, samplers,
  hill climbing) is supplied as an explicit input: one record of draws per loop iteration.
-/

namespace ompl

/-! ## Data model -/

/-- Kind of a state component: the source only distinguishes `WRAPPING_ANGLE` from the rest. -/
inductive StateComponentType where
  | LINEAR
  | WRAPPING_ANGLE
  deriving DecidableEq, Repr

/-- Static metadata of one state component (`base::StateComponent`). -/
structure StateComponent where
  type : StateComponentType
  minValue : ℚ
  maxValue : ℚ
  resolution : ℚ

/-- A configuration: the `values` array of a `base::State`. -/
abbrev State := List ℚ

/-- The part of `SpaceInformationKinematic` that the motion checks read.  The validity checker,
the bounds check of the base class and `angles::shortest_angular_distance` are collaborators
that live outside the translated sources; they are taken as parameters. -/
structure SpaceInformationKinematic where
  m_stateDimension : ℕ
  m_stateComponent : ℕ → StateComponent
  isValid : State → Bool
  satisfiesBounds : State → Bool
  shortest_angular_distance : ℚ → ℚ → ℚ

/-- An `int` result as the machine keeps it: the value modulo `2^32`, taken in
`[-2^31, 2^31 - 1]`. -/
def wrapInt (z : ℤ) : ℤ := (z + 2147483648) % 4294967296 - 2147483648

/-- The conversion `(int) x` of a `double`: truncation toward zero when the truncated value is
an `int`.  A value outside the range of `int` converts to `-2^31`, the result that the
conversion instruction of the x86 family stores (the language leaves this case undefined). -/
def castInt (x : ℚ) : ℤ :=
  let t : ℤ := if 0 ≤ x then ⌊x⌋ else -⌊-x⌋
  if -2147483648 ≤ t ∧ t ≤ 2147483647 then t else -2147483648

/-- The inner loop `for k < m_stateDimension: test.values[k] = s1->values[k] + factor * step[k]`
that every sweep of the source uses to build a sample. -/
def stateAt (dim : ℕ) (s1 step : State) (factor : ℚ) : State :=
  (List.range dim).map fun k => s1.getD k 0 + factor * step.getD k 0

namespace SpaceInformationKinematic

/-- The array `diff` of `findDifferenceStep`. -/
def findDiff (si : SpaceInformationKinematic) (s1 s2 : State) : List ℚ :=
  (List.range si.m_stateDimension).map fun i =>
    if (si.m_stateComponent i).type = StateComponentType.WRAPPING_ANGLE then
      si.shortest_angular_distance (s1.getD i 0) (s2.getD i 0)
    else s2.getD i 0 - s1.getD i 0

/-- The division count of `findDifferenceStep`: the loop `nd = 1; for i: if (nd < d) nd = d`
with `int d = 1 + (int)(fabs(diff[i]) / (factor * resolution))`, the increment being an `int`
addition. -/
def findDivisions (si : SpaceInformationKinematic) (diff : List ℚ) (factor : ℚ) : ℤ :=
  (List.range si.m_stateDimension).foldl
    (fun nd i =>
      let d := wrapInt
        (1 + castInt (|diff.getD i 0| / (factor * (si.m_stateComponent i).resolution)))
      if nd < d then d else nd)
    1

/-- `findDifferenceStep(s1, s2, factor, step)`: returns `nd` and the vector written to `step`. -/
def findDifferenceStep (si : SpaceInformationKinematic) (s1 s2 : State) (factor : ℚ) :
    ℤ × List ℚ :=
  let diff := si.findDiff s1 s2
  let nd := si.findDivisions diff factor
  (nd, diff.map fun x => x / (nd : ℚ))

/-- Termination measure of the queue of `checkMotionSubdivision`. -/
def queueWeight (pos : List (ℤ × ℤ)) : ℕ :=
  (pos.map fun x => 1 + 2 * (x.2 - x.1).toNat).sum

/-- The `while (!pos.empty())` loop of `checkMotionSubdivision`: `pos` is the FIFO queue (front
first); the result is `false` at the first invalid midpoint, `true` when the queue empties.
The sum `x.first + x.second` is taken exactly, which is the `int` addition of the source as
long as the sum is at most `2^31 - 1` (for `nd ≤ 2^30`); `subdivisionRun` wraps the sum. -/
def subdivisionLoop (si : SpaceInformationKinematic) (s1 step : State) :
    List (ℤ × ℤ) → Bool
  | [] => true
  | x :: rest =>
    let mid := Int.tdiv (x.1 + x.2) 2
    if !si.isValid (stateAt si.m_stateDimension s1 step (mid : ℚ)) then false
    else
      subdivisionLoop si s1 step
        ((rest ++ if x.1 < mid then [(x.1, mid - 1)] else [])
          ++ if x.2 > mid then [(mid + 1, x.2)] else [])
termination_by pos => queueWeight pos
decreasing_by
  have hb : (x.1 + x.2) - 1 ≤ 2 * (x.1 + x.2).tdiv 2 ∧ 2 * (x.1 + x.2).tdiv 2 ≤ (x.1 + x.2) + 1 := by
    rcases le_total 0 (x.1 + x.2) with h | h
    · rw [Int.tdiv_eq_ediv h (by norm_num)]; omega
    · have : (x.1 + x.2).tdiv 2 = -((-(x.1 + x.2)) / 2) := by
        rw [← Int.tdiv_eq_ediv (by omega) (by norm_num), Int.neg_tdiv, neg_neg]
      rw [this]; omega
  simp only [queueWeight, List.map_append, List.sum_append, List.map_cons, List.sum_cons]
  split_ifs <;> simp <;> omega

/-- `checkMotionSubdivision(s1, s2)`. -/
def checkMotionSubdivision (si : SpaceInformationKinematic) (s1 s2 : State) : Bool :=
  if !si.isValid s2 then false
  else
    let r := si.findDifferenceStep s1 s2 1
    let nd := r.1
    let step := r.2
    si.subdivisionLoop s1 step (if nd ≥ 2 then [(1, nd - 1)] else [])

/-- The values of `j` visited by `for (int j = 1 ; j < nd ; ++j)`. -/
def sweepIndices (nd : ℤ) : List ℤ :=
  (List.range (nd.toNat - 1)).map fun (n : ℕ) => (n : ℤ) + 1

/-- Result of `checkMotionIncremental`: the returned flag and the contents of the two output
locations after the call (`none` stands for a `NULL` pointer). -/
structure IncrementalResult where
  result : Bool
  lastValidState : Option State
  lastValidTime : Option ℚ
  deriving DecidableEq

/-- `checkMotionIncremental(s1, s2, lastValidState, lastValidTime)`.  The two output arguments
carry the value stored at the pointer before the call, or `none` for `NULL`.  The sweep stops at
the first `j` whose sample is invalid. -/
def checkMotionIncremental (si : SpaceInformationKinematic) (s1 s2 : State)
    (lastValidState : Option State) (lastValidTime : Option ℚ) : IncrementalResult :=
  if !si.isValid s2 then ⟨false, lastValidState, lastValidTime⟩
  else
    let r := si.findDifferenceStep s1 s2 1
    let nd := r.1
    let step := r.2
    match (sweepIndices nd).find?
        (fun (j : ℤ) => !si.isValid (stateAt si.m_stateDimension s1 step (j : ℚ))) with
    | some j =>
      ⟨false,
        lastValidState.map (fun _ => stateAt si.m_stateDimension s1 step ((j : ℚ) - 1)),
        lastValidTime.map (fun _ => ((j - 1 : ℤ) : ℚ) / (nd : ℚ))⟩
    | none => ⟨true, lastValidState, lastValidTime⟩

/-- The loop `for (j = 0 ; result && j < last ; ++j)` of `checkPath`, on the list of states
that starts at index `j`. -/
def checkPathLoop (si : SpaceInformationKinematic) : List State → Bool
  | a :: b :: rest =>
    if !si.checkMotionSubdivision a b then false else checkPathLoop si (b :: rest)
  | _ => true

/-- `checkPath(path)`; `none` is the `NULL` path, `some states` a path with these states. -/
def checkPath (si : SpaceInformationKinematic) (path : Option (List State)) : Bool :=
  match path with
  | none => false
  | some [] => true
  | some (s0 :: rest) =>
    if si.isValid s0 then si.checkPathLoop (s0 :: rest) else false

end SpaceInformationKinematic

/-- The point `s1 + t·(s2 - s1)` of the straight segment from `s1` to `s2`, as the
specification of the motion checks writes it (componentwise, arithmetic difference). -/
def interpolate (s1 s2 : State) (t : ℚ) : State :=
  List.zipWith (fun a b => a + t * (b - a)) s1 s2

/-! ## Goals, motions and the solution path -/

/-- A projection coordinate (`Grid::Coord`). -/
abbrev Coord := List ℤ

/-- Modelled from the spec: `Goal.h`, `GoalState.h` and `GoalKinematic.h` are not among the
sources.  The goal is a tagged variant with the recognised shapes `GoalState`, `GoalRegion`
and `GoalRegionKinematic`; `undefined` stands for a missing goal or one of another class.  The
planners discover the shape by `dynamic_cast`. -/
inductive GoalKind where
  | undefined
  | region
  | regionKinematic
  | state (state : State)

/-- Modelled from the spec: the goal object.  `isSatisfied(state, &dist)` is the pair of its
result and of the distance it stores; `isAchieved()` is read after the planner has stored
(`some`) or not stored (`none`) a solution path with its `approximate` flag. -/
structure Goal where
  kind : GoalKind
  isSatisfied : State → Bool × ℚ
  isAchieved : Option (List State × Bool) → Bool

namespace Goal

/-- Whether `dynamic_cast<base::GoalRegion*>` is not null: states and kinematic regions are
regions. -/
def goal_r (g : Goal) : Bool :=
  match g.kind with
  | GoalKind.undefined => false
  | _ => true

/-- Whether `dynamic_cast<GoalRegionKinematic*>` is not null. -/
def goal_k (g : Goal) : Bool :=
  match g.kind with
  | GoalKind.regionKinematic => true
  | _ => false

/-- The result of `dynamic_cast<base::GoalState*>`: the goal state when there is one. -/
def goal_s (g : Goal) : Option State :=
  match g.kind with
  | GoalKind.state s => some s
  | _ => none

end Goal

/-- Modelled from the spec: `copyState(dst, src)` of the base class assigns all components;
the value stored in `dst` is returned. -/
def copyState (src : State) : State := src

/-- A tree node (`Motion`): its state and the pointer to its parent, `none` for a root.  A
pointer to a motion is the position of the motion in the list of all motions added so far. -/
structure Motion where
  state : State
  parent : Option ℕ

/-- The comparison `dist < approxdif`, where `approxdif = none` is `INFINITY`.  The distance is
finite; a `dist` of `INFINITY` or NaN, for which the comparison of the source is false, has no
counterpart here. -/
def ltApproxdif (dist : ℚ) : Option ℚ → Bool
  | none => true
  | some a => decide (dist < a)

/-- The parent walk `while (solution != NULL) { mpath.push_back(solution); solution =
solution->parent; }`, run for at most `fuel` motions: `none` when the walk is not over by then
or follows a pointer to no motion. -/
def parentWalk (motions : List Motion) : ℕ → Option ℕ → Option (List ℕ)
  | _, none => some []
  | 0, some _ => none
  | fuel + 1, some i =>
    match motions[i]? with
    | none => none
    | some m => (parentWalk motions fuel m.parent).map fun mpath => i :: mpath

/-- The loop `for (i = mpath.size() - 1 ; i >= 0 ; --i)` that copies the states of `mpath`,
last element first, into the path. -/
def pathStates (motions : List Motion) (mpath : List ℕ) : List State :=
  mpath.reverse.map fun i => copyState (((motions[i]?).map Motion.state).getD [])

/-- The depth of a motion: `HasDepth motions i d` says that `d` parent links lead from the
motion at position `i` to a root, a motion without parent. -/
inductive HasDepth (motions : List Motion) : ℕ → ℕ → Prop where
  | root (i : ℕ) (m : Motion) : motions[i]? = some m → m.parent = none → HasDepth motions i 0
  | child (i : ℕ) (m : Motion) (p d : ℕ) : motions[i]? = some m → m.parent = some p →
      HasDepth motions p d → HasDepth motions i (d + 1)

/-- What `solve` stores in the goal: the argument of `setDifference` and the arguments of
`setSolutionPath`, each `none` when the call is not made. -/
structure GoalCalls where
  setDifference : Option (Option ℚ)
  setSolutionPath : Option (List State × Bool)

/-- The part of `solve` after the loop, the same text in `EST.cpp` and `KPIECE1.cpp`: choose
the exact or the approximate solution, walk its parents and hand the path to the goal.  A walk
over `n` motions that is not over after `n` of them never ends; the result is then `none`. -/
def reportSolution (motions : List Motion) (solution approxsol : Option ℕ)
    (approxdif : Option ℚ) : Option GoalCalls :=
  let approximate := solution.isNone
  let chosen := if solution.isNone then approxsol else solution
  match chosen with
  | none => some ⟨none, none⟩
  | some s =>
    match parentWalk motions motions.length (some s) with
    | none => none
    | some mpath => some ⟨some approxdif, some (pathStates motions mpath, approximate)⟩

/-- What a call of `solve` leaves behind: the motions and the tree of the planner, the calls
made on the goal, and the returned value. -/
structure SolveResult (σ : Type) where
  planner : σ
  goalCalls : GoalCalls
  returned : Bool

/-! ## EST -/

namespace EST

/-- A grid cell of EST: its coordinate and its `MotionSet`, a vector of motion pointers. -/
structure Cell where
  coord : Coord
  data : List ℕ

/-- The member `m_tree`: the grid (its cells in enumeration order) and the motion count. -/
structure Tree where
  grid : List Cell
  size : ℕ

/-- The mutable state of the planner: every motion added so far and the tree. -/
structure PlannerState where
  motions : List Motion
  tree : Tree

/-- The empty planner: no motion, empty grid, size 0. -/
def PlannerState.empty : PlannerState := ⟨[], ⟨[], 0⟩⟩

/-- `Grid::getCell(coord)`: the position of the cell with this coordinate, `none` for `NULL`. -/
def getCell : List Cell → Coord → Option ℕ
  | [], _ => none
  | c :: rest, coord => if c.coord = coord then some 0 else (getCell rest coord).map (· + 1)

/-- What one turn of the loop of `solve` obtains from the random source and the samplers. -/
structure Inputs where
  uniform : ℚ
  uniformInt : ℕ → ℕ → ℕ
  uniformBias : ℚ
  sampleNearGoal : State
  sampleNear : State → List ℚ → State

/-- The loop of `selectMotion` over the cells: accumulate the weights into `sum` and stop at
the first cell with `prob < sum`.  The unsigned difference `m_tree.size - data.size()` is the
truncated difference of natural numbers; the two agree as long as no cell holds more motions
than the tree counts.  The weights and their running sum are exact (the source rounds each). -/
def selectCell (size : ℕ) (prob : ℚ) : List Cell → ℚ → Option Cell
  | [], _ => none
  | c :: rest, sum =>
    let sum1 := sum + ((size - c.data.length : ℕ) : ℚ) / (size : ℚ)
    if prob < sum1 then some c else selectCell size prob rest sum1

/-- `EST::selectMotion()`: the selected motion pointer, `none` for `NULL`. -/
def selectMotion (s : PlannerState) (d : Inputs) : Option ℕ :=
  let prob := d.uniform * ((s.tree.grid.length - 1 : ℕ) : ℚ)
  let cell :=
    match selectCell s.tree.size prob s.tree.grid 0 with
    | some c => some c
    | none => s.tree.grid.head?
  match cell with
  | some c => if !c.data.isEmpty then c.data[d.uniformInt 0 (c.data.length - 1)]? else none
  | none => none

end EST

/-- The planner `EST` with its collaborators: space information, goal, start states, the
projection evaluator and the two parameters. -/
structure EST where
  si : SpaceInformationKinematic
  goal : Goal
  startStates : List State
  computeCoordinates : State → Coord
  m_rho : ℚ
  m_goalBias : ℚ

namespace EST

/-- `EST::addMotion(motion)`; the motion is stored at the next free position, which is its
pointer. -/
def addMotion (p : EST) (s : PlannerState) (motion : Motion) : PlannerState :=
  let ptr := s.motions.length
  let coord := p.computeCoordinates motion.state
  let grid :=
    match getCell s.tree.grid coord with
    | some c => List.modify (fun cell => { cell with data := cell.data ++ [ptr] }) c s.tree.grid
    | none => s.tree.grid ++ [⟨coord, [ptr]⟩]
  ⟨s.motions ++ [motion], ⟨grid, s.tree.size + 1⟩⟩

/-- The seeding loop of `solve` over the start states. -/
def seed (p : EST) (s : PlannerState) : PlannerState :=
  p.startStates.foldl
    (fun s st =>
      let motion : Motion := ⟨copyState st, none⟩
      if p.si.satisfiesBounds motion.state && p.si.isValid motion.state then
        addMotion p s motion
      else s)
    s

/-- The vector `range` of `solve`. -/
def range (p : EST) : List ℚ :=
  (List.range p.si.m_stateDimension).map fun i =>
    p.m_rho * ((p.si.m_stateComponent i).maxValue - (p.si.m_stateComponent i).minValue)

/-- The local variables of `solve` that live across loop turns. -/
structure LoopState where
  st : PlannerState
  solution : Option ℕ
  approxsol : Option ℕ
  approxdif : Option ℚ

/-- The state `xstate` sampled in one loop turn, `existing` being the state expanded from. -/
def sample (p : EST) (d : Inputs) (existing : State) : State :=
  let biasSample := p.goal.goal_k || p.goal.goal_s.isSome
  if biasSample && decide (d.uniformBias < p.m_goalBias) then
    match p.goal.goal_s with
    | some g => copyState g
    | none => d.sampleNearGoal
  else d.sampleNear existing p.range

/-- The loop `while (ros::WallTime::now() < endTime)` of `solve`: one element of the list per
turn that starts before the deadline.  `none`: `assert(existing)` fails (or a pointer to no
motion is followed). -/
def loop (p : EST) : LoopState → List Inputs → Option LoopState
  | ls, [] => some ls
  | ls, d :: ds =>
    match selectMotion ls.st d with
    | none => none
    | some existing =>
      match ls.st.motions[existing]? with
      | none => none
      | some em =>
        let xstate := sample p d em.state
        if p.si.checkMotionSubdivision em.state xstate then
          let motion : Motion := ⟨copyState xstate, some existing⟩
          let ptr := ls.st.motions.length
          let st := addMotion p ls.st motion
          let r := p.goal.isSatisfied motion.state
          if r.1 then
            some ⟨st, some ptr, ls.approxsol, some r.2⟩
          else if ltApproxdif r.2 ls.approxdif then
            loop p ⟨st, ls.solution, some ptr, some r.2⟩ ds
          else loop p ⟨st, ls.solution, ls.approxsol, ls.approxdif⟩ ds
        else loop p ls ds

/-- `EST::solve(solveTime)` on the planner state `s`; `inputs` has one element per loop turn
that the deadline allows.  `none`: the call does not return normally. -/
def solve (p : EST) (s : PlannerState) (inputs : List Inputs) :
    Option (SolveResult PlannerState) :=
  if p.goal.goal_s.isNone && !p.goal.goal_r then some ⟨s, ⟨none, none⟩, false⟩
  else
    let s1 := if s.tree.grid.length = 0 then seed p s else s
    if s1.tree.grid.length = 0 then some ⟨s1, ⟨none, none⟩, false⟩
    else
      match loop p ⟨s1, none, none, none⟩ inputs with
      | none => none
      | some ls =>
        match reportSolution ls.st.motions ls.solution ls.approxsol ls.approxdif with
        | none => none
        | some calls => some ⟨ls.st, calls, p.goal.isAchieved calls.setSolutionPath⟩

/-- The tree invariant behind EST's solution paths: every root has a valid state, and every
other motion has an earlier motion as parent, the segment from the parent's state to its own
having passed `checkMotionSubdivision`. -/
def TreeValid (si : SpaceInformationKinematic) (motions : List Motion) : Prop :=
  ∀ (i : ℕ) (m : Motion), motions[i]? = some m →
    (m.parent = none → si.isValid m.state = true)
      ∧ ∀ e : ℕ, m.parent = some e →
          e < i ∧ ∃ em : Motion, motions[e]? = some em
            ∧ si.checkMotionSubdivision em.state m.state = true

/-- The planner states that calls of `solve` build from the empty planner, for planners over
the space `si`. -/
inductive Built (si : SpaceInformationKinematic) : PlannerState → Prop where
  | empty : Built si PlannerState.empty
  | solve (p : EST) (s : PlannerState) (inputs : List Inputs)
      (res : SolveResult PlannerState) :
      p.si = si → Built si s → solve p s inputs = some res → Built si res.planner

end EST

/-! ## KPIECE1 -/

namespace SpaceInformationKinematic

/-- Modelled from the spec: `checkMotion(s1, s2, lastValidState, lastValidTime)` is declared in
`SpaceInformationKinematic.h`, which is not among the sources; the specification of KPIECE1
names the incremental check as the one that runs. -/
def checkMotion (si : SpaceInformationKinematic) (s1 s2 : State)
    (lastValidState : Option State) (lastValidTime : Option ℚ) : IncrementalResult :=
  si.checkMotionIncremental s1 s2 lastValidState lastValidTime

end SpaceInformationKinematic

namespace KPIECE1

/-- The payload `CellData` of a grid cell of KPIECE1. -/
structure CellData where
  motions : List ℕ
  coverage : ℚ
  selections : ℕ
  score : ℚ
  iteration : ℕ

/-- A grid cell of KPIECE1: its coordinate and its data. -/
structure Cell where
  coord : Coord
  data : CellData

/-- The member `m_tree`: the cells of the grid, the motion count and the iteration counter.
The two heaps of the grid order the same cells and are not part of the state: what they answer
is an input of each loop turn. -/
structure Tree where
  grid : List Cell
  size : ℕ
  iteration : ℕ

/-- The mutable state of the planner: every motion added so far and the tree. -/
structure PlannerState where
  motions : List Motion
  tree : Tree

/-- The empty planner: no motion, empty grid, size 0, iteration 0. -/
def PlannerState.empty : PlannerState := ⟨[], ⟨[], 0, 0⟩⟩

/-- `Grid::getCell(coord)`: the position of the cell with this coordinate, `none` for `NULL`. -/
def getCell : List Cell → Coord → Option ℕ
  | [], _ => none
  | c :: rest, coord => if c.coord = coord then some 0 else (getCell rest coord).map (· + 1)

/-- What one turn of the loop of `solve` obtains from outside the translated sources: the
random draws, the answers of the grid's heaps (`fracExternal`, `topExternal`, `topInternal`,
a cell pointer being a position in the grid), the samplers and the hill climber
(`tryToImprove(xstate, improveValue)` gives its result and the new `xstate`). -/
structure Inputs where
  uniform01Select : ℚ
  fracExternal : ℚ
  topExternal : Option ℕ
  topInternal : Option ℕ
  halfNormalInt : ℕ → ℕ → ℕ
  uniform01Bias : ℚ
  sampleNearGoal : State
  sampleNear : State → List ℚ → State
  tryToImprove : State → ℚ → Bool × State

end KPIECE1

/-- The planner `KPIECE1` with its collaborators and parameters. -/
structure KPIECE1 where
  si : SpaceInformationKinematic
  goal : Goal
  startStates : List State
  computeCoordinates : State → Coord
  m_rho : ℚ
  m_goalBias : ℚ
  m_minValidPathPercentage : ℚ
  m_selectBorderPercentage : ℚ
  m_goodScoreFactor : ℚ
  m_badScoreFactor : ℚ

namespace KPIECE1

/-- `KPIECE1::selectMotion(smotion, scell)`.  `some (s, smotion, scell)`: the call returns
true and leaves the planner in state `s`; `none`: it returns false, or reads outside the grid or
outside the cell's motions. -/
def selectMotion (p : KPIECE1) (s : PlannerState) (d : Inputs) :
    Option (PlannerState × ℕ × ℕ) :=
  let scell :=
    if d.uniform01Select < max p.m_selectBorderPercentage d.fracExternal then d.topExternal
    else d.topInternal
  match scell with
  | none => none
  | some c =>
    match s.tree.grid[c]? with
    | none => none
    | some cell =>
      if !cell.data.motions.isEmpty then
        let grid := List.modify
          (fun cell => { cell with data := { cell.data with selections := cell.data.selections + 1 } })
          c s.tree.grid
        match cell.data.motions[d.halfNormalInt 0 (cell.data.motions.length - 1)]? with
        | none => none
        | some smotion => some (⟨s.motions, { s.tree with grid := grid }⟩, smotion, c)
      else none

/-- `KPIECE1::addMotion(motion, dist)`: the new planner state and the returned `created`.
`grid.update(cell)` reorders a heap and leaves the cells as they are. -/
def addMotion (p : KPIECE1) (s : PlannerState) (motion : Motion) (dist : ℚ) :
    PlannerState × ℕ :=
  let ptr := s.motions.length
  let coord := p.computeCoordinates motion.state
  match getCell s.tree.grid coord with
  | some c =>
    let grid := List.modify
      (fun cell => { cell with data :=
        { cell.data with motions := cell.data.motions ++ [ptr],
                         coverage := cell.data.coverage + 1 } })
      c s.tree.grid
    (⟨s.motions ++ [motion], { s.tree with grid := grid, size := s.tree.size + 1 }⟩, 0)
  | none =>
    let cell : Cell :=
      ⟨coord, { motions := [ptr], coverage := 1, iteration := s.tree.iteration,
                selections := 1, score := 1 / (1 / 1000 + dist) }⟩
    (⟨s.motions ++ [motion],
      { s.tree with grid := s.tree.grid ++ [cell], size := s.tree.size + 1 }⟩, 1)

/-- The seeding loop of `solve` over the start states. -/
def seed (p : KPIECE1) (s : PlannerState) : PlannerState :=
  p.startStates.foldl
    (fun s st =>
      let motion : Motion := ⟨copyState st, none⟩
      if p.si.satisfiesBounds motion.state && p.si.isValid motion.state then
        (addMotion p s motion 1).1
      else s)
    s

/-- The vector `range` of `solve`. -/
def range (p : KPIECE1) : List ℚ :=
  (List.range p.si.m_stateDimension).map fun i =>
    p.m_rho * ((p.si.m_stateComponent i).maxValue - (p.si.m_stateComponent i).minValue)

/-- The local variables of `solve` that live across loop turns. -/
structure LoopState where
  st : PlannerState
  solution : Option ℕ
  approxsol : Option ℕ
  approxdif : Option ℚ
  improveValue : ℚ

/-- The sampling step of one loop turn: the sampled `xstate` and the new `improveValue`.
`approxState` is `approxsol->state` when `approxsol` is not null. -/
def sample (p : KPIECE1) (d : Inputs) (existing : State) (approxState : Option State)
    (improveValue : ℚ) : State × ℚ :=
  if d.uniform01Bias < p.m_goalBias then
    match p.goal.goal_s with
    | some g => (copyState g, improveValue)
    | none =>
      if p.goal.goal_k then (d.sampleNearGoal, improveValue)
      else
        match approxState with
        | some a =>
          let r := d.tryToImprove (copyState a) improveValue
          if !r.1 then (d.sampleNear existing p.range, improveValue / 2)
          else (r.2, improveValue)
        | none => (d.sampleNear existing p.range, improveValue)
  else (d.sampleNear existing p.range, improveValue)

/-- The statement `ecell->data->score *= factor`, with the product taken exactly (the `double`
of the source rounds it, and can round it to `0` or to the old score). -/
def scaleScore (factor : ℚ) (ecell : ℕ) (s : PlannerState) : PlannerState :=
  let grid := List.modify
    (fun cell => { cell with data := { cell.data with score := cell.data.score * factor } })
    ecell s.tree.grid
  ⟨s.motions, { s.tree with grid := grid }⟩

/-- The loop `while (ros::WallTime::now() < endTime)` of `solve`: one element of the list per
turn that starts before the deadline.  `none`: `assert(existing)` fails (or a pointer to no
motion is followed). -/
def loop (p : KPIECE1) : LoopState → List Inputs → Option LoopState
  | ls, [] => some ls
  | ls, d :: ds =>
    let s0 : PlannerState :=
      ⟨ls.st.motions, { ls.st.tree with iteration := ls.st.tree.iteration + 1 }⟩
    match selectMotion p s0 d with
    | none => none
    | some (s1, existing, ecell) =>
      match s1.motions[existing]? with
      | none => none
      | some em =>
        let approxState := ls.approxsol.bind fun a => (s1.motions[a]?).map Motion.state
        let sm := sample p d em.state approxState ls.improveValue
        let r := p.si.checkMotion em.state sm.1 (some sm.1) (some 0)
        let xstate := r.lastValidState.getD sm.1
        let failTime := r.lastValidTime.getD 0
        let keep := r.result || (!r.result && decide (failTime > p.m_minValidPathPercentage))
        if keep then
          let motion : Motion := ⟨copyState xstate, some existing⟩
          let ptr := s1.motions.length
          let g := p.goal.isSatisfied motion.state
          let s2 := (addMotion p s1 motion g.2).1
          if g.1 then
            some ⟨s2, some ptr, ls.approxsol, some g.2, sm.2⟩
          else if ltApproxdif g.2 ls.approxdif then
            loop p ⟨scaleScore p.m_goodScoreFactor ecell s2, ls.solution, some ptr, some g.2,
              sm.2⟩ ds
          else
            loop p ⟨scaleScore p.m_goodScoreFactor ecell s2, ls.solution, ls.approxsol,
              ls.approxdif, sm.2⟩ ds
        else
          loop p ⟨scaleScore p.m_badScoreFactor ecell s1, ls.solution, ls.approxsol,
            ls.approxdif, sm.2⟩ ds

/-- `KPIECE1::solve(solveTime)` on the planner state `s`; `inputs` has one element per loop
turn that the deadline allows.  `none`: the call does not return normally. -/
def solve (p : KPIECE1) (s : PlannerState) (inputs : List Inputs) :
    Option (SolveResult PlannerState) :=
  if p.goal.goal_s.isNone && !p.goal.goal_r then some ⟨s, ⟨none, none⟩, false⟩
  else
    let s1 := if s.tree.grid.length = 0 then seed p s else s
    if s1.tree.grid.length = 0 then some ⟨s1, ⟨none, none⟩, false⟩
    else
      match loop p ⟨s1, none, none, none, 1 / 100⟩ inputs with
      | none => none
      | some ls =>
        match reportSolution ls.st.motions ls.solution ls.approxsol ls.approxdif with
        | none => none
        | some calls => some ⟨ls.st, calls, p.goal.isAchieved calls.setSolutionPath⟩

end KPIECE1

/-! ## Concrete spaces used to exercise the definitions -/

/-- A one-dimensional space `[0, 10]` with a linear component of resolution `1` and the given
validity predicate. -/
def lineSpace (valid : State → Bool) : SpaceInformationKinematic where
  m_stateDimension := 1
  m_stateComponent := fun _ => ⟨StateComponentType.LINEAR, 0, 10, 1⟩
  isValid := valid
  satisfiesBounds := fun s => decide (0 ≤ s.getD 0 0 ∧ s.getD 0 0 ≤ 10)
  shortest_angular_distance := fun a b => b - a

/-- Validity predicate of a line whose points below `3` are free. -/
def belowThree : State → Bool := fun s => decide (s.getD 0 0 < 3)

/-- Validity predicate of a line with an obstacle on the open interval `(1, 2)`. -/
def gapOneTwo : State → Bool := fun s => decide (s.getD 0 0 ≤ 1 ∨ 2 ≤ s.getD 0 0)

/-- A state goal at `5/2` on the line, satisfied by exactly that state; achieved when a path
has been stored. -/
def lineGoal : Goal where
  kind := GoalKind.state [5/2]
  isSatisfied := fun s => (decide (s = [5/2]), |s.getD 0 0 - 5/2|)
  isAchieved := fun o => o.isSome

/-- An EST planner on the line `belowThree`: start `0`, goal `5/2`, unit cells, goal bias 1. -/
def lineEST : EST where
  si := lineSpace belowThree
  goal := lineGoal
  startStates := [[0]]
  computeCoordinates := fun s => [⌊s.getD 0 0⌋]
  m_rho := 1 / 2
  m_goalBias := 1

/-- Inputs of one loop turn of EST: all draws are `0` and the samplers return the goal and the
state they start from. -/
def lineInputs : EST.Inputs where
  uniform := 0
  uniformInt := fun lo _ => lo
  uniformBias := 0
  sampleNearGoal := [5/2]
  sampleNear := fun s _ => s

/-- The result of `lineEST` on the empty planner with one loop turn: the start and the goal
state are motions, and the exact path `[0, 5/2]` is handed to the goal. -/
def lineESTResult : SolveResult EST.PlannerState :=
  ⟨⟨[⟨[0], none⟩, ⟨[5/2], some 0⟩], ⟨[⟨[0], [0]⟩, ⟨[2], [1]⟩], 2⟩⟩,
    ⟨some (some 0), some ([[0], [5/2]], false)⟩, true⟩

/-- A state goal at `11`, outside the bounds `[0, 10]` of the line. -/
def farGoal : Goal where
  kind := GoalKind.state [11]
  isSatisfied := fun s => (decide (s = [11]), |s.getD 0 0 - 11|)
  isAchieved := fun o => o.isSome

/-- An EST planner on the obstacle-free line with the goal state `11` and goal bias 1. -/
def farEST : EST where
  si := lineSpace fun _ => true
  goal := farGoal
  startStates := [[0]]
  computeCoordinates := fun s => [⌊s.getD 0 0⌋]
  m_rho := 1 / 2
  m_goalBias := 1

/-- The result of `farEST` on the empty planner with one loop turn. -/
def farESTResult : SolveResult EST.PlannerState :=
  ⟨⟨[⟨[0], none⟩, ⟨[11], some 0⟩], ⟨[⟨[0], [0]⟩, ⟨[11], [1]⟩], 2⟩⟩,
    ⟨some (some 0), some ([[0], [11]], false)⟩, true⟩

/-- A KPIECE1 planner on the line `belowThree`: start `0`, goal `5/2`, goal bias 1. -/
def lineKPIECE1 : KPIECE1 where
  si := lineSpace belowThree
  goal := lineGoal
  startStates := [[0]]
  computeCoordinates := fun s => [⌊s.getD 0 0⌋]
  m_rho := 1 / 2
  m_goalBias := 1
  m_minValidPathPercentage := 1 / 2
  m_selectBorderPercentage := 9 / 10
  m_goodScoreFactor := 9 / 10
  m_badScoreFactor := 9 / 20

/-- Inputs of one loop turn of KPIECE1: all draws are `0`, the grid reports its first cell as
the top external cell, and the samplers return the goal and the state they start from. -/
def lineKInputs : KPIECE1.Inputs where
  uniform01Select := 0
  fracExternal := 1
  topExternal := some 0
  topInternal := none
  halfNormalInt := fun lo _ => lo
  uniform01Bias := 0
  sampleNearGoal := [5/2]
  sampleNear := fun s _ => s
  tryToImprove := fun s _ => (false, s)

/-- The result of `lineKPIECE1` on the empty planner with one loop turn. -/
def lineKPIECE1Result : SolveResult KPIECE1.PlannerState :=
  ⟨⟨[⟨[0], none⟩, ⟨[5/2], some 0⟩],
      ⟨[⟨[0], ⟨[0], 1, 2, 1000 / 1001, 0⟩⟩, ⟨[2], ⟨[1], 1, 1, 1000, 1⟩⟩], 2, 1⟩⟩,
    ⟨some (some 0), some ([[0], [5/2]], false)⟩, true⟩

/-- A state goal at `7/2`, an invalid state of the line `belowThree`. -/
def blockedGoal : Goal where
  kind := GoalKind.state [7/2]
  isSatisfied := fun s => (decide (s = [7/2]), |s.getD 0 0 - 7/2|)
  isAchieved := fun o => o.isSome

/-- The planner `lineKPIECE1` with the goal `7/2` and a negative `minValidPathPercentage`. -/
def negativeKPIECE1 : KPIECE1 :=
  { lineKPIECE1 with goal := blockedGoal, m_minValidPathPercentage := -1 }

/-- The result of `negativeKPIECE1` on the empty planner with one loop turn: the invalid goal
state has become a motion. -/
def negativeKPIECE1Result : SolveResult KPIECE1.PlannerState :=
  ⟨⟨[⟨[0], none⟩, ⟨[7/2], some 0⟩],
      ⟨[⟨[0], ⟨[0], 1, 2, 1000 / 1001, 0⟩⟩, ⟨[3], ⟨[1], 1, 1, 1000, 1⟩⟩], 2, 1⟩⟩,
    ⟨some (some 0), some ([[0], [7/2]], false)⟩, true⟩

/-! ## Selection weights, loop bookkeeping and further concrete inputs -/

namespace EST

/-- The weight `w_c = (treeSize - |motions_c|) / treeSize` of a cell in the density-inverse
selection of EST. -/
def weight (size : ℕ) (c : Cell) : ℚ := ((size : ℚ) - (c.data.length : ℚ)) / (size : ℚ)

/-- The cumulative weight of the first `k + 1` cells of the grid in enumeration order. -/
def cumulativeWeight (size : ℕ) (grid : List Cell) (k : ℕ) : ℚ :=
  ((grid.take (k + 1)).map (weight size)).sum

end EST

/-- The bookkeeping of the loop of `solve` (the same in EST and KPIECE1) over the motions that
the loop inserts, in order: `Tracked goal base created (approxsol, approxdif) (solution,
approxsol1, approxdif1)` relates the variables before the loop to the variables after it, the
first inserted motion being stored at position `base`.  A motion that satisfies the goal
becomes `solution` and ends the loop; any other motion becomes `approxsol` when its distance
is below `approxdif`. -/
inductive Tracked (goal : Goal) :
    ℕ → List Motion → Option ℕ × Option ℚ → Option ℕ × Option ℕ × Option ℚ → Prop where
  | done (base : ℕ) (a : Option ℕ × Option ℚ) : Tracked goal base [] a (none, a.1, a.2)
  | solved (base : ℕ) (m : Motion) (a : Option ℕ × Option ℚ) :
      (goal.isSatisfied m.state).1 = true →
      Tracked goal base [m] a (some base, a.1, some (goal.isSatisfied m.state).2)
  | better (base : ℕ) (m : Motion) (rest : List Motion) (a : Option ℕ × Option ℚ)
      (out : Option ℕ × Option ℕ × Option ℚ) :
      (goal.isSatisfied m.state).1 = false →
      ltApproxdif (goal.isSatisfied m.state).2 a.2 = true →
      Tracked goal (base + 1) rest (some base, some (goal.isSatisfied m.state).2) out →
      Tracked goal base (m :: rest) a out
  | worse (base : ℕ) (m : Motion) (rest : List Motion) (a : Option ℕ × Option ℚ)
      (out : Option ℕ × Option ℕ × Option ℚ) :
      (goal.isSatisfied m.state).1 = false →
      ltApproxdif (goal.isSatisfied m.state).2 a.2 = false →
      Tracked goal (base + 1) rest a out →
      Tracked goal base (m :: rest) a out

/-- The planner `lineEST` without goal bias and with the start state `2`, which lies at distance
`1/2` from the goal `5/2`. -/
def nearStartEST : EST := { lineEST with startStates := [[2]], m_goalBias := 0 }

/-- Inputs of one loop turn of EST whose sampler proposes the state `0`, all draws being `0`. -/
def awayInputs : EST.Inputs := { lineInputs with sampleNear := fun _ _ => [0] }

/-- The result of `nearStartEST` on the empty planner with the one loop turn `awayInputs`: the
state `0` has become a motion and ends the approximate path. -/
def nearStartESTResult : SolveResult EST.PlannerState :=
  ⟨⟨[⟨[2], none⟩, ⟨[0], some 0⟩], ⟨[⟨[2], [0]⟩, ⟨[0], [1]⟩], 2⟩⟩,
    ⟨some (some (5 / 2)), some ([[2], [0]], true)⟩, true⟩

/-- The planner `lineKPIECE1` without goal bias: its samples stay at the state they start
from. -/
def stayKPIECE1 : KPIECE1 := { lineKPIECE1 with m_goalBias := 0 }

namespace SpaceInformationKinematic

/-- `states.resize(n)` on the vector of state pointers: the first `n` entries are kept; the
entries that `resize` appends are null pointers, for which the empty state stands (the
function replaces each by a fresh state before it writes to it). -/
def resizeStates (states : List State) (n : ℕ) : List State :=
  states.take n ++ List.replicate (n - states.length) []

/-- The loop `for (int j = 1 ; j < nd && added < states.size() ; ++j)` of `getMotionStates`, on
the values of `j` still to visit: each turn counts one more state and writes
`s1 + j * step` to `states[j]`. -/
def motionStatesLoop (si : SpaceInformationKinematic) (s1 step : State) :
    List ℤ → List State → ℕ → List State × ℕ
  | [], states, added => (states, added)
  | j :: js, states, added =>
    if added < states.length then
      motionStatesLoop si s1 step js
        (states.set j.toNat (stateAt si.m_stateDimension s1 step (j : ℚ))) (added + 1)
    else (states, added)

/-- `getMotionStates(s1, s2, states, alloc)`: returns the contents of the vector `states` after
the call and the returned count `added`.  An entry of the vector is the state that the pointer
stored there points to; a state allocated by `new State(m_stateDimension)` is written in full
before the function returns, so only the written value appears. -/
def getMotionStates (si : SpaceInformationKinematic) (s1 s2 : State) (states : List State)
    (alloc : Bool) : List State × ℕ :=
  let r := si.findDifferenceStep s1 s2 1
  let nd := r.1
  let step := r.2
  let states0 := if alloc then resizeStates states (nd + 1).toNat else states
  let first : List State × ℕ :=
    if states0.length > 0 then (states0.set 0 (copyState s1), 1) else (states0, 0)
  let swept := motionStatesLoop si s1 step (sweepIndices nd) first.1 first.2
  if swept.2 < swept.1.length then (swept.1.set swept.2 (copyState s2), swept.2 + 1)
  else swept

end SpaceInformationKinematic

/-! ## IKPlanner -/

namespace IKPlanner

/-- What the goal slot of `SpaceInformation` holds: nothing after `forgetGoal()`, the goal the
user set (the pointer `si->getGoal()` read at entry of `solve`), or the temporary
`stateGoal` with the state that GAIK wrote to it. -/
inductive Installed where
  | nothing
  | user
  | temporary (state : State)
  deriving DecidableEq

/-- The calls that `IKPlanner::solve` makes on GAIK and on the inner planner `_P`. -/
inductive Call where
  | gaikSolve
  | clear
  | solve
  deriving DecidableEq

/-- Modelled from the spec: the inner planner `_P` is a template parameter.  Its `solve(time)`
reads the goal installed in `SpaceInformation`, changes the planner, may store a difference
and a solution path in the installed goal, and returns a flag; its `clear()` changes the
planner.  Neither installs a goal. -/
structure Inner (σ : Type) where
  solve : Installed → ℚ → σ → SolveResult σ
  clear : σ → σ

/-- The readings of one turn of the loop `while (!solved)`: the two values of
`(endTime - now).toSec()`, and `m_gaik.solve(time, stateGoal->state)` as a function of the
time it is given: its result and the state it leaves in `stateGoal->state`
(`GAIK.h` is not among the sources). -/
structure Turn where
  timeLeft : ℚ
  gaik : ℚ → Bool × State
  timeLeftSolve : ℚ

end IKPlanner

/-- The planner `IKPlanner<_P>`: the space, the goal the user set, the start states (`none` is
a `NULL` start state) and the inner planner. -/
structure IKPlanner (σ : Type) where
  si : SpaceInformationKinematic
  goal : Goal
  startStates : List (Option State)
  inner : IKPlanner.Inner σ

namespace IKPlanner

/-- The state that `IKPlanner::solve` acts on: the inner planner, the goal slot of
`SpaceInformation`, the last arguments of `setSolutionPath` and `setDifference` on the user's
goal (`none` when not called; a `NULL` path is `none` in the first component), the solution
path held by `stateGoal`, and the calls made so far, each with the content of the goal slot
at the time of the call. -/
structure World (σ : Type) where
  planner : σ
  installed : Installed
  userSolutionPath : Option (Option (List State) × Bool)
  userDifference : Option (Option ℚ)
  stateGoalPath : Option (List State)
  log : List (Call × Installed)

/-- The value that `IKPlanner::solve` returns, with the state it leaves. -/
structure Result (σ : Type) where
  world : World σ
  returned : Bool

/-- The loop `while (!solved)` of `IKPlanner::solve`, one element of `turns` per turn; the
deadline has passed when a turn reads `time_left <= 0` and when the turns are used up. -/
def loop {σ : Type} (p : IKPlanner σ) : World σ → List Turn → Result σ
  | w, [] => ⟨w, false⟩
  | w, t :: ts =>
    if t.timeLeft ≤ 0 then ⟨w, false⟩
    else
      let g := t.gaik (t.timeLeft * (1 / 2))
      let w1 : World σ := { w with log := w.log ++ [(Call.gaikSolve, w.installed)] }
      if g.1 then
        let w2 : World σ := { w1 with installed := Installed.nothing }
        let w3 : World σ := { w2 with installed := Installed.temporary g.2 }
        let w4 : World σ :=
          { w3 with planner := p.inner.clear w3.planner,
                    log := w3.log ++ [(Call.clear, w3.installed)] }
        let r := p.inner.solve w4.installed t.timeLeftSolve w4.planner
        let w5 : World σ :=
          { w4 with planner := r.planner,
                    stateGoalPath :=
                      match r.goalCalls.setSolutionPath with
                      | some path => some path.1
                      | none => w4.stateGoalPath,
                    log := w4.log ++ [(Call.solve, w4.installed)] }
        let w6 : World σ := { w5 with installed := Installed.nothing }
        let w7 : World σ := { w6 with installed := Installed.user }
        if r.returned then
          let sat := p.goal.isSatisfied g.2
          ⟨{ w7 with userSolutionPath := some (w7.stateGoalPath, !sat.1),
                     userDifference := some (some sat.2),
                     stateGoalPath := none }, true⟩
        else loop p { w7 with userSolutionPath := some (none, false) } ts
      else loop p w1 ts

/-- `IKPlanner::solve(solveTime)` on the inner planner `planner`, the goal slot holding the
user's goal at entry. -/
def solve {σ : Type} (p : IKPlanner σ) (planner : σ) (solveTime : ℚ) (turns : List Turn) :
    Result σ :=
  let w : World σ := ⟨planner, Installed.user, none, none, none, []⟩
  if p.goal.goal_s.isSome then
    let r := p.inner.solve w.installed solveTime w.planner
    ⟨{ w with planner := r.planner,
              userSolutionPath := r.goalCalls.setSolutionPath.map fun path =>
                (some path.1, path.2),
              userDifference := r.goalCalls.setDifference,
              log := w.log ++ [(Call.solve, w.installed)] },
      r.returned⟩
  else if !p.goal.goal_r then ⟨w, false⟩
  else
    let foundStart := p.startStates.any fun st =>
      match st with
      | none => false
      | some s => p.si.isValid s
    if !foundStart then ⟨w, false⟩
    else loop p w turns

end IKPlanner

/-- An inner planner over a counter: `solve` counts one call, stores the path `[[0]]` in the
installed goal and succeeds exactly on the temporary goal with state `5/2`; `clear` resets
the counter. -/
def countingInner : IKPlanner.Inner ℕ where
  solve := fun inst _ n =>
    ⟨n + 1, ⟨none, some ([[0]], false)⟩, decide (inst = IKPlanner.Installed.temporary [5/2])⟩
  clear := fun _ => 0

/-- The goal `lineGoal` presented as a region, not as a state. -/
def regionGoal : Goal := { lineGoal with kind := GoalKind.region }

/-- An `IKPlanner` on the line with the region goal `regionGoal` and the valid start `0`. -/
def lineIK : IKPlanner ℕ := ⟨lineSpace belowThree, regionGoal, [some [0]], countingInner⟩

/-- The planner `lineIK` with the state goal `lineGoal`. -/
def stateIK : IKPlanner ℕ := { lineIK with goal := lineGoal }

/-- Three turns of the loop of `IKPlanner::solve`: GAIK fails, then proposes the state `1`, then
the state `5/2`. -/
def ikTurns : List IKPlanner.Turn :=
  [⟨1, fun _ => (false, []), 1⟩, ⟨3 / 4, fun _ => (true, [1]), 1 / 2⟩,
    ⟨1 / 4, fun _ => (true, [5/2]), 1 / 8⟩]

/-- The goal `lineGoal` with a kind that is neither a state nor a region. -/
def undefinedGoal : Goal := { lineGoal with kind := GoalKind.undefined }

/-- The planner `lineEST` with a goal of unknown kind. -/
def noGoalEST : EST := { lineEST with goal := undefinedGoal }

/-- The planner `lineKPIECE1` with the start states `11` and `12`, both out of the bounds
`[0, 10]`. -/
def outsideKPIECE1 : KPIECE1 := { lineKPIECE1 with startStates := [[11], [12]] }

/-- The planner state of EST that holds the start state `0` in the cell `[0]`. -/
def seededEST : EST.PlannerState := ⟨[⟨[0], none⟩], ⟨[⟨[0], [0]⟩], 1⟩⟩

/-- The planner state of KPIECE1 that holds the start state `0` in the cell `[0]`. -/
def seededKPIECE1 : KPIECE1.PlannerState :=
  ⟨[⟨[0], none⟩], ⟨[⟨[0], ⟨[0], 1, 1, 1000 / 1001, 0⟩⟩], 1, 0⟩⟩

/-- The planner `lineKPIECE1` on the line with the obstacle `(1, 2)`, keeping motions that are
valid for more than a quarter of the way. -/
def gapKPIECE1 : KPIECE1 :=
  { lineKPIECE1 with si := lineSpace gapOneTwo, m_minValidPathPercentage := 1 / 4 }

/-- The planner `lineEST` with three start states, the first out of bounds. -/
def mixedEST : EST := { lineEST with startStates := [[11], [0], [1]] }

/-- The planner state `seededKPIECE1` at the start of its first loop turn, after
`selectMotion` has counted the iteration and the selection of the cell `[0]`. -/
def selectedKPIECE1 : KPIECE1.PlannerState :=
  ⟨[⟨[0], none⟩], ⟨[⟨[0], ⟨[0], 1, 2, 1000 / 1001, 0⟩⟩], 1, 1⟩⟩

/-- The variables of `KPIECE1::solve` after the first loop turn of `stayKPIECE1` on
`seededKPIECE1`: the motion `0` has been inserted a second time, into the selected cell, whose
score is now `900/1001`. -/
def stayKPIECE1Loop : KPIECE1.LoopState :=
  ⟨⟨[⟨[0], none⟩, ⟨[0], some 0⟩], ⟨[⟨[0], ⟨[0, 1], 2, 2, 900 / 1001, 0⟩⟩], 2, 1⟩⟩,
    none, some 1, some (5 / 2), 1 / 100⟩

/-! ## The bisection as the machine runs it, path interpolation and the heaps of Grid-B -/

namespace SpaceInformationKinematic

end SpaceInformationKinematic

/-- The planner `lineKPIECE1` with the goal `7/2`, an invalid state of the line: its goal-biased
samples are invalid endpoints. -/
def blockedKPIECE1 : KPIECE1 := { lineKPIECE1 with goal := blockedGoal }

namespace SpaceInformationKinematic

/-- The loop `for (int i = 0 ; i < n1 ; ++i)` of `interpolatePath`, on the list of states that
starts at index `i`: the states pushed to `newStates`, namely each state but the last, followed
by the states `s1 + j·step`, `1 ≤ j < nd`, towards its successor. -/
def interpolateLoop (si : SpaceInformationKinematic) (factor : ℚ) : List State → List State
  | s1 :: s2 :: rest =>
    let r := si.findDifferenceStep s1 s2 factor
    let nd := r.1
    let step := r.2
    (s1 :: (sweepIndices nd).map fun (j : ℤ) => stateAt si.m_stateDimension s1 step (j : ℚ))
      ++ interpolateLoop si factor (s2 :: rest)
  | _ => []

/-- `interpolatePath(path, factor)`: the states of the path after the call.  On a path without
states the source reads `path->states[-1]`; `none` stands for that. -/
def interpolatePath (si : SpaceInformationKinematic) (path : List State) (factor : ℚ) :
    Option (List State) :=
  match path.getLast? with
  | none => none
  | some last => some (si.interpolateLoop factor path ++ [last])

end SpaceInformationKinematic

namespace KPIECE1

/-- Modelled from the spec: the von-Neumann neighbours of a coordinate in a grid of dimension
`dim`, two per component (`GridB.h` is not among the sources). -/
def neighborCoords (dim : ℕ) (coord : Coord) : List Coord :=
  (List.range dim).flatMap fun i =>
    [coord.set i (coord.getD i 0 + 1), coord.set i (coord.getD i 0 - 1)]

/-- Modelled from the spec: the number of occupied grid neighbours of a coordinate. -/
def occupiedNeighbors (dim : ℕ) (grid : List Cell) (coord : Coord) : ℕ :=
  (neighborCoords dim coord).countP fun nc => grid.any fun c => decide (c.coord = nc)

/-- Modelled from the spec: the derived flag of a cell, "external iff the cell has a strictly
smaller number of occupied grid neighbors than the full von-Neumann neighborhood count",
which is `2 * dim`. -/
def isExternal (dim : ℕ) (grid : List Cell) (cell : Cell) : Bool :=
  decide (occupiedNeighbors dim grid cell.coord < 2 * dim)

/-- Modelled from the spec: the two heaps of Grid-B, each as the list of its cells (positions
in the grid), the most important first. -/
structure GridB where
  external : List ℕ
  internal : List ℕ

namespace GridB

/-- Modelled from the spec: `topExternal()` peeks the most important external cell; `none` is
the null pointer of an empty heap. -/
def topExternal (g : GridB) : Option ℕ := g.external.head?

/-- Modelled from the spec: `topInternal()` peeks the most important internal cell. -/
def topInternal (g : GridB) : Option ℕ := g.internal.head?

/-- Modelled from the spec: `fracExternal()` is `|external| / (|internal| + |external|)`. -/
def fracExternal (g : GridB) : ℚ :=
  (g.external.length : ℚ) / ((g.internal.length : ℚ) + (g.external.length : ℚ))

/-- Modelled from the spec: "Grid-B heaps contain exactly the cells of the grid partitioned by
the external flag". -/
def Partitions (g : GridB) (dim : ℕ) (grid : List Cell) : Prop :=
  ∀ c : ℕ,
    (c ∈ g.external ↔ ∃ cell : Cell, grid[c]? = some cell ∧ isExternal dim grid cell = true)
      ∧ (c ∈ g.internal ↔
          ∃ cell : Cell, grid[c]? = some cell ∧ isExternal dim grid cell = false)

end GridB

end KPIECE1

/-- The heaps of Grid-B for the grid of `seededKPIECE1`: its one cell is external. -/
def seededHeaps : KPIECE1.GridB := ⟨[0], []⟩

namespace SpaceInformationKinematic

end SpaceInformationKinematic

theorem getD_map_range (f : ℕ → ℚ) (n i : ℕ) (h : i < n) :
    ((List.range n).map f).getD i 0 = f i := by
  simp [List.getD_eq_getElem?_getD, List.getElem?_range, h]

theorem stateAt_length (dim : ℕ) (s1 step : State) (t : ℚ) :
    (stateAt dim s1 step t).length = dim := by
  simp [stateAt]

/-- The running maximum `nd = 1; for i < n: if (nd < d i) nd = d i`. -/
theorem foldl_max_spec (d : ℕ → ℤ) (n : ℕ) :
    let nd := (List.range n).foldl (fun nd i => if nd < d i then d i else nd) 1
    1 ≤ nd ∧ (∀ i, i < n → d i ≤ nd) ∧ (nd = 1 ∨ ∃ i, i < n ∧ nd = d i) := by
  induction n with
  | zero => simp
  | succ n ih =>
    simp only [List.range_succ, List.foldl_append, List.foldl_cons, List.foldl_nil]
    obtain ⟨h1, h2, h3⟩ := ih
    split_ifs with hlt
    · refine ⟨by omega, ?_, Or.inr ⟨n, by omega, rfl⟩⟩
      intro i hi
      rcases Nat.lt_succ_iff_lt_or_eq.mp hi with h | h
      · have := h2 i h; omega
      · subst h; exact le_refl _
    · refine ⟨h1, ?_, ?_⟩
      · intro i hi
        rcases Nat.lt_succ_iff_lt_or_eq.mp hi with h | h
        · exact h2 i h
        · subst h; omega
      · rcases h3 with h | ⟨i, hi, h⟩
        · exact Or.inl h
        · exact Or.inr ⟨i, by omega, h⟩

namespace SpaceInformationKinematic

theorem findDifferenceStep_fst (si : SpaceInformationKinematic) (s1 s2 : State) (factor : ℚ) :
    (si.findDifferenceStep s1 s2 factor).1 = si.findDivisions (si.findDiff s1 s2) factor := rfl

theorem findDivisions_pos (si : SpaceInformationKinematic) (diff : List ℚ) (factor : ℚ) :
    1 ≤ si.findDivisions diff factor :=
  (foldl_max_spec _ si.m_stateDimension).1

theorem findDifferenceStep_nd_pos (si : SpaceInformationKinematic) (s1 s2 : State) (factor : ℚ) :
    1 ≤ (si.findDifferenceStep s1 s2 factor).1 :=
  si.findDivisions_pos _ _

theorem findDifferenceStep_step_getD (si : SpaceInformationKinematic) (s1 s2 : State)
    (factor : ℚ) (i : ℕ) (hi : i < si.m_stateDimension) :
    (si.findDifferenceStep s1 s2 factor).2.getD i 0
      = (si.findDiff s1 s2).getD i 0 / ((si.findDifferenceStep s1 s2 factor).1 : ℚ) := by
  simp [findDifferenceStep, findDiff, List.getD_eq_getElem?_getD, List.getElem?_range, hi]

theorem findDiff_getD (si : SpaceInformationKinematic) (s1 s2 : State) (i : ℕ)
    (hi : i < si.m_stateDimension) :
    (si.findDiff s1 s2).getD i 0
      = if (si.m_stateComponent i).type = StateComponentType.WRAPPING_ANGLE then
          si.shortest_angular_distance (s1.getD i 0) (s2.getD i 0)
        else s2.getD i 0 - s1.getD i 0 := by
  simp [findDiff, List.getD_eq_getElem?_getD, List.getElem?_range, hi]

/-- Midpoint of a non-empty interval of positive indices, as computed by `(lo + hi) / 2`. -/
theorem mid_bounds {lo hi : ℤ} (h0 : 0 ≤ lo) (h : lo ≤ hi) :
    lo ≤ (lo + hi).tdiv 2 ∧ (lo + hi).tdiv 2 ≤ hi := by
  rw [Int.tdiv_eq_ediv (by omega) (by norm_num)]; omega

/-- The queue loop succeeds exactly when every index of every queued interval is valid,
provided the queued intervals are non-empty with non-negative bounds. -/
theorem subdivisionLoop_iff (si : SpaceInformationKinematic) (s1 step : State)
    (pos : List (ℤ × ℤ)) (hpos : ∀ x ∈ pos, 0 ≤ x.1 ∧ x.1 ≤ x.2) :
    si.subdivisionLoop s1 step pos = true ↔
      ∀ x ∈ pos, ∀ m : ℤ, x.1 ≤ m → m ≤ x.2 →
        si.isValid (stateAt si.m_stateDimension s1 step (m : ℚ)) = true := by
  induction pos using subdivisionLoop.induct si s1 step with
  | case1 => simp [subdivisionLoop]
  | case2 x rest mid hinv =>
    obtain ⟨h0, hle⟩ := hpos x (List.mem_cons_self _ _)
    obtain ⟨hm1, hm2⟩ := mid_bounds h0 hle
    rw [subdivisionLoop, if_pos hinv]
    simp only [Bool.false_eq_true, false_iff]
    intro hall
    have := hall x (List.mem_cons_self _ _) mid hm1 hm2
    simp [this] at hinv
  | case3 x rest mid hval ih =>
    obtain ⟨h0, hle⟩ := hpos x (List.mem_cons_self _ _)
    obtain ⟨hm1, hm2⟩ := mid_bounds h0 hle
    have hv : si.isValid (stateAt si.m_stateDimension s1 step (mid : ℚ)) = true := by
      simpa using hval
    rw [subdivisionLoop, if_neg hval]
    have hpos' : ∀ y ∈ (rest ++ if x.1 < mid then [(x.1, mid - 1)] else [])
          ++ if x.2 > mid then [(mid + 1, x.2)] else [], 0 ≤ y.1 ∧ y.1 ≤ y.2 := by
      intro y hy
      simp only [List.mem_append] at hy
      rcases hy with (hy | hy) | hy
      · exact hpos y (List.mem_cons_of_mem _ hy)
      · split_ifs at hy with hc
        · simp only [List.mem_singleton] at hy; subst hy; simp only; omega
        · simp at hy
      · split_ifs at hy with hc
        · simp only [List.mem_singleton] at hy; subst hy; simp only; omega
        · simp at hy
    have ih' := ih hpos'
    simp only [dite_eq_ite] at ih'
    rw [ih']
    constructor
    · intro hall y hy m hlo hhi
      rcases List.mem_cons.mp hy with rfl | hy
      · rcases lt_trichotomy m mid with hlt | heq | hgt
        · have hc : y.1 < mid := by omega
          apply hall (y.1, mid - 1) _ m hlo (by simp only; omega)
          simp [hc]
        · rw [heq]; exact hv
        · have hc : y.2 > mid := by omega
          apply hall (mid + 1, y.2) _ m (by simp only; omega) hhi
          simp [hc]
      · exact hall y (by simp [hy]) m hlo hhi
    · intro hall y hy m hlo hhi
      simp only [List.mem_append] at hy
      rcases hy with (hy | hy) | hy
      · exact hall y (List.mem_cons_of_mem _ hy) m hlo hhi
      · split_ifs at hy with hc
        · simp only [List.mem_singleton] at hy; subst hy
          exact hall x (List.mem_cons_self _ _) m hlo (by simp only at hhi; omega)
        · simp at hy
      · split_ifs at hy with hc
        · simp only [List.mem_singleton] at hy; subst hy
          exact hall x (List.mem_cons_self _ _) m (by simp only at hlo; omega) hhi
        · simp at hy

theorem mem_sweepIndices (nd j : ℤ) : j ∈ sweepIndices nd ↔ 1 ≤ j ∧ j < nd := by
  simp only [sweepIndices, List.mem_map, List.mem_range]
  constructor
  · rintro ⟨n, hn, rfl⟩; omega
  · rintro ⟨h1, h2⟩
    exact ⟨(j - 1).toNat, by omega, by omega⟩

/-- `checkMotionSubdivision` succeeds exactly when `s2` and every interior sample are valid. -/
theorem checkMotionSubdivision_iff (si : SpaceInformationKinematic) (s1 s2 : State) :
    si.checkMotionSubdivision s1 s2 = true ↔
      si.isValid s2 = true ∧
        ∀ m : ℤ, 1 ≤ m → m < (si.findDifferenceStep s1 s2 1).1 →
          si.isValid (stateAt si.m_stateDimension s1 (si.findDifferenceStep s1 s2 1).2 (m : ℚ))
            = true := by
  unfold checkMotionSubdivision
  by_cases hv : si.isValid s2 = true
  · simp only [hv, Bool.not_true, Bool.false_eq_true, if_false, true_and]
    rw [subdivisionLoop_iff]
    · split_ifs with hnd
      · simp only [List.mem_singleton, forall_eq]
        constructor
        · intro h m h1 h2; exact h m h1 (by omega)
        · intro h m h1 h2; exact h m h1 (by omega)
      · simp only [List.not_mem_nil, false_imp_iff, implies_true, true_iff]
        intro m h1 h2; omega
    · intro x hx
      split_ifs at hx with hnd
      · simp only [List.mem_singleton] at hx; subst hx; simp only; omega
      · simp at hx
  · simp [hv]

end SpaceInformationKinematic

theorem interpolate_eq_map (s1 s2 : State) (t : ℚ) (dim : ℕ) (h1 : s1.length = dim)
    (h2 : s2.length = dim) :
    interpolate s1 s2 t
      = (List.range dim).map fun i => s1.getD i 0 + t * (s2.getD i 0 - s1.getD i 0) := by
  apply List.ext_getElem
  · simp [interpolate, h1, h2]
  · intro i hi1 hi2
    simp only [interpolate, List.length_zipWith, h1, h2, min_self] at hi1
    simp [interpolate, List.getD_eq_getElem?_getD, List.getElem?_eq_getElem, h1, h2, hi1]

theorem interpolate_zero (s1 s2 : State) (h : s1.length = s2.length) :
    interpolate s1 s2 0 = s1 := by
  apply List.ext_getElem
  · simp [interpolate, h]
  · intro i hi1 hi2
    simp [interpolate]

theorem interpolate_one (s1 s2 : State) (h : s1.length = s2.length) :
    interpolate s1 s2 1 = s2 := by
  apply List.ext_getElem
  · simp [interpolate, h]
  · intro i hi1 hi2
    simp [interpolate]

namespace SpaceInformationKinematic

/-- For linear components the sample `s1 + m·step` is the point of the segment at `m / nd`. -/
theorem stateAt_eq_interpolate (si : SpaceInformationKinematic) (s1 s2 : State)
    (hl1 : s1.length = si.m_stateDimension) (hl2 : s2.length = si.m_stateDimension)
    (hlin : ∀ i, i < si.m_stateDimension →
      (si.m_stateComponent i).type = StateComponentType.LINEAR) (m : ℚ) :
    stateAt si.m_stateDimension s1 (si.findDifferenceStep s1 s2 1).2 m
      = interpolate s1 s2 (m / ((si.findDifferenceStep s1 s2 1).1 : ℚ)) := by
  rw [interpolate_eq_map s1 s2 _ si.m_stateDimension hl1 hl2]
  unfold stateAt
  apply List.map_congr_left
  intro i hi
  have hi' : i < si.m_stateDimension := List.mem_range.mp hi
  rw [si.findDifferenceStep_step_getD s1 s2 1 i hi', si.findDiff_getD s1 s2 i hi']
  simp only [hlin i hi', reduceCtorEq, if_false]
  ring

/-- C1. Motion subdivision soundness: for states `s1`, `s2` of the space's dimension with
`isValid(s1)`, all components linear with positive resolution, and any validity predicate, if
`checkMotionSubdivision(s1, s2)` returns true then `isValid(s1 + (k/nd)·(s2 - s1))` holds for
every `k = 0..nd`, where `nd` is the division count of `findDifferenceStep(s1, s2, 1.0)`.
(The positive resolutions keep the divisions of `findDifferenceStep` meaningful; the argument
does not use them otherwise.) -/
theorem checkMotionSubdivision_sound (si : SpaceInformationKinematic) (s1 s2 : State)
    (hl1 : s1.length = si.m_stateDimension) (hl2 : s2.length = si.m_stateDimension)
    (hlin : ∀ i, i < si.m_stateDimension →
      (si.m_stateComponent i).type = StateComponentType.LINEAR)
    (_hres : ∀ i, i < si.m_stateDimension → 0 < (si.m_stateComponent i).resolution)
    (hv1 : si.isValid s1 = true)
    (hcheck : si.checkMotionSubdivision s1 s2 = true) :
    ∀ k : ℤ, 0 ≤ k → k ≤ (si.findDifferenceStep s1 s2 1).1 →
      si.isValid (interpolate s1 s2 ((k : ℚ) / ((si.findDifferenceStep s1 s2 1).1 : ℚ)))
        = true := by
  intro k hk0 hknd
  obtain ⟨hv2, hmid⟩ := (si.checkMotionSubdivision_iff s1 s2).mp hcheck
  have hnd := si.findDifferenceStep_nd_pos s1 s2 1
  have hndq : ((si.findDifferenceStep s1 s2 1).1 : ℚ) ≠ 0 := by
    exact_mod_cast (by omega : (si.findDifferenceStep s1 s2 1).1 ≠ 0)
  rcases eq_or_lt_of_le hk0 with h0 | h0
  · rw [← h0]
    simpa [interpolate_zero s1 s2 (hl1.trans hl2.symm)] using hv1
  rcases eq_or_lt_of_le hknd with hn | hn
  · rw [hn, div_self hndq, interpolate_one s1 s2 (hl1.trans hl2.symm)]
    exact hv2
  · rw [← si.stateAt_eq_interpolate s1 s2 hl1 hl2 hlin]
    exact hmid k (by omega) hn

theorem sweepIndices_pairwise (nd : ℤ) : (sweepIndices nd).Pairwise (fun a b => a < b) := by
  unfold sweepIndices
  rw [List.pairwise_map]
  exact (List.pairwise_lt_range _).imp (fun h => by omega)

/-- The forward sweep stops at the smallest index that satisfies `p`. -/
theorem find?_sweepIndices {p : ℤ → Bool} {nd j : ℤ}
    (h : (sweepIndices nd).find? p = some j) :
    1 ≤ j ∧ j < nd ∧ p j = true ∧ ∀ m : ℤ, 1 ≤ m → m < j → p m = false := by
  have hmem := (mem_sweepIndices nd j).mp (List.mem_of_find?_eq_some h)
  refine ⟨hmem.1, hmem.2, List.find?_some h, ?_⟩
  intro m hm1 hmj
  obtain ⟨_, l1, l2, hsplit, hl1⟩ := List.find?_eq_some.mp h
  have hpw := sweepIndices_pairwise nd
  rw [hsplit] at hpw
  have hm : m ∈ sweepIndices nd := (mem_sweepIndices nd m).mpr ⟨hm1, by omega⟩
  rw [hsplit] at hm
  rcases List.mem_append.mp hm with hm | hm
  · simpa using hl1 m hm
  · rcases List.mem_cons.mp hm with hm | hm
    · omega
    · have h2 := (List.pairwise_append.mp hpw).2.1
      have := (List.pairwise_cons.mp h2).1 m hm
      omega

/-- C4. When `isValid(s2)` holds and some interior sample `s1 + j·step` (`1 ≤ j ≤ nd-1`) is
invalid, `checkMotionIncremental` returns false and, for the smallest such `j`, stores
`s1 + (j-1)·step` in `lastValidState` and `(j-1)/nd` in `lastValidTime` (each when its pointer is
not null); the stored time lies in `[0, 1)` and every sample `s1 + m·step` with `1 ≤ m ≤ j-1` is
valid. -/
theorem checkMotionIncremental_first_invalid (si : SpaceInformationKinematic) (s1 s2 : State)
    (lastValidState : Option State) (lastValidTime : Option ℚ)
    (hv2 : si.isValid s2 = true)
    (hbad : ∃ j : ℤ, 1 ≤ j ∧ j ≤ (si.findDifferenceStep s1 s2 1).1 - 1 ∧
      si.isValid (stateAt si.m_stateDimension s1 (si.findDifferenceStep s1 s2 1).2 (j : ℚ))
        = false) :
    ∃ j : ℤ,
      (1 ≤ j ∧ j ≤ (si.findDifferenceStep s1 s2 1).1 - 1 ∧
        si.isValid (stateAt si.m_stateDimension s1 (si.findDifferenceStep s1 s2 1).2 (j : ℚ))
          = false)
      ∧ (∀ m : ℤ, 1 ≤ m → m ≤ j - 1 →
          si.isValid (stateAt si.m_stateDimension s1 (si.findDifferenceStep s1 s2 1).2 (m : ℚ))
            = true)
      ∧ si.checkMotionIncremental s1 s2 lastValidState lastValidTime
          = ⟨false,
              lastValidState.map (fun _ =>
                stateAt si.m_stateDimension s1 (si.findDifferenceStep s1 s2 1).2 ((j : ℚ) - 1)),
              lastValidTime.map (fun _ =>
                ((j : ℚ) - 1) / ((si.findDifferenceStep s1 s2 1).1 : ℚ))⟩
      ∧ 0 ≤ ((j : ℚ) - 1) / ((si.findDifferenceStep s1 s2 1).1 : ℚ)
      ∧ ((j : ℚ) - 1) / ((si.findDifferenceStep s1 s2 1).1 : ℚ) < 1 := by
  obtain ⟨j0, hj1, hj2, hj3⟩ := hbad
  have hnd := si.findDifferenceStep_nd_pos s1 s2 1
  cases hfind : (sweepIndices (si.findDifferenceStep s1 s2 1).1).find?
      (fun (j : ℤ) => !si.isValid
        (stateAt si.m_stateDimension s1 (si.findDifferenceStep s1 s2 1).2 (j : ℚ))) with
  | none =>
    have := List.find?_eq_none.mp hfind j0 ((mem_sweepIndices _ _).mpr ⟨hj1, by omega⟩)
    simp [hj3] at this
  | some j =>
    obtain ⟨h1, h2, h3, h4⟩ := find?_sweepIndices hfind
    have hndq : (0 : ℚ) < ((si.findDifferenceStep s1 s2 1).1 : ℚ) := by
      exact_mod_cast (by omega : 0 < (si.findDifferenceStep s1 s2 1).1)
    have hjq : (1 : ℚ) ≤ (j : ℚ) := by exact_mod_cast h1
    have hjn : (j : ℚ) < ((si.findDifferenceStep s1 s2 1).1 : ℚ) := by exact_mod_cast h2
    refine ⟨j, ⟨h1, by omega, by simpa using h3⟩, ?_, ?_, ?_, ?_⟩
    · intro m hm1 hm2
      simpa using h4 m hm1 (by omega)
    · unfold checkMotionIncremental
      simp only [hv2, Bool.not_true, Bool.false_eq_true, if_false, hfind]
      push_cast
      rfl
    · exact div_nonneg (by linarith) (le_of_lt hndq)
    · rw [div_lt_one hndq]; linarith

/-- The loop of `checkPath` succeeds exactly when every consecutive pair passes
`checkMotionSubdivision`. -/
theorem checkPathLoop_iff (si : SpaceInformationKinematic) (states : List State) :
    si.checkPathLoop states = true ↔
      ∀ (j : ℕ) (h : j + 1 < states.length),
        si.checkMotionSubdivision states[j] states[j + 1] = true := by
  induction states with
  | nil => simp [checkPathLoop]
  | cons a rest ih =>
    cases rest with
    | nil => simp [checkPathLoop]
    | cons b rest =>
      rw [checkPathLoop]
      by_cases hab : si.checkMotionSubdivision a b = true
      · simp only [hab, Bool.not_true, Bool.false_eq_true, if_false, ih]
        constructor
        · intro h j hj
          cases j with
          | zero => simpa using hab
          | succ j =>
            have := h j (by simpa using hj)
            simpa using this
        · intro h j hj
          have := h (j + 1) (by simpa using hj)
          simpa using this
      · simp only [hab, Bool.not_false, if_true, Bool.false_eq_true, false_iff]
        intro h
        exact hab (by simpa using h 0 (by simp))

/-- C5. `checkPath` returns false for a null path, true for a path with no states, and for a
path with `n ≥ 1` states returns true iff `isValid(states[0])` and
`checkMotionSubdivision(states[j], states[j+1])` is true for every `j` in `0..n-2`. -/
theorem checkPath_spec (si : SpaceInformationKinematic) :
    si.checkPath none = false
      ∧ si.checkPath (some []) = true
      ∧ ∀ (states : List State) (hn : 1 ≤ states.length),
          (si.checkPath (some states) = true ↔
            si.isValid states[0] = true ∧
              ∀ (j : ℕ) (h : j + 1 < states.length),
                si.checkMotionSubdivision states[j] states[j + 1] = true) := by
  refine ⟨rfl, rfl, ?_⟩
  intro states hn
  cases states with
  | nil => simp at hn
  | cons s0 rest =>
    unfold checkPath
    by_cases hv : si.isValid s0 = true
    · simp only [hv, if_true, checkPathLoop_iff, List.getElem_cons_zero, true_and]
    · simp [hv]

end SpaceInformationKinematic

/-! ## The definitions at concrete inputs -/

theorem lineSpace_step (valid : State → Bool) :
    (lineSpace valid).findDifferenceStep [0] [5/2] 1 = (3, [5/6]) := by
  have h : |(5:ℚ)/2| = 5/2 := abs_of_pos (by norm_num)
  simp [SpaceInformationKinematic.findDifferenceStep, SpaceInformationKinematic.findDivisions,
    SpaceInformationKinematic.findDiff, lineSpace, castInt, wrapInt, List.range_succ]
  norm_num [h]

theorem lineSpace_stateAt (valid : State → Bool) (s1 step : State) (t : ℚ) :
    stateAt (lineSpace valid).m_stateDimension s1 step t
      = [s1.getD 0 0 + t * step.getD 0 0] := by
  simp [stateAt, lineSpace, List.range_succ]

theorem lineSpace_belowThree_check :
    (lineSpace belowThree).checkMotionSubdivision [0] [5/2] = true := by
  unfold SpaceInformationKinematic.checkMotionSubdivision
  rw [lineSpace_step]
  norm_num [lineSpace, belowThree, SpaceInformationKinematic.subdivisionLoop, stateAt,
    List.range_succ, Int.tdiv]

/-- The subdivision check of C1 at a concrete segment. -/
theorem checkMotionSubdivision_sound_witness :
    (lineSpace belowThree).checkMotionSubdivision [0] [5/2] = true
      ∧ (∀ i, i < (lineSpace belowThree).m_stateDimension →
          0 < ((lineSpace belowThree).m_stateComponent i).resolution)
      ∧ ∀ k : ℤ, 0 ≤ k → k ≤ ((lineSpace belowThree).findDifferenceStep [0] [5/2] 1).1 →
          (lineSpace belowThree).isValid
              (interpolate [0] [5/2]
                ((k : ℚ) / (((lineSpace belowThree).findDifferenceStep [0] [5/2] 1).1 : ℚ)))
            = true :=
  ⟨lineSpace_belowThree_check, fun _ _ => by norm_num [lineSpace],
    SpaceInformationKinematic.checkMotionSubdivision_sound (lineSpace belowThree) [0] [5/2]
      rfl rfl (fun _ _ => rfl) (fun _ _ => by norm_num [lineSpace])
      (by norm_num [lineSpace, belowThree]) lineSpace_belowThree_check⟩

theorem lineSpace_gap_bad :
    ∃ j : ℤ, 1 ≤ j ∧ j ≤ ((lineSpace gapOneTwo).findDifferenceStep [0] [5/2] 1).1 - 1 ∧
      (lineSpace gapOneTwo).isValid
        (stateAt (lineSpace gapOneTwo).m_stateDimension [0]
          ((lineSpace gapOneTwo).findDifferenceStep [0] [5/2] 1).2 (j : ℚ)) = false :=
  ⟨2, by norm_num, by rw [lineSpace_step]; norm_num,
    by rw [lineSpace_step, lineSpace_stateAt]; norm_num [lineSpace, gapOneTwo]⟩

/-- The incremental sweep of C4 at a segment that crosses an obstacle. -/
theorem checkMotionIncremental_first_invalid_witness :
    ∃ j : ℤ,
      (1 ≤ j ∧ j ≤ ((lineSpace gapOneTwo).findDifferenceStep [0] [5/2] 1).1 - 1 ∧
        (lineSpace gapOneTwo).isValid
          (stateAt (lineSpace gapOneTwo).m_stateDimension [0]
            ((lineSpace gapOneTwo).findDifferenceStep [0] [5/2] 1).2 (j : ℚ)) = false)
      ∧ (∀ m : ℤ, 1 ≤ m → m ≤ j - 1 →
          (lineSpace gapOneTwo).isValid
            (stateAt (lineSpace gapOneTwo).m_stateDimension [0]
              ((lineSpace gapOneTwo).findDifferenceStep [0] [5/2] 1).2 (m : ℚ)) = true)
      ∧ (lineSpace gapOneTwo).checkMotionIncremental [0] [5/2] (some [5/2]) (some 0)
          = ⟨false,
              (some [5/2]).map (fun _ =>
                stateAt (lineSpace gapOneTwo).m_stateDimension [0]
                  ((lineSpace gapOneTwo).findDifferenceStep [0] [5/2] 1).2 ((j : ℚ) - 1)),
              (some (0 : ℚ)).map (fun _ =>
                ((j : ℚ) - 1) / (((lineSpace gapOneTwo).findDifferenceStep [0] [5/2] 1).1 : ℚ))⟩
      ∧ 0 ≤ ((j : ℚ) - 1) / (((lineSpace gapOneTwo).findDifferenceStep [0] [5/2] 1).1 : ℚ)
      ∧ ((j : ℚ) - 1) / (((lineSpace gapOneTwo).findDifferenceStep [0] [5/2] 1).1 : ℚ) < 1 :=
  SpaceInformationKinematic.checkMotionIncremental_first_invalid (lineSpace gapOneTwo) [0] [5/2]
    (some [5/2]) (some 0) (by norm_num [lineSpace, gapOneTwo]) lineSpace_gap_bad

/-- The incremental sweep across the obstacle, evaluated: it stops at `j = 2` and reports the
sample `5/6` and the time `1/3`. -/
theorem lineSpace_gap_incremental :
    (lineSpace gapOneTwo).checkMotionIncremental [0] [5/2] (some [5/2]) (some 0)
      = ⟨false, some [5/6], some (1/3)⟩ := by
  unfold SpaceInformationKinematic.checkMotionIncremental
  rw [lineSpace_step]
  norm_num [lineSpace, gapOneTwo, SpaceInformationKinematic.sweepIndices, stateAt,
    List.range_succ, List.find?]

/-- The path check of C5 at a two-state path. -/
theorem checkPath_spec_witness :
    1 ≤ ([[0], [5/2]] : List State).length
      ∧ ((lineSpace belowThree).checkPath (some [[0], [5/2]]) = true ↔
          (lineSpace belowThree).isValid ([[0], [5/2]] : List State)[0] = true ∧
            ∀ (j : ℕ) (h : j + 1 < ([[0], [5/2]] : List State).length),
              (lineSpace belowThree).checkMotionSubdivision
                ([[0], [5/2]] : List State)[j] ([[0], [5/2]] : List State)[j + 1] = true) :=
  ⟨by decide,
    (SpaceInformationKinematic.checkPath_spec (lineSpace belowThree)).2.2 [[0], [5/2]]
      (by decide)⟩

theorem lineSpace_checkPath :
    (lineSpace belowThree).checkPath (some [[0], [5/2]]) = true := by
  simp only [SpaceInformationKinematic.checkPath, SpaceInformationKinematic.checkPathLoop,
    lineSpace_belowThree_check]
  norm_num [lineSpace, belowThree]

/-! ## Grids and trees -/

theorem modify_zero_cons {α : Type} (f : α → α) (a : α) (l : List α) :
    List.modify f 0 (a :: l) = f a :: l := rfl

theorem modify_succ_cons {α : Type} (f : α → α) (a : α) (l : List α) (n : ℕ) :
    List.modify f (n + 1) (a :: l) = a :: List.modify f n l := rfl

/-- Modifying one element so that its measure grows by one makes the total grow by one. -/
theorem sum_map_modify_succ {α : Type} (g : α → ℕ) (f : α → α) (hf : ∀ a, g (f a) = g a + 1) :
    ∀ (l : List α) (i : ℕ), i < l.length →
      ((List.modify f i l).map g).sum = (l.map g).sum + 1
  | [], i, h => by simp at h
  | a :: l, 0, _ => by
    simp only [modify_zero_cons, List.map_cons, List.sum_cons, hf]; omega
  | a :: l, i + 1, h => by
    have := sum_map_modify_succ g f hf l i (by simpa using h)
    simp only [modify_succ_cons, List.map_cons, List.sum_cons, this]; omega

/-- A property of all elements survives a modification that preserves it. -/
theorem forall_mem_modify {α : Type} (P : α → Prop) (f : α → α) (hf : ∀ a, P a → P (f a))
    (l : List α) (i : ℕ) (h : ∀ a ∈ l, P a) : ∀ a ∈ List.modify f i l, P a := by
  intro a ha
  obtain ⟨k, hk, rfl⟩ := List.getElem_of_mem ha
  have hk' : k < l.length := by simpa using hk
  have := List.getElem?_modify f i l k
  rw [List.getElem?_eq_getElem hk, List.getElem?_eq_getElem hk'] at this
  simp only [Option.map_eq_map, Option.map_some'] at this
  have hm : l[k] ∈ l := List.getElem_mem _
  rw [Option.some.inj this]
  split_ifs
  · exact hf _ (h _ hm)
  · exact h _ hm

namespace EST

theorem getCell_lt : ∀ (grid : List Cell) (coord : Coord) (c : ℕ),
    getCell grid coord = some c → c < grid.length
  | [], _, _, h => by simp [getCell] at h
  | x :: rest, coord, c, h => by
    unfold getCell at h
    split_ifs at h with hx
    · simp only [Option.some.injEq] at h; subst h; simp
    · simp only [Option.map_eq_some'] at h
      obtain ⟨k, hk, rfl⟩ := h
      have := getCell_lt rest coord k hk
      simp; omega

/-- One call of `addMotion` keeps `size = Σ |cell|`, adds one to both, and stores the motion. -/
theorem addMotion_size (p : EST) (s : PlannerState) (motion : Motion) :
    (addMotion p s motion).tree.size = s.tree.size + 1
      ∧ ((addMotion p s motion).tree.grid.map fun c => c.data.length).sum
          = (s.tree.grid.map fun c => c.data.length).sum + 1
      ∧ (addMotion p s motion).motions = s.motions ++ [motion] := by
  refine ⟨rfl, ?_, rfl⟩
  unfold addMotion
  simp only
  split
  · rename_i c hc
    exact sum_map_modify_succ (fun c : Cell => c.data.length) _ (fun a => by simp) _ _
      (getCell_lt _ _ _ hc)
  · simp

/-- One call of `addMotion` keeps every cell non-empty. -/
theorem addMotion_cells_nonempty (p : EST) (s : PlannerState) (motion : Motion)
    (h : ∀ c ∈ s.tree.grid, 1 ≤ c.data.length) :
    ∀ c ∈ (addMotion p s motion).tree.grid, 1 ≤ c.data.length := by
  unfold addMotion
  simp only
  split
  · exact forall_mem_modify (fun c : Cell => 1 ≤ c.data.length) _ (fun a _ => by simp) _ _ h
  · intro c hc
    rcases List.mem_append.mp hc with hc | hc
    · exact h c hc
    · simp only [List.mem_singleton] at hc; subst hc; simp

end EST

namespace KPIECE1

theorem kpiece_getCell_lt : ∀ (grid : List Cell) (coord : Coord) (c : ℕ),
    getCell grid coord = some c → c < grid.length
  | [], _, _, h => by simp [getCell] at h
  | x :: rest, coord, c, h => by
    unfold getCell at h
    split_ifs at h with hx
    · simp only [Option.some.injEq] at h; subst h; simp
    · simp only [Option.map_eq_some'] at h
      obtain ⟨k, hk, rfl⟩ := h
      have := kpiece_getCell_lt rest coord k hk
      simp; omega

/-- One call of `addMotion` keeps `size = Σ |cell|`, adds one to both, and stores the motion. -/
theorem kpiece_addMotion_size (p : KPIECE1) (s : PlannerState) (motion : Motion) (dist : ℚ) :
    (addMotion p s motion dist).1.tree.size = s.tree.size + 1
      ∧ ((addMotion p s motion dist).1.tree.grid.map fun c => c.data.motions.length).sum
          = (s.tree.grid.map fun c => c.data.motions.length).sum + 1
      ∧ (addMotion p s motion dist).1.motions = s.motions ++ [motion] := by
  unfold addMotion
  simp only
  split
  · rename_i c hc
    exact ⟨rfl, sum_map_modify_succ (fun c : Cell => c.data.motions.length) _
      (fun a => by simp) _ _ (kpiece_getCell_lt _ _ _ hc), rfl⟩
  · simp

/-- One call of `addMotion` keeps every cell non-empty with `coverage = |motions|`. -/
theorem addMotion_cells (p : KPIECE1) (s : PlannerState) (motion : Motion) (dist : ℚ)
    (h : ∀ c ∈ s.tree.grid, 1 ≤ c.data.motions.length
      ∧ c.data.coverage = (c.data.motions.length : ℚ)) :
    ∀ c ∈ (addMotion p s motion dist).1.tree.grid, 1 ≤ c.data.motions.length
      ∧ c.data.coverage = (c.data.motions.length : ℚ) := by
  unfold addMotion
  simp only
  split
  · exact forall_mem_modify
      (fun c : Cell => 1 ≤ c.data.motions.length ∧ c.data.coverage = (c.data.motions.length : ℚ))
      _ (fun a ha => by simp [ha.2]) _ _ h
  · intro c hc
    rcases List.mem_append.mp hc with hc | hc
    · exact h c hc
    · simp only [List.mem_singleton] at hc; subst hc; simp

end KPIECE1

/-- C7. Tree size invariant: starting from an empty tree (size 0, empty grid), after any
sequence of `addMotion` calls in EST and in KPIECE1, `tree.size` equals the sum over all grid
cells of the number of motions in the cell, and equals the number of `addMotion` calls made. -/
theorem tree_size_invariant (pe : EST) (pk : KPIECE1) (me : List Motion)
    (mk : List (Motion × ℚ)) (motions0 : List Motion) (iteration0 : ℕ) :
    let se := me.foldl (EST.addMotion pe) ⟨motions0, ⟨[], 0⟩⟩
    let sk := mk.foldl (fun s x => (KPIECE1.addMotion pk s x.1 x.2).1)
      ⟨motions0, ⟨[], 0, iteration0⟩⟩
    (se.tree.size = (se.tree.grid.map fun c => c.data.length).sum
        ∧ se.tree.size = me.length)
      ∧ (sk.tree.size = (sk.tree.grid.map fun c => c.data.motions.length).sum
        ∧ sk.tree.size = mk.length) := by
  constructor
  · suffices h : ∀ (l : List Motion) (s : EST.PlannerState),
        (l.foldl (EST.addMotion pe) s).tree.size = s.tree.size + l.length
          ∧ ((l.foldl (EST.addMotion pe) s).tree.grid.map fun c => c.data.length).sum
              = (s.tree.grid.map fun c => c.data.length).sum + l.length by
      have := h me ⟨motions0, ⟨[], 0⟩⟩
      simp only [List.map_nil, List.sum_nil, zero_add] at this
      exact ⟨this.1.trans this.2.symm, this.1⟩
    intro l
    induction l with
    | nil => intro s; simp
    | cons m l ih =>
      intro s
      obtain ⟨h1, h2, _⟩ := EST.addMotion_size pe s m
      obtain ⟨i1, i2⟩ := ih (EST.addMotion pe s m)
      simp only [List.foldl_cons, List.length_cons]
      exact ⟨by omega, by omega⟩
  · suffices h : ∀ (l : List (Motion × ℚ)) (s : KPIECE1.PlannerState),
        (l.foldl (fun s x => (KPIECE1.addMotion pk s x.1 x.2).1) s).tree.size
            = s.tree.size + l.length
          ∧ ((l.foldl (fun s x => (KPIECE1.addMotion pk s x.1 x.2).1) s).tree.grid.map
                fun c => c.data.motions.length).sum
              = (s.tree.grid.map fun c => c.data.motions.length).sum + l.length by
      have := h mk ⟨motions0, ⟨[], 0, iteration0⟩⟩
      simp only [List.map_nil, List.sum_nil, zero_add] at this
      exact ⟨this.1.trans this.2.symm, this.1⟩
    intro l
    induction l with
    | nil => intro s; simp
    | cons m l ih =>
      intro s
      obtain ⟨h1, h2, _⟩ := KPIECE1.kpiece_addMotion_size pk s m.1 m.2
      obtain ⟨i1, i2⟩ := ih (KPIECE1.addMotion pk s m.1 m.2).1
      simp only [List.foldl_cons, List.length_cons]
      exact ⟨by omega, by omega⟩

/-- C9. Cell invariant: after any sequence of `addMotion` calls starting from an empty grid,
every cell present in the grid holds at least one motion, and in KPIECE1 every cell's coverage
equals the number of motions in that cell. -/
theorem cell_invariant (pe : EST) (pk : KPIECE1) (me : List Motion)
    (mk : List (Motion × ℚ)) (motions0 : List Motion) (size0 iteration0 : ℕ) :
    let se := me.foldl (EST.addMotion pe) ⟨motions0, ⟨[], size0⟩⟩
    let sk := mk.foldl (fun s x => (KPIECE1.addMotion pk s x.1 x.2).1)
      ⟨motions0, ⟨[], size0, iteration0⟩⟩
    (∀ c ∈ se.tree.grid, 1 ≤ c.data.length)
      ∧ (∀ c ∈ sk.tree.grid, 1 ≤ c.data.motions.length
          ∧ c.data.coverage = (c.data.motions.length : ℚ)) := by
  constructor
  · suffices h : ∀ (l : List Motion) (s : EST.PlannerState),
        (∀ c ∈ s.tree.grid, 1 ≤ c.data.length) →
          ∀ c ∈ (l.foldl (EST.addMotion pe) s).tree.grid, 1 ≤ c.data.length from
      h me _ (by simp)
    intro l
    induction l with
    | nil => intro s hs; simpa using hs
    | cons m l ih =>
      intro s hs
      exact ih _ (EST.addMotion_cells_nonempty pe s m hs)
  · suffices h : ∀ (l : List (Motion × ℚ)) (s : KPIECE1.PlannerState),
        (∀ c ∈ s.tree.grid, 1 ≤ c.data.motions.length
          ∧ c.data.coverage = (c.data.motions.length : ℚ)) →
          ∀ c ∈ (l.foldl (fun s x => (KPIECE1.addMotion pk s x.1 x.2).1) s).tree.grid,
            1 ≤ c.data.motions.length ∧ c.data.coverage = (c.data.motions.length : ℚ) from
      h mk _ (by simp)
    intro l
    induction l with
    | nil => intro s hs; simpa using hs
    | cons m l ih =>
      intro s hs
      exact ih _ (KPIECE1.addMotion_cells pk s m.1 m.2 hs)

/-! ## The solution path -/

/-- The walk from a motion whose ancestors were all inserted earlier ends within `fuel` steps
as soon as `fuel` exceeds the position of the motion; it lists the motion, its parent, and so
on up to a root. -/
theorem parentWalk_spec (motions : List Motion)
    (hearlier : ∀ (i : ℕ) (m : Motion) (p : ℕ),
      motions[i]? = some m → m.parent = some p → p < i) :
    ∀ (s : ℕ), s < motions.length → ∀ fuel, s + 1 ≤ fuel →
      ∃ (rest : List ℕ) (d : ℕ),
        parentWalk motions fuel (some s) = some (s :: rest)
          ∧ HasDepth motions s d
          ∧ rest.length = d
          ∧ List.Chain' (fun a b => ∃ m, motions[a]? = some m ∧ m.parent = some b) (s :: rest)
          ∧ (∃ r m, (s :: rest).getLast? = some r ∧ motions[r]? = some m ∧ m.parent = none)
          ∧ ∀ i ∈ s :: rest, i < motions.length := by
  intro s
  induction s using Nat.strong_induction_on with
  | _ s ih =>
    intro hs fuel hfuel
    obtain ⟨fuel, rfl⟩ : ∃ f, fuel = f + 1 := ⟨fuel - 1, by omega⟩
    have hget : motions[s]? = some motions[s] := List.getElem?_eq_getElem hs
    cases hpar : motions[s].parent with
    | none =>
      refine ⟨[], 0, ?_, HasDepth.root s _ hget hpar, rfl, List.chain'_singleton _,
        ⟨s, motions[s], rfl, hget, hpar⟩, ?_⟩
      · simp [parentWalk, hget, hpar]
      · intro i hi; simp only [List.mem_singleton] at hi; subst hi; exact hs
    | some e =>
      have he : e < s := hearlier s _ e hget hpar
      obtain ⟨rest, d, hw, hd, hlen, hchain, ⟨r, m, hlast, hr, hm⟩, hall⟩ :=
        ih e he (by omega) fuel (by omega)
      refine ⟨e :: rest, d + 1, ?_, HasDepth.child s _ e d hget hpar hd, by simp [hlen],
        List.Chain'.cons ⟨motions[s], hget, hpar⟩ hchain, ⟨r, m, ?_, hr, hm⟩, ?_⟩
      · simp [parentWalk, hget, hpar, hw]
      · simpa [List.getLast?_cons_cons] using hlast
      · intro i hi
        rcases List.mem_cons.mp hi with rfl | hi
        · exact hs
        · exact hall i hi

/-- C10. Solution path assembly: when every non-root motion's parent was inserted strictly
earlier and the chosen solution (the exact one, else the approximate one) is a motion `s` of the
tree, the parent walk of `solve` (EST and KPIECE1 share this code) terminates and the path
handed to the goal lists copies of the states along `chain`, which runs from a root (parent
absent) to `s`, each consecutive pair being a parent and its child, and has `depth(s) + 1`
elements. -/
theorem reportSolution_path (motions : List Motion) (solution approxsol : Option ℕ)
    (approxdif : Option ℚ) (s : ℕ)
    (hearlier : ∀ (i : ℕ) (m : Motion) (p : ℕ),
      motions[i]? = some m → m.parent = some p → p < i)
    (hchosen : (if solution.isNone then approxsol else solution) = some s)
    (hs : s < motions.length) :
    ∃ (chain : List ℕ) (d : ℕ),
      parentWalk motions motions.length (some s) = some chain.reverse
        ∧ reportSolution motions solution approxsol approxdif
            = some ⟨some approxdif,
                some (chain.map (fun i => copyState (((motions[i]?).map Motion.state).getD [])),
                  solution.isNone)⟩
        ∧ HasDepth motions s d
        ∧ chain.length = d + 1
        ∧ (∃ r m, chain.head? = some r ∧ motions[r]? = some m ∧ m.parent = none)
        ∧ chain.getLast? = some s
        ∧ List.Chain' (fun a b => ∃ m, motions[b]? = some m ∧ m.parent = some a) chain
        ∧ ∀ i ∈ chain, i < motions.length := by
  obtain ⟨rest, d, hw, hd, hlen, hchain, ⟨r, m, hlast, hr, hm⟩, hall⟩ :=
    parentWalk_spec motions hearlier s hs motions.length (by omega)
  refine ⟨(s :: rest).reverse, d, by simpa using hw, ?_, hd, by simp [hlen],
    ⟨r, m, ?_, hr, hm⟩, by simp, ?_, ?_⟩
  · unfold reportSolution
    simp only [hchosen, hw, pathStates]
  · rw [List.head?_reverse]; exact hlast
  · rw [List.chain'_reverse]; exact hchain
  · intro i hi; exact hall i (List.mem_reverse.mp hi)

/-! ## Motions added by the planners -/

namespace EST

theorem addMotion_motions (p : EST) (s : PlannerState) (motion : Motion) :
    (addMotion p s motion).motions = s.motions ++ [motion] := rfl

/-- The seeding loop only appends root motions whose state passed both checks. -/
theorem seed_added (p : EST) : ∀ (starts : List State) (s : PlannerState),
    ∃ added : List Motion,
      (starts.foldl
          (fun s st =>
            let motion : Motion := ⟨copyState st, none⟩
            if p.si.satisfiesBounds motion.state && p.si.isValid motion.state then
              addMotion p s motion
            else s)
          s).motions = s.motions ++ added
        ∧ ∀ m ∈ added, m.parent = none ∧ p.si.satisfiesBounds m.state = true
            ∧ p.si.isValid m.state = true
  | [], s => ⟨[], by simp, by simp⟩
  | st :: starts, s => by
    simp only [List.foldl_cons]
    by_cases hok : (p.si.satisfiesBounds (copyState st) && p.si.isValid (copyState st)) = true
    · obtain ⟨added, h1, h2⟩ := seed_added p starts (addMotion p s ⟨copyState st, none⟩)
      refine ⟨⟨copyState st, none⟩ :: added, ?_, ?_⟩
      · simp only [hok, if_true, h1, addMotion_motions, List.append_assoc, List.singleton_append]
      · intro m hm
        rcases List.mem_cons.mp hm with rfl | hm
        · simp only [Bool.and_eq_true] at hok
          exact ⟨rfl, hok.1, hok.2⟩
        · exact h2 m hm
    · obtain ⟨added, h1, h2⟩ := seed_added p starts s
      exact ⟨added, by simp only [hok, if_false, h1, Bool.false_eq_true], h2⟩

/-- The loop of `solve` only appends motions; each has an earlier motion as parent and the
segment from the parent passed `checkMotionSubdivision`; the pointers `solution` and
`approxsol` are the old ones or point to appended motions. -/
theorem loop_added (p : EST) : ∀ (inputs : List Inputs) (ls ls1 : LoopState),
    loop p ls inputs = some ls1 →
    ∃ added : List Motion,
      ls1.st.motions = ls.st.motions ++ added
        ∧ (∀ (k : ℕ) (m : Motion), added[k]? = some m →
            ∃ (e : ℕ) (em : Motion), m.parent = some e ∧ e < ls.st.motions.length + k
              ∧ (ls.st.motions ++ added)[e]? = some em
              ∧ p.si.checkMotionSubdivision em.state m.state = true)
        ∧ (∀ s, ls1.solution = some s →
            ls.solution = some s ∨ s < (ls.st.motions ++ added).length)
        ∧ (∀ s, ls1.approxsol = some s →
            ls.approxsol = some s ∨ s < (ls.st.motions ++ added).length)
  | [], ls, ls1, h => by
    simp only [loop, Option.some.injEq] at h
    subst h
    exact ⟨[], by simp, by simp, fun s hs => Or.inl hs, fun s hs => Or.inl hs⟩
  | d :: ds, ls, ls1, h => by
    unfold loop at h
    split at h
    · exact absurd h (by simp)
    · rename_i existing hsel
      split at h
      · exact absurd h (by simp)
      · rename_i em hem
        have hex : existing < ls.st.motions.length := by
          by_contra hcon
          rw [List.getElem?_eq_none (by omega)] at hem
          exact absurd hem (by simp)
        simp only at h
        -- what holds of the motion created in this turn, whatever follows
        have key : ∀ (ls2 : LoopState),
            (∃ added : List Motion,
              ls1.st.motions = ls2.st.motions ++ added
                ∧ (∀ (k : ℕ) (m : Motion), added[k]? = some m →
                    ∃ (e : ℕ) (em : Motion), m.parent = some e ∧ e < ls2.st.motions.length + k
                      ∧ (ls2.st.motions ++ added)[e]? = some em
                      ∧ p.si.checkMotionSubdivision em.state m.state = true)
                ∧ (∀ s, ls1.solution = some s →
                    ls2.solution = some s ∨ s < (ls2.st.motions ++ added).length)
                ∧ (∀ s, ls1.approxsol = some s →
                    ls2.approxsol = some s ∨ s < (ls2.st.motions ++ added).length)) →
            ls2.st = addMotion p ls.st ⟨copyState (sample p d em.state), some existing⟩ →
            p.si.checkMotionSubdivision em.state (sample p d em.state) = true →
            (∀ s, ls2.solution = some s → ls.solution = some s ∨ s = ls.st.motions.length) →
            (∀ s, ls2.approxsol = some s → ls.approxsol = some s ∨ s = ls.st.motions.length) →
            ∃ added : List Motion,
              ls1.st.motions = ls.st.motions ++ added
                ∧ (∀ (k : ℕ) (m : Motion), added[k]? = some m →
                    ∃ (e : ℕ) (em : Motion), m.parent = some e ∧ e < ls.st.motions.length + k
                      ∧ (ls.st.motions ++ added)[e]? = some em
                      ∧ p.si.checkMotionSubdivision em.state m.state = true)
                ∧ (∀ s, ls1.solution = some s →
                    ls.solution = some s ∨ s < (ls.st.motions ++ added).length)
                ∧ (∀ s, ls1.approxsol = some s →
                    ls.approxsol = some s ∨ s < (ls.st.motions ++ added).length) := by
          intro ls2 ⟨added, a1, a2, a3, a4⟩ hst hcms hsol happ
          have hm2 : ls2.st.motions
              = ls.st.motions ++ [⟨copyState (sample p d em.state), some existing⟩] := by
            rw [hst]; rfl
          refine ⟨⟨copyState (sample p d em.state), some existing⟩ :: added, ?_, ?_, ?_, ?_⟩
          · rw [a1, hm2]; simp
          · intro k m hk
            cases k with
            | zero =>
              simp only [List.getElem?_cons_zero, Option.some.injEq] at hk
              subst hk
              refine ⟨existing, em, rfl, by omega, ?_, hcms⟩
              rw [List.getElem?_append_left hex]; exact hem
            | succ k =>
              simp only [List.getElem?_cons_succ] at hk
              obtain ⟨e, em1, b1, b2, b3, b4⟩ := a2 k m hk
              refine ⟨e, em1, b1, ?_, ?_, b4⟩
              · rw [hm2] at b2; simp at b2; omega
              · rw [hm2] at b3; simpa using b3
          · intro s hs
            rcases a3 s hs with h1 | h1
            · rcases hsol s h1 with h2 | h2
              · exact Or.inl h2
              · right; simp; omega
            · right; rw [hm2] at h1; simpa using h1
          · intro s hs
            rcases a4 s hs with h1 | h1
            · rcases happ s h1 with h2 | h2
              · exact Or.inl h2
              · right; simp; omega
            · right; rw [hm2] at h1; simpa using h1
        by_cases hcms : p.si.checkMotionSubdivision em.state (sample p d em.state) = true
        · rw [if_pos hcms] at h
          by_cases hsolved : (p.goal.isSatisfied (copyState (sample p d em.state))).1 = true
          · -- solved: the loop is left
            rw [if_pos hsolved] at h
            simp only [Option.some.injEq] at h
            exact key ls1
              ⟨[], by simp, by simp, fun s hs => Or.inl hs, fun s hs => Or.inl hs⟩
              (by rw [← h]) hcms
              (fun s hs => Or.inr (by rw [← h] at hs; simpa using hs.symm))
              (fun s hs => Or.inl (by rw [← h] at hs; exact hs))
          · rw [if_neg hsolved] at h
            by_cases hlt : ltApproxdif (p.goal.isSatisfied (copyState (sample p d em.state))).2
                ls.approxdif = true
            · rw [if_pos hlt] at h
              exact key _ (loop_added p ds _ ls1 h) rfl hcms
                (fun s hs => Or.inl hs) (fun s hs => Or.inr (by simpa using hs.symm))
            · rw [if_neg hlt] at h
              exact key _ (loop_added p ds _ ls1 h) rfl hcms
                (fun s hs => Or.inl hs) (fun s hs => Or.inl hs)
        · rw [if_neg hcms] at h
          exact loop_added p ds ls ls1 h

end EST

namespace SpaceInformationKinematic

/-- Extending a non-empty path by one state: the new last pair is checked in addition. -/
theorem checkPathLoop_append (si : SpaceInformationKinematic) (a b : State) :
    ∀ (l : List State), l.getLast? = some b →
      (si.checkPathLoop (l ++ [a]) = true ↔
        si.checkPathLoop l = true ∧ si.checkMotionSubdivision b a = true)
  | [], h => by simp at h
  | [x], h => by
    simp only [List.getLast?_singleton, Option.some.injEq] at h
    subst h
    by_cases hc : si.checkMotionSubdivision x a = true <;> simp [checkPathLoop, hc]
  | x :: y :: l, h => by
    have h1 : (y :: l).getLast? = some b := by simpa [List.getLast?_cons_cons] using h
    have ih := checkPathLoop_append si a b (y :: l) h1
    simp only [List.cons_append] at ih ⊢
    by_cases hc : si.checkMotionSubdivision x y = true
    · simp only [checkPathLoop, hc, Bool.not_true, Bool.false_eq_true, if_false]
      exact ih
    · simp [checkPathLoop, hc]

theorem checkPath_append (si : SpaceInformationKinematic) (a b : State) (l : List State)
    (h : l.getLast? = some b) :
    (si.checkPath (some (l ++ [a])) = true ↔
      si.checkPath (some l) = true ∧ si.checkMotionSubdivision b a = true) := by
  cases l with
  | nil => simp at h
  | cons x l =>
    simp only [checkPath, List.cons_append]
    by_cases hv : si.isValid x = true
    · simp only [hv, if_true]
      exact si.checkPathLoop_append a b (x :: l) h
    · simp [hv]

end SpaceInformationKinematic

theorem pathStates_cons (motions : List Motion) (s : ℕ) (rest : List ℕ) :
    pathStates motions (s :: rest)
      = pathStates motions rest
          ++ [copyState (((motions[s]?).map Motion.state).getD [])] := by
  simp [pathStates]

namespace EST

theorem TreeValid.parents_earlier {si : SpaceInformationKinematic} {motions : List Motion}
    (hv : TreeValid si motions) :
    ∀ (i : ℕ) (m : Motion) (e : ℕ), motions[i]? = some m → m.parent = some e → e < i :=
  fun i m e hi he => ((hv i m hi).2 e he).1

/-- Appending motions that are valid roots or checked children keeps the tree invariant. -/
theorem TreeValid.append {si : SpaceInformationKinematic} {motions added : List Motion}
    (hv : TreeValid si motions)
    (hadd : ∀ (k : ℕ) (m : Motion), added[k]? = some m →
      (m.parent = none → si.isValid m.state = true)
        ∧ ∀ e : ℕ, m.parent = some e →
            e < motions.length + k ∧ ∃ em : Motion, (motions ++ added)[e]? = some em
              ∧ si.checkMotionSubdivision em.state m.state = true) :
    TreeValid si (motions ++ added) := by
  intro i m hi
  by_cases hlt : i < motions.length
  · rw [List.getElem?_append_left hlt] at hi
    obtain ⟨h1, h2⟩ := hv i m hi
    refine ⟨h1, fun e he => ?_⟩
    obtain ⟨h3, em, h4, h5⟩ := h2 e he
    exact ⟨h3, em, by rw [List.getElem?_append_left (by omega)]; exact h4, h5⟩
  · rw [List.getElem?_append_right (by omega)] at hi
    obtain ⟨h1, h2⟩ := hadd (i - motions.length) m hi
    refine ⟨h1, fun e he => ?_⟩
    obtain ⟨h3, h4⟩ := h2 e he
    exact ⟨by omega, h4⟩

/-- In a valid tree the walk from any motion ends, and the path it yields passes `checkPath`
and ends with the state of that motion. -/
theorem TreeValid.walk_checkPath {si : SpaceInformationKinematic} {motions : List Motion}
    (hv : TreeValid si motions) :
    ∀ (s : ℕ) (m : Motion), motions[s]? = some m → ∀ fuel, s + 1 ≤ fuel →
      ∃ rest : List ℕ,
        parentWalk motions fuel (some s) = some (s :: rest)
          ∧ si.checkPath (some (pathStates motions (s :: rest))) = true
          ∧ (pathStates motions (s :: rest)).getLast? = some m.state := by
  intro s
  induction s using Nat.strong_induction_on with
  | _ s ih =>
    intro m hm fuel hfuel
    obtain ⟨fuel, rfl⟩ : ∃ f, fuel = f + 1 := ⟨fuel - 1, by omega⟩
    obtain ⟨hroot, hchild⟩ := hv s m hm
    have hlast : (pathStates motions [s]) = [m.state] := by
      simp [pathStates, hm, copyState]
    cases hpar : m.parent with
    | none =>
      refine ⟨[], by simp [parentWalk, hm, hpar], ?_, by simp [hlast]⟩
      rw [hlast]
      simp [SpaceInformationKinematic.checkPath, SpaceInformationKinematic.checkPathLoop,
        hroot hpar]
    | some e =>
      obtain ⟨he, em, hem, hcms⟩ := hchild e hpar
      obtain ⟨rest, hw, hcp, hl⟩ := ih e he em hem fuel (by omega)
      refine ⟨e :: rest, by simp [parentWalk, hm, hpar, hw], ?_, ?_⟩
      · rw [pathStates_cons, si.checkPath_append _ em.state _ hl]
        refine ⟨hcp, ?_⟩
        simpa [hm, copyState] using hcms
      · rw [pathStates_cons]
        simp [hm, copyState]

/-- A call of `solve` on a valid tree leaves a valid tree, and the path it hands to the goal,
if any, passes `checkPath`. -/
theorem solve_treeValid (p : EST) (s : PlannerState) (inputs : List Inputs)
    (res : SolveResult PlannerState) (hv : TreeValid p.si s.motions)
    (hsolve : solve p s inputs = some res) :
    TreeValid p.si res.planner.motions
      ∧ ∀ (path : List State) (approximate : Bool),
          res.goalCalls.setSolutionPath = some (path, approximate) →
            p.si.checkPath (some path) = true := by
  -- the tree after seeding
  have hseed : TreeValid p.si (if s.tree.grid.length = 0 then seed p s else s).motions := by
    split_ifs
    · obtain ⟨added, h1, h2⟩ := seed_added p p.startStates s
      unfold seed
      rw [h1]
      refine hv.append (fun k m hk => ?_)
      obtain ⟨hp, _, hval⟩ := h2 m (List.mem_iff_getElem?.mpr ⟨k, hk⟩)
      exact ⟨fun _ => hval, fun e he => by rw [hp] at he; exact absurd he (by simp)⟩
    · exact hv
  unfold solve at hsolve
  by_cases hgoal : (p.goal.goal_s.isNone && !p.goal.goal_r) = true
  · rw [if_pos hgoal] at hsolve
    simp only [Option.some.injEq] at hsolve
    subst hsolve
    exact ⟨hv, fun path approximate h => by simp at h⟩
  rw [if_neg hgoal] at hsolve
  simp only at hsolve
  generalize (if s.tree.grid.length = 0 then seed p s else s) = s1 at hsolve hseed
  by_cases hempty : s1.tree.grid.length = 0
  · rw [if_pos hempty] at hsolve
    simp only [Option.some.injEq] at hsolve
    subst hsolve
    exact ⟨hseed, fun path approximate h => by simp at h⟩
  rw [if_neg hempty] at hsolve
  · split at hsolve
    · exact absurd hsolve (by simp)
    · rename_i ls hloop
      obtain ⟨added, h1, h2, h3, h4⟩ := loop_added p inputs _ ls hloop
      simp only at h1 h2 h3 h4
      have hfinal : TreeValid p.si ls.st.motions := by
        rw [h1]
        refine hseed.append (fun k m hk => ?_)
        obtain ⟨e, em, b1, b2, b3, b4⟩ := h2 k m hk
        refine ⟨fun hn => by rw [b1] at hn; exact absurd hn (by simp), fun e1 he1 => ?_⟩
        rw [b1] at he1
        simp only [Option.some.injEq] at he1
        subst he1
        exact ⟨b2, em, b3, b4⟩
      split at hsolve
      · exact absurd hsolve (by simp)
      · rename_i calls hreport
        simp only [Option.some.injEq] at hsolve
        subst hsolve
        refine ⟨hfinal, fun path approximate hpath => ?_⟩
        simp only at hpath
        unfold reportSolution at hreport
        simp only at hreport
        split at hreport
        · simp only [Option.some.injEq] at hreport
          subst hreport
          simp at hpath
        · rename_i chosen hchosen
          have hlt : chosen < ls.st.motions.length := by
            rw [h1]
            split_ifs at hchosen with hsol
            · rcases h4 chosen hchosen with h | h
              · simp at h
              · exact h
            · rcases h3 chosen hchosen with h | h
              · simp at h
              · exact h
          obtain ⟨rest, hw, hcp, _⟩ := hfinal.walk_checkPath chosen _
            (List.getElem?_eq_getElem hlt) ls.st.motions.length (by omega)
          rw [hw] at hreport
          simp only [Option.some.injEq] at hreport
          subst hreport
          simp only [Option.some.injEq, Prod.mk.injEq] at hpath
          rw [← hpath.1]
          exact hcp

theorem Built.treeValid {si : SpaceInformationKinematic} {s : PlannerState}
    (h : Built si s) : TreeValid si s.motions := by
  induction h with
  | empty => intro i m hi; simp [PlannerState.empty] at hi
  | solve p s inputs res hp _ hsolve ih =>
    subst hp
    exact (solve_treeValid p s inputs res ih hsolve).1

/-- C6. Idempotent re-solve for EST: on a tree built by `EST::solve` from an empty tree, for
every validity predicate, every solution path that `EST::solve` hands to the goal (exact or
approximate) satisfies `checkPath(path) = true`. -/
theorem solve_path_checkPath (p : EST) (s : PlannerState) (inputs : List Inputs)
    (res : SolveResult PlannerState) (path : List State) (approximate : Bool)
    (hbuilt : Built p.si s)
    (hsolve : solve p s inputs = some res)
    (hpath : res.goalCalls.setSolutionPath = some (path, approximate)) :
    p.si.checkPath (some path) = true :=
  (solve_treeValid p s inputs res hbuilt.treeValid hsolve).2 path approximate hpath

end EST

theorem lineEST_seed :
    EST.seed lineEST EST.PlannerState.empty = ⟨[⟨[0], none⟩], ⟨[⟨[0], [0]⟩], 1⟩⟩ := by
  simp [EST.seed, lineEST, EST.PlannerState.empty, EST.addMotion, EST.getCell, copyState,
    lineSpace, belowThree]

theorem lineEST_solve :
    EST.solve lineEST EST.PlannerState.empty [lineInputs]
      = some ⟨⟨[⟨[0], none⟩, ⟨[5/2], some 0⟩], ⟨[⟨[0], [0]⟩, ⟨[2], [1]⟩], 2⟩⟩,
          ⟨some (some 0), some ([[0], [5/2]], false)⟩, true⟩ := by
  have hc : (lineSpace belowThree).checkMotionSubdivision [0] [5/2] = true :=
    lineSpace_belowThree_check
  have hseed := lineEST_seed
  unfold EST.solve
  rw [if_neg (by simp [lineEST, lineGoal, Goal.goal_s, Goal.goal_r])]
  simp only [EST.PlannerState.empty, List.length_nil, if_true] at hseed ⊢
  rw [hseed]
  simp [EST.loop, EST.selectMotion, EST.selectCell, lineInputs, EST.sample, lineEST, lineGoal,
    Goal.goal_s, Goal.goal_k, copyState, hc, EST.addMotion, EST.getCell, reportSolution,
    parentWalk, pathStates, ltApproxdif]
  norm_num

/-- The re-check of C6 on a run of EST that reaches the goal in one loop turn. -/
theorem solve_path_checkPath_witness :
    EST.Built lineEST.si EST.PlannerState.empty
      ∧ EST.solve lineEST EST.PlannerState.empty [lineInputs]
          = some ⟨⟨[⟨[0], none⟩, ⟨[5/2], some 0⟩], ⟨[⟨[0], [0]⟩, ⟨[2], [1]⟩], 2⟩⟩,
              ⟨some (some 0), some ([[0], [5/2]], false)⟩, true⟩
      ∧ lineEST.si.checkPath (some [[0], [5/2]]) = true :=
  ⟨EST.Built.empty, lineEST_solve,
    EST.solve_path_checkPath lineEST EST.PlannerState.empty [lineInputs] _ [[0], [5/2]] false
      EST.Built.empty lineEST_solve rfl⟩

namespace SpaceInformationKinematic

/-- The state that KPIECE1 keeps after `checkMotion(s1, s2, s2, &failTime)` with
`failTime = 0.0`: when the check succeeds, or fails with a positive `failTime`, that state is
valid. -/
theorem checkMotion_kept_valid (si : SpaceInformationKinematic) (s1 s2 : State) (bound : ℚ)
    (hb : 0 ≤ bound)
    (hkeep : ((si.checkMotion s1 s2 (some s2) (some 0)).result
      || (!(si.checkMotion s1 s2 (some s2) (some 0)).result
          && decide ((si.checkMotion s1 s2 (some s2) (some 0)).lastValidTime.getD 0 > bound)))
        = true) :
    si.isValid ((si.checkMotion s1 s2 (some s2) (some 0)).lastValidState.getD s2) = true := by
  unfold checkMotion checkMotionIncremental at hkeep ⊢
  by_cases hv : si.isValid s2 = true
  · simp only [hv, Bool.not_true, Bool.false_eq_true, if_false] at hkeep ⊢
    cases hfind : (sweepIndices (si.findDifferenceStep s1 s2 1).1).find?
        (fun (j : ℤ) => !si.isValid
          (stateAt si.m_stateDimension s1 (si.findDifferenceStep s1 s2 1).2 (j : ℚ))) with
    | none => simpa [hfind] using hv
    | some j =>
      obtain ⟨h1, h2, -, h4⟩ := find?_sweepIndices hfind
      simp only [hfind, Option.map_some', Option.getD_some, Bool.false_or, Bool.not_false,
        Bool.true_and, decide_eq_true_eq] at hkeep ⊢
      have hnd : (0 : ℚ) < ((si.findDifferenceStep s1 s2 1).1 : ℚ) := by
        exact_mod_cast (by omega : 0 < (si.findDifferenceStep s1 s2 1).1)
      have hpos : (0 : ℚ) < ((j - 1 : ℤ) : ℚ) := by
        have h0 : 0 < ((j - 1 : ℤ) : ℚ) / ((si.findDifferenceStep s1 s2 1).1 : ℚ) :=
          lt_of_le_of_lt hb hkeep
        exact (div_pos_iff_of_pos_right hnd).mp h0
      have hj : 1 ≤ j - 1 := by exact_mod_cast hpos
      have := h4 (j - 1) hj (by omega)
      simp only [Bool.not_eq_false', Int.cast_sub, Int.cast_one] at this
      exact this
  · simp only [hv, Bool.not_false, if_true, Bool.false_or, Bool.true_and, Option.getD_some,
      decide_eq_true_eq] at hkeep
    exact absurd hkeep (not_lt.mpr hb)

end SpaceInformationKinematic

namespace KPIECE1

theorem kpiece_addMotion_motions (p : KPIECE1) (s : PlannerState) (motion : Motion) (dist : ℚ) :
    (addMotion p s motion dist).1.motions = s.motions ++ [motion] :=
  (kpiece_addMotion_size p s motion dist).2.2

theorem selectMotion_motions (p : KPIECE1) (s s1 : PlannerState) (d : Inputs) (e c : ℕ)
    (h : selectMotion p s d = some (s1, e, c)) : s1.motions = s.motions := by
  unfold selectMotion at h
  simp only at h
  split at h
  · exact absurd h (by simp)
  · split at h
    · exact absurd h (by simp)
    · split_ifs at h
      · split at h
        · exact absurd h (by simp)
        · simp only [Option.some.injEq, Prod.mk.injEq] at h
          rw [← h.1]

/-- The seeding loop only appends root motions whose state passed both checks. -/
theorem kpiece_seed_added (p : KPIECE1) : ∀ (starts : List State) (s : PlannerState),
    ∃ added : List Motion,
      (starts.foldl
          (fun s st =>
            let motion : Motion := ⟨copyState st, none⟩
            if p.si.satisfiesBounds motion.state && p.si.isValid motion.state then
              (addMotion p s motion 1).1
            else s)
          s).motions = s.motions ++ added
        ∧ ∀ m ∈ added, m.parent = none ∧ p.si.satisfiesBounds m.state = true
            ∧ p.si.isValid m.state = true
  | [], s => ⟨[], by simp, by simp⟩
  | st :: starts, s => by
    simp only [List.foldl_cons]
    by_cases hok : (p.si.satisfiesBounds (copyState st) && p.si.isValid (copyState st)) = true
    · obtain ⟨added, h1, h2⟩ := kpiece_seed_added p starts (addMotion p s ⟨copyState st, none⟩ 1).1
      refine ⟨⟨copyState st, none⟩ :: added, ?_, ?_⟩
      · simp only [hok, if_true, h1, kpiece_addMotion_motions, List.append_assoc, List.singleton_append]
      · intro m hm
        rcases List.mem_cons.mp hm with rfl | hm
        · simp only [Bool.and_eq_true] at hok
          exact ⟨rfl, hok.1, hok.2⟩
        · exact h2 m hm
    · obtain ⟨added, h1, h2⟩ := kpiece_seed_added p starts s
      exact ⟨added, by simp only [hok, if_false, h1, Bool.false_eq_true], h2⟩

/-- The loop of `solve` only appends motions; each has an earlier motion as parent, and its
state is valid when `minValidPathPercentage` is not negative; the pointers `solution` and
`approxsol` are the old ones or point to appended motions. -/
theorem kpiece_loop_added (p : KPIECE1) : ∀ (inputs : List Inputs) (ls ls1 : LoopState),
    loop p ls inputs = some ls1 →
    ∃ added : List Motion,
      ls1.st.motions = ls.st.motions ++ added
        ∧ (∀ (k : ℕ) (m : Motion), added[k]? = some m →
            ∃ e : ℕ, m.parent = some e ∧ e < ls.st.motions.length + k
              ∧ (0 ≤ p.m_minValidPathPercentage → p.si.isValid m.state = true))
        ∧ (∀ s, ls1.solution = some s →
            ls.solution = some s ∨ s < (ls.st.motions ++ added).length)
        ∧ (∀ s, ls1.approxsol = some s →
            ls.approxsol = some s ∨ s < (ls.st.motions ++ added).length)
  | [], ls, ls1, h => by
    simp only [loop, Option.some.injEq] at h
    subst h
    exact ⟨[], by simp, by simp, fun s hs => Or.inl hs, fun s hs => Or.inl hs⟩
  | d :: ds, ls, ls1, h => by
    unfold loop at h
    simp only at h
    split at h
    · exact absurd h (by simp)
    · rename_i s1 existing ecell hsel
      have hs1 : s1.motions = ls.st.motions := by
        have := selectMotion_motions p _ s1 d existing ecell hsel
        exact this
      split at h
      · exact absurd h (by simp)
      · rename_i em hem
        have hex : existing < ls.st.motions.length := by
          by_contra hcon
          rw [hs1, List.getElem?_eq_none (by omega)] at hem
          exact absurd hem (by simp)
        generalize hsm : sample p d em.state
          (ls.approxsol.bind fun a => (s1.motions[a]?).map Motion.state) ls.improveValue = sm at h
        -- what holds of a motion created in this turn, whatever follows
        have key : ∀ (ls2 : LoopState) (motion : Motion),
            (∃ added : List Motion,
              ls1.st.motions = ls2.st.motions ++ added
                ∧ (∀ (k : ℕ) (m : Motion), added[k]? = some m →
                    ∃ e : ℕ, m.parent = some e ∧ e < ls2.st.motions.length + k
                      ∧ (0 ≤ p.m_minValidPathPercentage → p.si.isValid m.state = true))
                ∧ (∀ s, ls1.solution = some s →
                    ls2.solution = some s ∨ s < (ls2.st.motions ++ added).length)
                ∧ (∀ s, ls1.approxsol = some s →
                    ls2.approxsol = some s ∨ s < (ls2.st.motions ++ added).length)) →
            ls2.st.motions = ls.st.motions ++ [motion] →
            motion.parent = some existing →
            (0 ≤ p.m_minValidPathPercentage → p.si.isValid motion.state = true) →
            (∀ s, ls2.solution = some s → ls.solution = some s ∨ s = ls.st.motions.length) →
            (∀ s, ls2.approxsol = some s → ls.approxsol = some s ∨ s = ls.st.motions.length) →
            ∃ added : List Motion,
              ls1.st.motions = ls.st.motions ++ added
                ∧ (∀ (k : ℕ) (m : Motion), added[k]? = some m →
                    ∃ e : ℕ, m.parent = some e ∧ e < ls.st.motions.length + k
                      ∧ (0 ≤ p.m_minValidPathPercentage → p.si.isValid m.state = true))
                ∧ (∀ s, ls1.solution = some s →
                    ls.solution = some s ∨ s < (ls.st.motions ++ added).length)
                ∧ (∀ s, ls1.approxsol = some s →
                    ls.approxsol = some s ∨ s < (ls.st.motions ++ added).length) := by
          intro ls2 motion ⟨added, a1, a2, a3, a4⟩ hm2 hpar hval hsol happ
          refine ⟨motion :: added, ?_, ?_, ?_, ?_⟩
          · rw [a1, hm2]; simp
          · intro k m hk
            cases k with
            | zero =>
              simp only [List.getElem?_cons_zero, Option.some.injEq] at hk
              subst hk
              exact ⟨existing, hpar, by omega, hval⟩
            | succ k =>
              simp only [List.getElem?_cons_succ] at hk
              obtain ⟨e, b1, b2, b3⟩ := a2 k m hk
              refine ⟨e, b1, ?_, b3⟩
              rw [hm2] at b2; simp at b2; omega
          · intro s hs
            rcases a3 s hs with h1 | h1
            · rcases hsol s h1 with h2 | h2
              · exact Or.inl h2
              · right; simp; omega
            · right; rw [hm2] at h1; simpa using h1
          · intro s hs
            rcases a4 s hs with h1 | h1
            · rcases happ s h1 with h2 | h2
              · exact Or.inl h2
              · right; simp; omega
            · right; rw [hm2] at h1; simpa using h1
        by_cases hkeep : ((p.si.checkMotion em.state sm.1 (some sm.1) (some 0)).result
            || (!(p.si.checkMotion em.state sm.1 (some sm.1) (some 0)).result
                && decide ((p.si.checkMotion em.state sm.1 (some sm.1) (some 0)).lastValidTime.getD
                    0 > p.m_minValidPathPercentage))) = true
        · rw [if_pos hkeep] at h
          have hval : 0 ≤ p.m_minValidPathPercentage → p.si.isValid (copyState
              ((p.si.checkMotion em.state sm.1 (some sm.1) (some 0)).lastValidState.getD sm.1))
                = true :=
            fun hb => p.si.checkMotion_kept_valid em.state sm.1 _ hb hkeep
          have hlen : s1.motions.length = ls.st.motions.length := by rw [hs1]
          split_ifs at h with hsolved hlt
          · -- solved: the loop is left
            simp only [Option.some.injEq] at h
            exact key ls1 _
              ⟨[], by simp, by simp, fun s hs => Or.inl hs, fun s hs => Or.inl hs⟩
              (by rw [← h, kpiece_addMotion_motions, hs1]) rfl hval
              (fun s hs => Or.inr (by rw [← h] at hs; simp only [Option.some.injEq] at hs; omega))
              (fun s hs => Or.inl (by rw [← h] at hs; exact hs))
          · exact key _ _ (kpiece_loop_added p ds _ ls1 h)
              (by show (addMotion p s1 _ _).1.motions = _; rw [kpiece_addMotion_motions, hs1]) rfl hval
              (fun s hs => Or.inl hs)
              (fun s hs => Or.inr (by simp only [Option.some.injEq] at hs; omega))
          · exact key _ _ (kpiece_loop_added p ds _ ls1 h)
              (by show (addMotion p s1 _ _).1.motions = _; rw [kpiece_addMotion_motions, hs1]) rfl hval
              (fun s hs => Or.inl hs) (fun s hs => Or.inl hs)
        · rw [if_neg hkeep] at h
          obtain ⟨added, a1, a2, a3, a4⟩ := kpiece_loop_added p ds _ ls1 h
          simp only [scaleScore, hs1] at a1 a2 a3 a4
          exact ⟨added, a1, a2, a3, a4⟩

end KPIECE1

/-- C8, as the code has it. Every start state that `EST::solve` or `KPIECE1::solve` inserts is a
root whose state satisfies `satisfiesBounds` and `isValid`; every loop-created motion has a
parent and a state that satisfies `isValid` (in KPIECE1 provided `minValidPathPercentage ≥ 0`).
No bounds check is made on loop-created motions. -/
theorem inserted_motions_checked (pe : EST) (se : EST.PlannerState) (ie : List EST.Inputs)
    (pk : KPIECE1) (sk : KPIECE1.PlannerState) (ik : List KPIECE1.Inputs) :
    (∀ res, EST.solve pe se ie = some res →
      ∃ seeded created : List Motion,
        res.planner.motions = se.motions ++ seeded ++ created
          ∧ (∀ m ∈ seeded, m.parent = none ∧ pe.si.satisfiesBounds m.state = true
              ∧ pe.si.isValid m.state = true)
          ∧ (∀ m ∈ created, m.parent ≠ none ∧ pe.si.isValid m.state = true))
      ∧ (0 ≤ pk.m_minValidPathPercentage →
          ∀ res, KPIECE1.solve pk sk ik = some res →
            ∃ seeded created : List Motion,
              res.planner.motions = sk.motions ++ seeded ++ created
                ∧ (∀ m ∈ seeded, m.parent = none ∧ pk.si.satisfiesBounds m.state = true
                    ∧ pk.si.isValid m.state = true)
                ∧ (∀ m ∈ created, m.parent ≠ none ∧ pk.si.isValid m.state = true)) := by
  constructor
  · intro res hsolve
    have hseed : ∃ seeded : List Motion,
        (if se.tree.grid.length = 0 then EST.seed pe se else se).motions = se.motions ++ seeded
          ∧ ∀ m ∈ seeded, m.parent = none ∧ pe.si.satisfiesBounds m.state = true
              ∧ pe.si.isValid m.state = true := by
      split_ifs
      · exact EST.seed_added pe pe.startStates se
      · exact ⟨[], by simp, by simp⟩
    obtain ⟨seeded, hs1, hs2⟩ := hseed
    unfold EST.solve at hsolve
    by_cases hgoal : (pe.goal.goal_s.isNone && !pe.goal.goal_r) = true
    · rw [if_pos hgoal] at hsolve
      simp only [Option.some.injEq] at hsolve
      subst hsolve
      exact ⟨[], [], by simp, by simp, by simp⟩
    rw [if_neg hgoal] at hsolve
    simp only at hsolve
    generalize (if se.tree.grid.length = 0 then EST.seed pe se else se) = s1 at hsolve hs1
    by_cases hempty : s1.tree.grid.length = 0
    · rw [if_pos hempty] at hsolve
      simp only [Option.some.injEq] at hsolve
      subst hsolve
      exact ⟨seeded, [], by simpa using hs1, hs2, by simp⟩
    rw [if_neg hempty] at hsolve
    split at hsolve
    · exact absurd hsolve (by simp)
    · rename_i ls hloop
      obtain ⟨created, h1, h2, -, -⟩ := EST.loop_added pe ie _ ls hloop
      simp only at h1 h2
      split at hsolve
      · exact absurd hsolve (by simp)
      · simp only [Option.some.injEq] at hsolve
        subst hsolve
        refine ⟨seeded, created, by rw [h1, hs1], hs2, fun m hm => ?_⟩
        obtain ⟨k, hk⟩ := List.mem_iff_getElem?.mp hm
        obtain ⟨e, em, b1, -, -, b4⟩ := h2 k m hk
        exact ⟨by simp [b1], ((pe.si.checkMotionSubdivision_iff em.state m.state).mp b4).1⟩
  · intro hmvpp res hsolve
    have hseed : ∃ seeded : List Motion,
        (if sk.tree.grid.length = 0 then KPIECE1.seed pk sk else sk).motions
            = sk.motions ++ seeded
          ∧ ∀ m ∈ seeded, m.parent = none ∧ pk.si.satisfiesBounds m.state = true
              ∧ pk.si.isValid m.state = true := by
      split_ifs
      · exact KPIECE1.kpiece_seed_added pk pk.startStates sk
      · exact ⟨[], by simp, by simp⟩
    obtain ⟨seeded, hs1, hs2⟩ := hseed
    unfold KPIECE1.solve at hsolve
    by_cases hgoal : (pk.goal.goal_s.isNone && !pk.goal.goal_r) = true
    · rw [if_pos hgoal] at hsolve
      simp only [Option.some.injEq] at hsolve
      subst hsolve
      exact ⟨[], [], by simp, by simp, by simp⟩
    rw [if_neg hgoal] at hsolve
    simp only at hsolve
    generalize (if sk.tree.grid.length = 0 then KPIECE1.seed pk sk else sk) = s1 at hsolve hs1
    by_cases hempty : s1.tree.grid.length = 0
    · rw [if_pos hempty] at hsolve
      simp only [Option.some.injEq] at hsolve
      subst hsolve
      exact ⟨seeded, [], by simpa using hs1, hs2, by simp⟩
    rw [if_neg hempty] at hsolve
    split at hsolve
    · exact absurd hsolve (by simp)
    · rename_i ls hloop
      obtain ⟨created, h1, h2, -, -⟩ := KPIECE1.kpiece_loop_added pk ik _ ls hloop
      simp only at h1 h2
      split at hsolve
      · exact absurd hsolve (by simp)
      · simp only [Option.some.injEq] at hsolve
        subst hsolve
        refine ⟨seeded, created, by rw [h1, hs1], hs2, fun m hm => ?_⟩
        obtain ⟨k, hk⟩ := List.mem_iff_getElem?.mp hm
        obtain ⟨e, b1, -, b3⟩ := h2 k m hk
        exact ⟨by simp [b1], b3 hmvpp⟩

theorem lineEST_solve_result :
    EST.solve lineEST EST.PlannerState.empty [lineInputs] = some lineESTResult :=
  lineEST_solve

theorem farEST_solve :
    EST.solve farEST EST.PlannerState.empty [lineInputs] = some farESTResult := by
  have hc : (lineSpace fun _ => true).checkMotionSubdivision [0] [11] = true :=
    (SpaceInformationKinematic.checkMotionSubdivision_iff _ [0] [11]).mpr
      ⟨rfl, fun _ _ _ => rfl⟩
  have hseed : EST.seed farEST EST.PlannerState.empty = ⟨[⟨[0], none⟩], ⟨[⟨[0], [0]⟩], 1⟩⟩ := by
    simp [EST.seed, farEST, EST.PlannerState.empty, EST.addMotion, EST.getCell, copyState,
      lineSpace]
  unfold EST.solve
  rw [if_neg (by simp [farEST, farGoal, Goal.goal_s, Goal.goal_r])]
  simp only [EST.PlannerState.empty, List.length_nil, if_true] at hseed ⊢
  rw [hseed]
  simp [EST.loop, EST.selectMotion, EST.selectCell, lineInputs, EST.sample, farEST, farGoal,
    Goal.goal_s, Goal.goal_k, copyState, hc, EST.addMotion, EST.getCell, reportSolution,
    parentWalk, pathStates, ltApproxdif, farESTResult]

/-- C8 fails as stated: with a goal state outside the bounds, EST inserts a loop-created
motion whose state does not satisfy `satisfiesBounds`. -/
theorem inserted_motion_out_of_bounds :
    EST.solve farEST EST.PlannerState.empty [lineInputs] = some farESTResult
      ∧ (⟨[11], some 0⟩ : Motion) ∈ farESTResult.planner.motions
      ∧ farEST.si.satisfiesBounds (⟨[11], some 0⟩ : Motion).state = false :=
  ⟨farEST_solve, by simp [farESTResult], by norm_num [farEST, lineSpace]⟩

theorem lineKPIECE1_solve :
    KPIECE1.solve lineKPIECE1 KPIECE1.PlannerState.empty [lineKInputs]
      = some lineKPIECE1Result := by
  have hc : (lineSpace belowThree).checkMotionIncremental [0] [5/2] (some [5/2]) (some 0)
      = ⟨true, some [5/2], some 0⟩ := by
    unfold SpaceInformationKinematic.checkMotionIncremental
    rw [lineSpace_step]
    norm_num [lineSpace, belowThree, SpaceInformationKinematic.sweepIndices, stateAt,
      List.range_succ, List.find?]
  have hseed : KPIECE1.seed lineKPIECE1 KPIECE1.PlannerState.empty
      = ⟨[⟨[0], none⟩], ⟨[⟨[0], ⟨[0], 1, 1, 1000 / 1001, 0⟩⟩], 1, 0⟩⟩ := by
    simp [KPIECE1.seed, lineKPIECE1, KPIECE1.PlannerState.empty, KPIECE1.addMotion,
      KPIECE1.getCell, copyState, lineSpace, belowThree]
    norm_num
  unfold KPIECE1.solve
  rw [if_neg (by simp [lineKPIECE1, lineGoal, Goal.goal_s, Goal.goal_r])]
  simp only [KPIECE1.PlannerState.empty, List.length_nil, if_true] at hseed ⊢
  rw [hseed]
  simp [KPIECE1.loop, KPIECE1.selectMotion, lineKInputs, KPIECE1.sample, lineKPIECE1, lineGoal,
    Goal.goal_s, Goal.goal_k, copyState, SpaceInformationKinematic.checkMotion, hc,
    KPIECE1.addMotion, KPIECE1.getCell, reportSolution, parentWalk, pathStates, ltApproxdif,
    lineKPIECE1Result, List.modify, List.modifyTailIdx]
  norm_num
  rfl

/-- The amended C8 on one run of each planner. -/
theorem inserted_motions_checked_witness :
    (∃ seeded created : List Motion,
        lineESTResult.planner.motions = EST.PlannerState.empty.motions ++ seeded ++ created
          ∧ (∀ m ∈ seeded, m.parent = none ∧ lineEST.si.satisfiesBounds m.state = true
              ∧ lineEST.si.isValid m.state = true)
          ∧ (∀ m ∈ created, m.parent ≠ none ∧ lineEST.si.isValid m.state = true))
      ∧ (0 : ℚ) ≤ lineKPIECE1.m_minValidPathPercentage
      ∧ (∃ seeded created : List Motion,
          lineKPIECE1Result.planner.motions
              = KPIECE1.PlannerState.empty.motions ++ seeded ++ created
            ∧ (∀ m ∈ seeded, m.parent = none ∧ lineKPIECE1.si.satisfiesBounds m.state = true
                ∧ lineKPIECE1.si.isValid m.state = true)
            ∧ (∀ m ∈ created, m.parent ≠ none ∧ lineKPIECE1.si.isValid m.state = true)) :=
  ⟨(inserted_motions_checked lineEST EST.PlannerState.empty [lineInputs] lineKPIECE1
      KPIECE1.PlannerState.empty [lineKInputs]).1 lineESTResult lineEST_solve_result,
    by norm_num [lineKPIECE1],
    (inserted_motions_checked lineEST EST.PlannerState.empty [lineInputs] lineKPIECE1
      KPIECE1.PlannerState.empty [lineKInputs]).2 (by norm_num [lineKPIECE1])
      lineKPIECE1Result lineKPIECE1_solve⟩

theorem lineMotions_earlier :
    ∀ (i : ℕ) (m : Motion) (p : ℕ),
      lineESTResult.planner.motions[i]? = some m → m.parent = some p → p < i := by
  intro i m p hi hp
  match i, hi with
  | 0, hi =>
    simp only [lineESTResult, List.getElem?_cons_zero, Option.some.injEq] at hi
    subst hi; simp at hp
  | 1, hi =>
    simp only [lineESTResult, List.getElem?_cons_succ, List.getElem?_cons_zero,
      Option.some.injEq] at hi
    subst hi; simp only [Option.some.injEq] at hp; omega
  | n + 2, hi => simp [lineESTResult] at hi

/-- The path assembly of C10 on the two motions of the run `lineESTResult`. -/
theorem reportSolution_path_witness :
    ∃ (chain : List ℕ) (d : ℕ),
      parentWalk lineESTResult.planner.motions lineESTResult.planner.motions.length (some 1)
          = some chain.reverse
        ∧ reportSolution lineESTResult.planner.motions (some 1) none (some 0)
            = some ⟨some (some 0),
                some (chain.map (fun i => copyState
                    (((lineESTResult.planner.motions[i]?).map Motion.state).getD [])),
                  (some 1 : Option ℕ).isNone)⟩
        ∧ HasDepth lineESTResult.planner.motions 1 d
        ∧ chain.length = d + 1
        ∧ (∃ r m, chain.head? = some r ∧ lineESTResult.planner.motions[r]? = some m
            ∧ m.parent = none)
        ∧ chain.getLast? = some 1
        ∧ List.Chain'
            (fun a b => ∃ m, lineESTResult.planner.motions[b]? = some m ∧ m.parent = some a)
            chain
        ∧ ∀ i ∈ chain, i < lineESTResult.planner.motions.length :=
  reportSolution_path lineESTResult.planner.motions (some 1) none (some 0) 1
    lineMotions_earlier rfl (by simp [lineESTResult])

/-- The walk on the two motions of `lineESTResult`, evaluated: the path is `[0, 5/2]`. -/
theorem lineESTResult_report :
    reportSolution lineESTResult.planner.motions (some 1) none (some 0)
      = some ⟨some (some 0), some ([[0], [5/2]], false)⟩ := by
  simp [reportSolution, lineESTResult, pathStates, copyState]
  rfl

/-- With a negative `minValidPathPercentage` KPIECE1 keeps a sample that failed the motion
check at once: the invalid state `7/2` is inserted. -/
theorem negativeKPIECE1_solve :
    KPIECE1.solve negativeKPIECE1 KPIECE1.PlannerState.empty [lineKInputs]
        = some negativeKPIECE1Result
      ∧ negativeKPIECE1.si.isValid [7/2] = false := by
  have hv : (lineSpace belowThree).isValid [7/2] = false := by
    norm_num [lineSpace, belowThree]
  have hc : (lineSpace belowThree).checkMotionIncremental [0] [7/2] (some [7/2]) (some 0)
      = ⟨false, some [7/2], some 0⟩ := by
    unfold SpaceInformationKinematic.checkMotionIncremental
    simp [hv]
  have hseed : KPIECE1.seed negativeKPIECE1 KPIECE1.PlannerState.empty
      = ⟨[⟨[0], none⟩], ⟨[⟨[0], ⟨[0], 1, 1, 1000 / 1001, 0⟩⟩], 1, 0⟩⟩ := by
    simp [KPIECE1.seed, negativeKPIECE1, lineKPIECE1, KPIECE1.PlannerState.empty,
      KPIECE1.addMotion, KPIECE1.getCell, copyState, lineSpace, belowThree]
    norm_num
  refine ⟨?_, hv⟩
  unfold KPIECE1.solve
  rw [if_neg (by simp [negativeKPIECE1, blockedGoal, Goal.goal_s, Goal.goal_r])]
  simp only [KPIECE1.PlannerState.empty, List.length_nil, if_true] at hseed ⊢
  rw [hseed]
  simp [KPIECE1.loop, KPIECE1.selectMotion, lineKInputs, KPIECE1.sample, negativeKPIECE1,
    lineKPIECE1, blockedGoal, Goal.goal_s, Goal.goal_k, copyState,
    SpaceInformationKinematic.checkMotion, hc, KPIECE1.addMotion, KPIECE1.getCell,
    reportSolution, parentWalk, pathStates, ltApproxdif, negativeKPIECE1Result, List.modify,
    List.modifyTailIdx]
  norm_num
  rfl

/-! ## Seeding and configuration errors -/

namespace EST

/-- The motion pointers stored in the cells of a grid, cell after cell. -/
theorem pointers_addMotion (p : EST) (s : PlannerState) (motion : Motion) :
    List.Perm ((addMotion p s motion).tree.grid.map Cell.data).flatten
      ((s.tree.grid.map Cell.data).flatten ++ [s.motions.length]) := by
  unfold addMotion
  simp only
  split
  · rename_i c hc
    have hlt := getCell_lt _ _ _ hc
    clear hc
    generalize s.tree.grid = grid at hlt
    induction grid generalizing c with
    | nil => simp at hlt
    | cons x rest ih =>
      cases c with
      | zero =>
        simp only [modify_zero_cons, List.map_cons, List.flatten_cons, List.append_assoc]
        exact List.Perm.append_left _ List.perm_append_comm
      | succ c =>
        simp only [modify_succ_cons, List.map_cons, List.flatten_cons, List.append_assoc]
        exact List.Perm.append_left _ (ih c (by simpa using hlt))
  · simp

/-- The seeding loop, start state by start state: the passing ones become roots, in order. -/
theorem seed_spec (p : EST) : ∀ (starts : List State) (s : PlannerState),
    let seeded := starts.foldl
      (fun s st =>
        let motion : Motion := ⟨copyState st, none⟩
        if p.si.satisfiesBounds motion.state && p.si.isValid motion.state then
          addMotion p s motion
        else s)
      s
    let passing := starts.filter fun st => p.si.satisfiesBounds st && p.si.isValid st
    seeded.motions = s.motions ++ passing.map (fun st => (⟨st, none⟩ : Motion))
      ∧ seeded.tree.size = s.tree.size + passing.length
      ∧ List.Perm (seeded.tree.grid.map Cell.data).flatten
          ((s.tree.grid.map Cell.data).flatten ++ List.range' s.motions.length passing.length)
  | [], s => by simp
  | st :: starts, s => by
    simp only [List.foldl_cons, copyState]
    by_cases hok : (p.si.satisfiesBounds st && p.si.isValid st) = true
    · obtain ⟨h1, h2, h3⟩ := seed_spec p starts (addMotion p s ⟨st, none⟩)
      simp only [copyState] at h1 h2 h3
      simp only [hok, if_true, List.filter_cons_of_pos, List.map_cons, List.length_cons]
      refine ⟨by rw [h1]; simp [addMotion_motions], by rw [h2]; simp [addMotion]; omega, ?_⟩
      refine h3.trans ?_
      rw [addMotion_motions, List.length_append, List.length_singleton, List.range'_succ]
      have := (pointers_addMotion p s ⟨st, none⟩).append_right
        (List.range' (s.motions.length + 1)
          (List.filter (fun st => p.si.satisfiesBounds st && p.si.isValid st) starts).length)
      simpa using this
    · obtain ⟨h1, h2, h3⟩ := seed_spec p starts s
      simp only [copyState] at h1 h2 h3
      simp only [hok, Bool.false_eq_true, if_false, List.filter_cons_of_neg, not_false_eq_true]
      exact ⟨h1, h2, h3⟩

end EST

namespace KPIECE1

theorem kpiece_pointers_addMotion (p : KPIECE1) (s : PlannerState) (motion : Motion)
    (dist : ℚ) :
    List.Perm ((addMotion p s motion dist).1.tree.grid.map fun c => c.data.motions).flatten
      ((s.tree.grid.map fun c => c.data.motions).flatten ++ [s.motions.length]) := by
  unfold addMotion
  simp only
  split
  · rename_i c hc
    have hlt := kpiece_getCell_lt _ _ _ hc
    clear hc
    simp only
    generalize s.tree.grid = grid at hlt
    induction grid generalizing c with
    | nil => simp at hlt
    | cons x rest ih =>
      cases c with
      | zero =>
        simp only [modify_zero_cons, List.map_cons, List.flatten_cons, List.append_assoc]
        exact List.Perm.append_left _ List.perm_append_comm
      | succ c =>
        simp only [modify_succ_cons, List.map_cons, List.flatten_cons, List.append_assoc]
        exact List.Perm.append_left _ (ih c (by simpa using hlt))
  · simp

/-- The seeding loop, start state by start state: the passing ones become roots, in order. -/
theorem kpiece_seed_spec (p : KPIECE1) : ∀ (starts : List State) (s : PlannerState),
    let seeded := starts.foldl
      (fun s st =>
        let motion : Motion := ⟨copyState st, none⟩
        if p.si.satisfiesBounds motion.state && p.si.isValid motion.state then
          (addMotion p s motion 1).1
        else s)
      s
    let passing := starts.filter fun st => p.si.satisfiesBounds st && p.si.isValid st
    seeded.motions = s.motions ++ passing.map (fun st => (⟨st, none⟩ : Motion))
      ∧ seeded.tree.size = s.tree.size + passing.length
      ∧ List.Perm (seeded.tree.grid.map fun c => c.data.motions).flatten
          ((s.tree.grid.map fun c => c.data.motions).flatten
            ++ List.range' s.motions.length passing.length)
  | [], s => by simp
  | st :: starts, s => by
    simp only [List.foldl_cons, copyState]
    by_cases hok : (p.si.satisfiesBounds st && p.si.isValid st) = true
    · obtain ⟨h1, h2, h3⟩ := kpiece_seed_spec p starts (addMotion p s ⟨st, none⟩ 1).1
      simp only [copyState] at h1 h2 h3
      simp only [hok, if_true, List.filter_cons_of_pos, List.map_cons, List.length_cons]
      refine ⟨by rw [h1]; simp [kpiece_addMotion_motions],
        by rw [h2, (kpiece_addMotion_size p s _ 1).1]; omega, ?_⟩
      refine h3.trans ?_
      rw [kpiece_addMotion_motions, List.length_append, List.length_singleton,
        List.range'_succ]
      have := (kpiece_pointers_addMotion p s ⟨st, none⟩ 1).append_right
        (List.range' (s.motions.length + 1)
          (List.filter (fun st => p.si.satisfiesBounds st && p.si.isValid st) starts).length)
      simpa using this
    · obtain ⟨h1, h2, h3⟩ := kpiece_seed_spec p starts s
      simp only [copyState] at h1 h2 h3
      simp only [hok, Bool.false_eq_true, if_false, List.filter_cons_of_neg, not_false_eq_true]
      exact ⟨h1, h2, h3⟩

end KPIECE1

/-- C15. Configuration error: when the goal is neither a state goal nor a region goal, or when
the tree is empty and no start state passes `satisfiesBounds` and `isValid`, `EST::solve` and
`KPIECE1::solve` return false, make no call of `setSolutionPath` or `setDifference`, and leave
the planner (motions and tree) as it was. -/
theorem solve_configuration_error (pe : EST) (se : EST.PlannerState) (ie : List EST.Inputs)
    (pk : KPIECE1) (sk : KPIECE1.PlannerState) (ik : List KPIECE1.Inputs) :
    (((pe.goal.goal_s = none ∧ pe.goal.goal_r = false)
          ∨ (se.tree.grid = [] ∧
              ∀ st ∈ pe.startStates, (pe.si.satisfiesBounds st && pe.si.isValid st) = false)) →
        EST.solve pe se ie = some ⟨se, ⟨none, none⟩, false⟩)
      ∧ (((pk.goal.goal_s = none ∧ pk.goal.goal_r = false)
          ∨ (sk.tree.grid = [] ∧
              ∀ st ∈ pk.startStates, (pk.si.satisfiesBounds st && pk.si.isValid st) = false)) →
        KPIECE1.solve pk sk ik = some ⟨sk, ⟨none, none⟩, false⟩) := by
  constructor
  · intro h
    unfold EST.solve
    by_cases hgoal : (pe.goal.goal_s.isNone && !pe.goal.goal_r) = true
    · rw [if_pos hgoal]
    · rw [if_neg hgoal]
      rcases h with ⟨h1, h2⟩ | ⟨hgrid, hnone⟩
      · exact absurd (by simp [h1, h2]) hgoal
      · have hseed : EST.seed pe se = se := by
          unfold EST.seed
          have : ∀ (l : List State) (s : EST.PlannerState),
              (∀ st ∈ l, (pe.si.satisfiesBounds st && pe.si.isValid st) = false) →
              l.foldl (fun s st =>
                let motion : Motion := ⟨copyState st, none⟩
                if pe.si.satisfiesBounds motion.state && pe.si.isValid motion.state then
                  EST.addMotion pe s motion
                else s) s = s := by
            intro l
            induction l with
            | nil => intro s _; rfl
            | cons a l ih =>
              intro s hl
              simp only [List.foldl_cons, copyState, hl a (List.mem_cons_self _ _),
                Bool.false_eq_true, if_false]
              exact ih s fun st hst => hl st (List.mem_cons_of_mem _ hst)
          exact this _ _ hnone
        simp only [hgrid, List.length_nil, if_true, hseed]
  · intro h
    unfold KPIECE1.solve
    by_cases hgoal : (pk.goal.goal_s.isNone && !pk.goal.goal_r) = true
    · rw [if_pos hgoal]
    · rw [if_neg hgoal]
      rcases h with ⟨h1, h2⟩ | ⟨hgrid, hnone⟩
      · exact absurd (by simp [h1, h2]) hgoal
      · have hseed : KPIECE1.seed pk sk = sk := by
          unfold KPIECE1.seed
          have : ∀ (l : List State) (s : KPIECE1.PlannerState),
              (∀ st ∈ l, (pk.si.satisfiesBounds st && pk.si.isValid st) = false) →
              l.foldl (fun s st =>
                let motion : Motion := ⟨copyState st, none⟩
                if pk.si.satisfiesBounds motion.state && pk.si.isValid motion.state then
                  (KPIECE1.addMotion pk s motion 1).1
                else s) s = s := by
            intro l
            induction l with
            | nil => intro s _; rfl
            | cons a l ih =>
              intro s hl
              simp only [List.foldl_cons, copyState, hl a (List.mem_cons_self _ _),
                Bool.false_eq_true, if_false]
              exact ih s fun st hst => hl st (List.mem_cons_of_mem _ hst)
          exact this _ _ hnone
        simp only [hgrid, List.length_nil, if_true, hseed]

/-- C16. Start-state ingestion: when `solve` is entered with an empty tree (and a known kind of
goal), the seeding step adds exactly one root motion (parent absent) for each supplied start
state that passes `satisfiesBounds` and `isValid`, in order, and none for the others, so
`tree.size` is the number of passing start states and the cells hold exactly the new motions;
when the tree is not empty no start state is ingested.  `solve` with no loop turn returns the
planner as the seeding step leaves it. -/
theorem seed_ingestion (pe : EST) (se : EST.PlannerState) (pk : KPIECE1)
    (sk : KPIECE1.PlannerState) :
    let passE := pe.startStates.filter fun st => pe.si.satisfiesBounds st && pe.si.isValid st
    let passK := pk.startStates.filter fun st => pk.si.satisfiesBounds st && pk.si.isValid st
    ((pe.goal.goal_s.isNone && !pe.goal.goal_r) = false →
        (se.tree.grid = [] → se.tree.size = 0 →
          (∃ r, EST.solve pe se [] = some ⟨EST.seed pe se, ⟨none, none⟩, r⟩)
            ∧ (EST.seed pe se).motions
                = se.motions ++ passE.map (fun st => (⟨st, none⟩ : Motion))
            ∧ (EST.seed pe se).tree.size = passE.length
            ∧ List.Perm ((EST.seed pe se).tree.grid.map EST.Cell.data).flatten
                (List.range' se.motions.length passE.length))
          ∧ (se.tree.grid ≠ [] → ∃ r, EST.solve pe se [] = some ⟨se, ⟨none, none⟩, r⟩))
      ∧ ((pk.goal.goal_s.isNone && !pk.goal.goal_r) = false →
        (sk.tree.grid = [] → sk.tree.size = 0 →
          (∃ r, KPIECE1.solve pk sk [] = some ⟨KPIECE1.seed pk sk, ⟨none, none⟩, r⟩)
            ∧ (KPIECE1.seed pk sk).motions
                = sk.motions ++ passK.map (fun st => (⟨st, none⟩ : Motion))
            ∧ (KPIECE1.seed pk sk).tree.size = passK.length
            ∧ List.Perm
                ((KPIECE1.seed pk sk).tree.grid.map fun c => c.data.motions).flatten
                (List.range' sk.motions.length passK.length))
          ∧ (sk.tree.grid ≠ [] → ∃ r, KPIECE1.solve pk sk [] = some ⟨sk, ⟨none, none⟩, r⟩)) := by
  intro passE passK
  constructor
  · intro hgoal
    constructor
    · intro hgrid hsize
      obtain ⟨h1, h2, h3⟩ := EST.seed_spec pe pe.startStates se
      simp only [hgrid, hsize, List.map_nil, List.flatten_nil, List.nil_append, zero_add]
        at h2 h3
      refine ⟨?_, h1, h2, h3⟩
      unfold EST.solve
      simp only [hgoal, Bool.false_eq_true, if_false, hgrid, List.length_nil, if_true]
      by_cases hempty : (EST.seed pe se).tree.grid.length = 0
      · exact ⟨false, by rw [if_pos hempty]⟩
      · exact ⟨pe.goal.isAchieved none, by
          rw [if_neg hempty]; simp [EST.loop, reportSolution]⟩
    · intro hgrid
      have hlen : ¬ se.tree.grid.length = 0 := by
        intro h; exact hgrid (List.length_eq_zero.mp h)
      unfold EST.solve
      simp only [hgoal, Bool.false_eq_true, if_false, hlen]
      exact ⟨pe.goal.isAchieved none, by simp [EST.loop, reportSolution]⟩
  · intro hgoal
    constructor
    · intro hgrid hsize
      obtain ⟨h1, h2, h3⟩ := KPIECE1.kpiece_seed_spec pk pk.startStates sk
      simp only [hgrid, hsize, List.map_nil, List.flatten_nil, List.nil_append, zero_add]
        at h2 h3
      refine ⟨?_, h1, h2, h3⟩
      unfold KPIECE1.solve
      simp only [hgoal, Bool.false_eq_true, if_false, hgrid, List.length_nil, if_true]
      by_cases hempty : (KPIECE1.seed pk sk).tree.grid.length = 0
      · exact ⟨false, by rw [if_pos hempty]⟩
      · exact ⟨pk.goal.isAchieved none, by
          rw [if_neg hempty]; simp [KPIECE1.loop, reportSolution]⟩
    · intro hgrid
      have hlen : ¬ sk.tree.grid.length = 0 := by
        intro h; exact hgrid (List.length_eq_zero.mp h)
      unfold KPIECE1.solve
      simp only [hgoal, Bool.false_eq_true, if_false, hlen]
      exact ⟨pk.goal.isAchieved none, by simp [KPIECE1.loop, reportSolution]⟩

/-! ## One loop turn of KPIECE1 -/

namespace KPIECE1

theorem getCell_eq_none (grid : List Cell) (coord : Coord) :
    getCell grid coord = none ↔ ∀ cell ∈ grid, cell.coord ≠ coord := by
  induction grid with
  | nil => simp [getCell]
  | cons x rest ih =>
    unfold getCell
    by_cases hx : x.coord = coord
    · simp [hx]
    · simp [hx, ih]

theorem getCell_eq_some (grid : List Cell) (coord : Coord) (c : ℕ)
    (h : getCell grid coord = some c) :
    (∃ cell, grid[c]? = some cell ∧ cell.coord = coord)
      ∧ ∀ (j : ℕ) (cell : Cell), j < c → grid[j]? = some cell → cell.coord ≠ coord := by
  induction grid generalizing c with
  | nil => simp [getCell] at h
  | cons x rest ih =>
    unfold getCell at h
    by_cases hx : x.coord = coord
    · simp only [hx, if_true, Option.some.injEq] at h
      subst h
      exact ⟨⟨x, by simp, hx⟩, fun j cell hj => by omega⟩
    · simp only [hx, if_false, Option.map_eq_some'] at h
      obtain ⟨k, hk, rfl⟩ := h
      obtain ⟨⟨cell, h1, h2⟩, h3⟩ := ih k hk
      refine ⟨⟨cell, by simpa using h1, h2⟩, fun j cell1 hj hj1 => ?_⟩
      cases j with
      | zero =>
        simp only [List.getElem?_cons_zero, Option.some.injEq] at hj1
        subst hj1; exact hx
      | succ j => exact h3 j cell1 (by omega) (by simpa using hj1)

/-- What `selectMotion` does when it returns true: the cell is the top external or the top
internal cell, it is a cell of the grid with a motion, its `selections` grows by one, and the
motion is the one at the drawn position. -/
theorem selectMotion_spec (p : KPIECE1) (s s1 : PlannerState) (d : Inputs) (e c : ℕ)
    (h : selectMotion p s d = some (s1, e, c)) :
    (if d.uniform01Select < max p.m_selectBorderPercentage d.fracExternal then d.topExternal
        else d.topInternal) = some c
      ∧ ∃ cell : Cell, s.tree.grid[c]? = some cell
          ∧ cell.data.motions ≠ []
          ∧ cell.data.motions[d.halfNormalInt 0 (cell.data.motions.length - 1)]? = some e
          ∧ s1.motions = s.motions
          ∧ s1.tree.size = s.tree.size
          ∧ s1.tree.iteration = s.tree.iteration
          ∧ s1.tree.grid = List.modify
              (fun cell => ⟨cell.coord,
                { motions := cell.data.motions, coverage := cell.data.coverage,
                  selections := cell.data.selections + 1, score := cell.data.score,
                  iteration := cell.data.iteration }⟩)
              c s.tree.grid := by
  unfold selectMotion at h
  simp only at h
  split at h
  · exact absurd h (by simp)
  · rename_i c1 hc1
    split at h
    · exact absurd h (by simp)
    · rename_i cell hcell
      split_ifs at h with hne
      split at h
      · exact absurd h (by simp)
      · rename_i smotion hsm
        simp only [Option.some.injEq, Prod.mk.injEq] at h
        obtain ⟨h1, h2, h3⟩ := h
        subst h2 h3
        subst h1
        refine ⟨hc1, cell, hcell, ?_, hsm, rfl, rfl, rfl, rfl⟩
        intro hnil
        simp [hnil] at hne

/-- `addMotion` on a coordinate without cell appends the bootstrap cell. -/
theorem addMotion_new_cell (p : KPIECE1) (s : PlannerState) (motion : Motion) (dist : ℚ)
    (h : ∀ cell ∈ s.tree.grid, cell.coord ≠ p.computeCoordinates motion.state) :
    (addMotion p s motion dist).1.tree.grid
      = s.tree.grid ++ [⟨p.computeCoordinates motion.state,
          { motions := [s.motions.length], coverage := 1, selections := 1,
            score := 1 / (1 / 1000 + dist), iteration := s.tree.iteration }⟩] := by
  unfold addMotion
  simp only [(getCell_eq_none _ _).mpr h]

/-- `addMotion` on the coordinate of a cell changes that cell's motions and coverage only. -/
theorem addMotion_old_cell (p : KPIECE1) (s : PlannerState) (motion : Motion) (dist : ℚ)
    (c : ℕ) (h : getCell s.tree.grid (p.computeCoordinates motion.state) = some c) :
    (addMotion p s motion dist).1.tree.grid
      = List.modify
          (fun cell => ⟨cell.coord,
            { motions := cell.data.motions ++ [s.motions.length],
              coverage := cell.data.coverage + 1, selections := cell.data.selections,
              score := cell.data.score, iteration := cell.data.iteration }⟩)
          c s.tree.grid := by
  unfold addMotion
  simp only [h]

/-- `addMotion` keeps every cell in place with its coordinate, selections, score and
iteration. -/
theorem addMotion_getElem (p : KPIECE1) (s : PlannerState) (motion : Motion) (dist : ℚ)
    (i : ℕ) (cell : Cell) (h : s.tree.grid[i]? = some cell) :
    ∃ cell1 : Cell, (addMotion p s motion dist).1.tree.grid[i]? = some cell1
      ∧ cell1.coord = cell.coord ∧ cell1.data.score = cell.data.score
      ∧ cell1.data.selections = cell.data.selections
      ∧ cell1.data.iteration = cell.data.iteration := by
  cases hget : getCell s.tree.grid (p.computeCoordinates motion.state) with
  | none =>
    rw [addMotion_new_cell p s motion dist ((getCell_eq_none _ _).mp hget)]
    have hi : i < s.tree.grid.length := by
      by_contra hcon
      rw [List.getElem?_eq_none (by omega)] at h
      exact absurd h (by simp)
    exact ⟨cell, by rw [List.getElem?_append_left hi]; exact h, rfl, rfl, rfl, rfl⟩
  | some c =>
    rw [addMotion_old_cell p s motion dist c hget, List.getElem?_modify, h]
    by_cases hc : c = i
    · simp [hc]
    · simp [hc]

theorem scaleScore_getElem (factor : ℚ) (ecell : ℕ) (s : PlannerState) (cell : Cell)
    (h : s.tree.grid[ecell]? = some cell) :
    (scaleScore factor ecell s).tree.grid[ecell]?
      = some ⟨cell.coord, { cell.data with score := cell.data.score * factor }⟩ := by
  simp [scaleScore, List.getElem?_modify, h]

end KPIECE1

namespace SpaceInformationKinematic

/-- The result of the incremental check when `s2` is valid and `j` is the first invalid interior
index. -/
theorem checkMotionIncremental_at (si : SpaceInformationKinematic) (s1 s2 : State)
    (lastValidState : Option State) (lastValidTime : Option ℚ) (j : ℤ)
    (hv2 : si.isValid s2 = true) (hj1 : 1 ≤ j) (hj2 : j < (si.findDifferenceStep s1 s2 1).1)
    (hbad : si.isValid
      (stateAt si.m_stateDimension s1 (si.findDifferenceStep s1 s2 1).2 (j : ℚ)) = false)
    (hmin : ∀ m : ℤ, 1 ≤ m → m < j → si.isValid
      (stateAt si.m_stateDimension s1 (si.findDifferenceStep s1 s2 1).2 (m : ℚ)) = true) :
    si.checkMotionIncremental s1 s2 lastValidState lastValidTime
      = ⟨false,
          lastValidState.map (fun _ =>
            stateAt si.m_stateDimension s1 (si.findDifferenceStep s1 s2 1).2 ((j : ℚ) - 1)),
          lastValidTime.map (fun _ =>
            ((j : ℚ) - 1) / ((si.findDifferenceStep s1 s2 1).1 : ℚ))⟩ := by
  cases hfind : (sweepIndices (si.findDifferenceStep s1 s2 1).1).find?
      (fun (j : ℤ) => !si.isValid
        (stateAt si.m_stateDimension s1 (si.findDifferenceStep s1 s2 1).2 (j : ℚ))) with
  | none =>
    have := List.find?_eq_none.mp hfind j ((mem_sweepIndices _ _).mpr ⟨hj1, hj2⟩)
    simp [hbad] at this
  | some j1 =>
    obtain ⟨h1, h2, h3, h4⟩ := find?_sweepIndices hfind
    have hj : j1 = j := by
      rcases lt_trichotomy j1 j with hlt | heq | hgt
      · have := hmin j1 h1 hlt
        simp [this] at h3
      · exact heq
      · have := h4 j hj1 hgt
        simp [hbad] at this
    subst hj
    unfold checkMotionIncremental
    simp only [hv2, Bool.not_true, Bool.false_eq_true, if_false, hfind]
    push_cast
    rfl

/-- The result of the incremental check when `s2` is invalid: nothing is stored. -/
theorem checkMotionIncremental_invalid (si : SpaceInformationKinematic) (s1 s2 : State)
    (lastValidState : Option State) (lastValidTime : Option ℚ)
    (hv2 : si.isValid s2 = false) :
    si.checkMotionIncremental s1 s2 lastValidState lastValidTime
      = ⟨false, lastValidState, lastValidTime⟩ := by
  unfold checkMotionIncremental
  simp [hv2]

end SpaceInformationKinematic

namespace KPIECE1

/-- One turn of the loop, written out: the state of the loop after the turn that selects the
motion `existing` of the cell `ecell`. -/
theorem loop_single (p : KPIECE1) (ls : LoopState) (d : Inputs) (s1 : PlannerState)
    (existing ecell : ℕ) (em : Motion)
    (hsel : selectMotion p
      ⟨ls.st.motions, ⟨ls.st.tree.grid, ls.st.tree.size, ls.st.tree.iteration + 1⟩⟩ d
        = some (s1, existing, ecell))
    (hem : s1.motions[existing]? = some em) :
    loop p ls [d] = some
      (let sm := sample p d em.state
          (ls.approxsol.bind fun a => (s1.motions[a]?).map Motion.state) ls.improveValue
        let r := p.si.checkMotion em.state sm.1 (some sm.1) (some 0)
        let motion : Motion := ⟨copyState (r.lastValidState.getD sm.1), some existing⟩
        let g := p.goal.isSatisfied motion.state
        let s2 := (addMotion p s1 motion g.2).1
        if (r.result || (!r.result
            && decide (r.lastValidTime.getD 0 > p.m_minValidPathPercentage))) = true then
          if g.1 = true then ⟨s2, some s1.motions.length, ls.approxsol, some g.2, sm.2⟩
          else if ltApproxdif g.2 ls.approxdif = true then
            ⟨scaleScore p.m_goodScoreFactor ecell s2, ls.solution, some s1.motions.length,
              some g.2, sm.2⟩
          else
            ⟨scaleScore p.m_goodScoreFactor ecell s2, ls.solution, ls.approxsol, ls.approxdif,
              sm.2⟩
        else
          ⟨scaleScore p.m_badScoreFactor ecell s1, ls.solution, ls.approxsol, ls.approxdif,
            sm.2⟩) := by
  rw [loop]
  simp only [hsel, hem]
  split_ifs <;> simp only [loop]

theorem keep_iff (result : Bool) (failTime bound : ℚ) :
    (result || (!result && decide (failTime > bound))) = true
      ↔ (result = true ∨ failTime > bound) := by
  cases result <;> simp

/-- C11. KPIECE1 partial-credit acceptance: in a loop turn (selected motion `existing` with state
`em.state`, sampled state `xstate`) a motion is inserted iff the incremental motion check of
`(existing.state, xstate)` returns true or `failTime` after the call (`0.0` when the check did
not store a time) is strictly greater than `minValidPathPercentage`; the inserted motion has
the selected motion as parent; and when the check failed at the first invalid interior index
`j` but the motion is kept, `failTime = (j-1)/nd` and the inserted motion's state is
`existing.state + (j-1)·step`. -/
theorem kpiece_partial_credit (p : KPIECE1) (ls : LoopState) (d : Inputs) (s1 : PlannerState)
    (existing ecell : ℕ) (em : Motion)
    (hsel : selectMotion p
      ⟨ls.st.motions, ⟨ls.st.tree.grid, ls.st.tree.size, ls.st.tree.iteration + 1⟩⟩ d
        = some (s1, existing, ecell))
    (hem : ls.st.motions[existing]? = some em) :
    let xstate := (sample p d em.state
      (ls.approxsol.bind fun a => (ls.st.motions[a]?).map Motion.state) ls.improveValue).1
    let r := p.si.checkMotionIncremental em.state xstate (some xstate) (some 0)
    let failTime := r.lastValidTime.getD 0
    let nd := (p.si.findDifferenceStep em.state xstate 1).1
    let step := (p.si.findDifferenceStep em.state xstate 1).2
    ∃ ls1 : LoopState, loop p ls [d] = some ls1
      ∧ ((r.result = true ∨ failTime > p.m_minValidPathPercentage) →
          ls1.st.motions = ls.st.motions ++ [⟨r.lastValidState.getD xstate, some existing⟩])
      ∧ (¬ (r.result = true ∨ failTime > p.m_minValidPathPercentage) →
          ls1.st.motions = ls.st.motions)
      ∧ ∀ j : ℤ, p.si.isValid xstate = true → 1 ≤ j → j < nd →
          p.si.isValid (stateAt p.si.m_stateDimension em.state step (j : ℚ)) = false →
          (∀ m : ℤ, 1 ≤ m → m < j →
            p.si.isValid (stateAt p.si.m_stateDimension em.state step (m : ℚ)) = true) →
          failTime > p.m_minValidPathPercentage →
          failTime = ((j : ℚ) - 1) / (nd : ℚ)
            ∧ ls1.st.motions = ls.st.motions
                ++ [⟨stateAt p.si.m_stateDimension em.state step ((j : ℚ) - 1),
                    some existing⟩] := by
  intro xstate r failTime nd step
  obtain ⟨-, cell, -, -, -, hmot, -, -, -⟩ := selectMotion_spec p _ s1 d existing ecell hsel
  simp only at hmot
  have hem1 : s1.motions[existing]? = some em := by rw [hmot]; exact hem
  refine ⟨_, loop_single p ls d s1 existing ecell em hsel hem1, ?_⟩
  simp only [hmot, SpaceInformationKinematic.checkMotion, copyState]
  have hins : (r.result = true ∨ failTime > p.m_minValidPathPercentage) →
      (if (r.result || (!r.result
            && decide (r.lastValidTime.getD 0 > p.m_minValidPathPercentage))) = true then
          if (p.goal.isSatisfied (r.lastValidState.getD xstate)).1 = true then
            (⟨(addMotion p s1 ⟨r.lastValidState.getD xstate, some existing⟩
                (p.goal.isSatisfied (r.lastValidState.getD xstate)).2).1,
              some ls.st.motions.length, ls.approxsol,
              some (p.goal.isSatisfied (r.lastValidState.getD xstate)).2,
              (sample p d em.state
                (ls.approxsol.bind fun a => (ls.st.motions[a]?).map Motion.state)
                ls.improveValue).2⟩ : LoopState)
          else if ltApproxdif (p.goal.isSatisfied (r.lastValidState.getD xstate)).2
              ls.approxdif = true then
            ⟨scaleScore p.m_goodScoreFactor ecell
                (addMotion p s1 ⟨r.lastValidState.getD xstate, some existing⟩
                  (p.goal.isSatisfied (r.lastValidState.getD xstate)).2).1,
              ls.solution, some ls.st.motions.length,
              some (p.goal.isSatisfied (r.lastValidState.getD xstate)).2,
              (sample p d em.state
                (ls.approxsol.bind fun a => (ls.st.motions[a]?).map Motion.state)
                ls.improveValue).2⟩
          else
            ⟨scaleScore p.m_goodScoreFactor ecell
                (addMotion p s1 ⟨r.lastValidState.getD xstate, some existing⟩
                  (p.goal.isSatisfied (r.lastValidState.getD xstate)).2).1,
              ls.solution, ls.approxsol, ls.approxdif,
              (sample p d em.state
                (ls.approxsol.bind fun a => (ls.st.motions[a]?).map Motion.state)
                ls.improveValue).2⟩
        else
          ⟨scaleScore p.m_badScoreFactor ecell s1, ls.solution, ls.approxsol, ls.approxdif,
            (sample p d em.state
              (ls.approxsol.bind fun a => (ls.st.motions[a]?).map Motion.state)
              ls.improveValue).2⟩).st.motions
        = ls.st.motions ++ [⟨r.lastValidState.getD xstate, some existing⟩] := by
    intro hk
    rw [if_pos ((keep_iff _ _ _).mpr hk)]
    split_ifs <;> simp [scaleScore, kpiece_addMotion_motions, hmot]
  refine ⟨hins, ?_, ?_⟩
  · intro hk
    rw [if_neg (fun h => hk ((keep_iff _ _ _).mp h))]
    simp [scaleScore, hmot]
  · intro j hv2 hj1 hj2 hbad hmin hft
    have hr := p.si.checkMotionIncremental_at em.state xstate (some xstate) (some 0) j hv2 hj1
      hj2 hbad hmin
    have h1 : failTime = ((j : ℚ) - 1) / (nd : ℚ) := by
      show r.lastValidTime.getD 0 = _
      show (p.si.checkMotionIncremental em.state xstate (some xstate)
        (some 0)).lastValidTime.getD 0 = _
      rw [hr]; rfl
    have h2 : r.lastValidState.getD xstate
        = stateAt p.si.m_stateDimension em.state step ((j : ℚ) - 1) := by
      show (p.si.checkMotionIncremental em.state xstate (some xstate)
        (some 0)).lastValidState.getD xstate = _
      rw [hr]; rfl
    refine ⟨h1, ?_⟩
    rw [← h2]
    exact hins (Or.inr hft)

/-- The score of the selected cell after one loop turn that does not end the search. -/
theorem turn_scores (p : KPIECE1) (ls : LoopState) (d : Inputs) (s1 : PlannerState)
    (existing ecell : ℕ) (em : Motion) (cell : Cell)
    (hsel : selectMotion p
      ⟨ls.st.motions, ⟨ls.st.tree.grid, ls.st.tree.size, ls.st.tree.iteration + 1⟩⟩ d
        = some (s1, existing, ecell))
    (hem : ls.st.motions[existing]? = some em)
    (hcell : ls.st.tree.grid[ecell]? = some cell) :
    let xstate := (sample p d em.state
      (ls.approxsol.bind fun a => (ls.st.motions[a]?).map Motion.state) ls.improveValue).1
    let r := p.si.checkMotionIncremental em.state xstate (some xstate) (some 0)
    let failTime := r.lastValidTime.getD 0
    let solved := (p.goal.isSatisfied (r.lastValidState.getD xstate)).1
    ∃ ls1 : LoopState, loop p ls [d] = some ls1
      ∧ ((r.result = true ∨ failTime > p.m_minValidPathPercentage) → solved = false →
          ls1.st.motions.length = ls.st.motions.length + 1
            ∧ ∃ cell1 : Cell, ls1.st.tree.grid[ecell]? = some cell1
                ∧ cell1.data.score = cell.data.score * p.m_goodScoreFactor)
      ∧ (¬ (r.result = true ∨ failTime > p.m_minValidPathPercentage) →
          ls1.st.motions = ls.st.motions
            ∧ ∃ cell1 : Cell, ls1.st.tree.grid[ecell]? = some cell1
                ∧ cell1.data.score = cell.data.score * p.m_badScoreFactor) := by
  intro xstate r failTime solved
  obtain ⟨-, cell0, hcell0, -, -, hmot, -, -, hgrid⟩ :=
    selectMotion_spec p _ s1 d existing ecell hsel
  simp only at hmot hgrid hcell0
  have hem1 : s1.motions[existing]? = some em := by rw [hmot]; exact hem
  -- the selected cell after `selectMotion`: same score
  have hc1 : ∃ c1 : Cell, s1.tree.grid[ecell]? = some c1 ∧ c1.data.score = cell.data.score := by
    rw [hgrid, List.getElem?_modify, hcell]
    simp
  obtain ⟨c1, hc1, hs1⟩ := hc1
  refine ⟨_, loop_single p ls d s1 existing ecell em hsel hem1, ?_, ?_⟩
  · intro hk hsolved
    have hsolved1 : (p.goal.isSatisfied (r.lastValidState.getD xstate)).1 = false := hsolved
    simp only [hmot, SpaceInformationKinematic.checkMotion, copyState]
    rw [if_pos ((keep_iff _ _ _).mpr hk), if_neg (by rw [hsolved1]; simp)]
    obtain ⟨c2, hc2, -, hs2, -, -⟩ := addMotion_getElem p s1
      ⟨r.lastValidState.getD xstate, some existing⟩
      (p.goal.isSatisfied (r.lastValidState.getD xstate)).2 ecell c1 hc1
    have hsc := scaleScore_getElem p.m_goodScoreFactor ecell _ c2 hc2
    refine ⟨?_, ?_⟩
    · split_ifs <;> simp [scaleScore, kpiece_addMotion_motions, hmot]
    · split_ifs <;> exact ⟨_, hsc, by simp [hs2, hs1]⟩
  · intro hk
    simp only [hmot, SpaceInformationKinematic.checkMotion, copyState]
    rw [if_neg (fun h => hk ((keep_iff _ _ _).mp h))]
    have hsc := scaleScore_getElem p.m_badScoreFactor ecell _ c1 hc1
    exact ⟨by simp [scaleScore, hmot], _, hsc, by simp [hs1]⟩

/-- C12, amended. In every loop turn that does not end the search, the selected cell's score
is multiplied by `goodScoreFactor` when a motion was inserted and by `badScoreFactor` when it
was rejected; for a positive score and factors in `(0,1)` neither a successful nor a rejected
motion increases the selected cell's score: the new score is not negative and not above the
old one. -/
theorem kpiece_score_update (p : KPIECE1) (ls : LoopState) (d : Inputs) (s1 : PlannerState)
    (existing ecell : ℕ) (em : Motion) (cell : Cell)
    (hsel : selectMotion p
      ⟨ls.st.motions, ⟨ls.st.tree.grid, ls.st.tree.size, ls.st.tree.iteration + 1⟩⟩ d
        = some (s1, existing, ecell))
    (hem : ls.st.motions[existing]? = some em)
    (hcell : ls.st.tree.grid[ecell]? = some cell) :
    let xstate := (sample p d em.state
      (ls.approxsol.bind fun a => (ls.st.motions[a]?).map Motion.state) ls.improveValue).1
    let r := p.si.checkMotionIncremental em.state xstate (some xstate) (some 0)
    let failTime := r.lastValidTime.getD 0
    let solved := (p.goal.isSatisfied (r.lastValidState.getD xstate)).1
    ∃ ls1 : LoopState, loop p ls [d] = some ls1
      ∧ ((r.result = true ∨ failTime > p.m_minValidPathPercentage) → solved = false →
          ls1.st.motions.length = ls.st.motions.length + 1
            ∧ ∃ cell1 : Cell, ls1.st.tree.grid[ecell]? = some cell1
                ∧ cell1.data.score = cell.data.score * p.m_goodScoreFactor)
      ∧ (¬ (r.result = true ∨ failTime > p.m_minValidPathPercentage) →
          ls1.st.motions = ls.st.motions
            ∧ ∃ cell1 : Cell, ls1.st.tree.grid[ecell]? = some cell1
                ∧ cell1.data.score = cell.data.score * p.m_badScoreFactor)
      ∧ (0 < cell.data.score → 0 < p.m_goodScoreFactor → p.m_goodScoreFactor < 1 →
          0 < p.m_badScoreFactor → p.m_badScoreFactor < 1 →
          ((r.result = true ∨ failTime > p.m_minValidPathPercentage) → solved = false) →
          ∃ cell1 : Cell, ls1.st.tree.grid[ecell]? = some cell1
            ∧ 0 ≤ cell1.data.score ∧ cell1.data.score ≤ cell.data.score) := by
  intro xstate r failTime solved
  obtain ⟨ls1, hloop, hgood, hbad⟩ := turn_scores p ls d s1 existing ecell em cell hsel hem hcell
  have hmono : ∀ f : ℚ, 0 < cell.data.score → 0 < f → f < 1 →
      0 ≤ cell.data.score * f ∧ cell.data.score * f ≤ cell.data.score :=
    fun f h0 h1 h2 => ⟨le_of_lt (mul_pos h0 h1), by nlinarith⟩
  refine ⟨ls1, hloop, hgood, hbad, ?_⟩
  intro h0 hg0 hg1 hb0 hb1 hnot
  by_cases hk : (r.result = true ∨ failTime > p.m_minValidPathPercentage)
  · obtain ⟨-, c, hc, hsc⟩ := hgood hk (hnot hk)
    exact ⟨c, hc, by rw [hsc]; exact (hmono _ h0 hg0 hg1).1,
      by rw [hsc]; exact (hmono _ h0 hg0 hg1).2⟩
  · obtain ⟨-, c, hc, hsc⟩ := hbad hk
    exact ⟨c, hc, by rw [hsc]; exact (hmono _ h0 hb0 hb1).1,
      by rw [hsc]; exact (hmono _ h0 hb0 hb1).2⟩

theorem getCell_of_first (coord : Coord) : ∀ (grid : List Cell) (c : ℕ) (cell : Cell),
    grid[c]? = some cell → cell.coord = coord →
    (∀ (j : ℕ) (cell1 : Cell), j < c → grid[j]? = some cell1 → cell1.coord ≠ coord) →
    getCell grid coord = some c
  | [], c, cell, h, _, _ => by simp at h
  | x :: rest, 0, cell, h, hc, _ => by
    simp only [List.getElem?_cons_zero, Option.some.injEq] at h
    subst h
    simp [getCell, hc]
  | x :: rest, c + 1, cell, h, hc, hfirst => by
    have hx : x.coord ≠ coord := hfirst 0 x (by omega) (by simp)
    have ih := getCell_of_first coord rest c cell (by simpa using h) hc
      (fun j cell1 hj hj1 => hfirst (j + 1) cell1 (by omega) (by simpa using hj1))
    simp [getCell, hx, ih]

/-- The seeding loop is `addMotion(motion, 1.0)` for each passing start state. -/
theorem seed_eq_foldl (p : KPIECE1) (s : PlannerState) :
    seed p s = (p.startStates.filter fun st => p.si.satisfiesBounds st && p.si.isValid st).foldl
      (fun s st => (addMotion p s ⟨st, none⟩ 1).1) s := by
  unfold seed
  generalize p.startStates = starts
  induction starts generalizing s with
  | nil => rfl
  | cons st starts ih =>
    simp only [List.foldl_cons, copyState]
    by_cases hok : (p.si.satisfiesBounds st && p.si.isValid st) = true
    · simp only [hok, if_true, List.filter_cons_of_pos, List.foldl_cons]
      exact ih _
    · simp only [hok, Bool.false_eq_true, if_false, List.filter_cons_of_neg, not_false_eq_true]
      exact ih _

/-- C13, as the code has it. Whenever `addMotion(motion, dist)` lands on a coordinate with no
cell, the new cell has exactly that one motion, `coverage = 1`, `selections = 1`, `iteration` =
the tree's current iteration, and `score = 1 / (0.001 + dist)`; when the coordinate already has
a cell, that cell gets the motion and `coverage + 1` and nothing else changes.  The seeding
loop passes the constant `dist = 1.0` for every start state; a loop turn passes the distance
that the goal reports for the new motion's state. -/
theorem kpiece_cell_bootstrap (p : KPIECE1) (s : PlannerState) (motion : Motion) (dist : ℚ) :
    ((∀ cell ∈ s.tree.grid, cell.coord ≠ p.computeCoordinates motion.state) →
        (addMotion p s motion dist).1.tree.grid
          = s.tree.grid ++ [⟨p.computeCoordinates motion.state,
              { motions := [s.motions.length], coverage := 1, selections := 1,
                score := 1 / (1 / 1000 + dist), iteration := s.tree.iteration }⟩])
      ∧ (∀ (c : ℕ) (cell : Cell), s.tree.grid[c]? = some cell →
          cell.coord = p.computeCoordinates motion.state →
          (∀ (j : ℕ) (cell1 : Cell), j < c → s.tree.grid[j]? = some cell1 →
            cell1.coord ≠ p.computeCoordinates motion.state) →
          (addMotion p s motion dist).1.tree.grid
            = List.modify
                (fun cell => ⟨cell.coord,
                  { motions := cell.data.motions ++ [s.motions.length],
                    coverage := cell.data.coverage + 1, selections := cell.data.selections,
                    score := cell.data.score, iteration := cell.data.iteration }⟩)
                c s.tree.grid)
      ∧ seed p s
          = (p.startStates.filter fun st => p.si.satisfiesBounds st && p.si.isValid st).foldl
              (fun s st => (addMotion p s ⟨st, none⟩ 1).1) s
      ∧ ∀ (ls : LoopState) (d : Inputs) (s1 : PlannerState) (existing ecell : ℕ) (em : Motion),
          selectMotion p
              ⟨ls.st.motions, ⟨ls.st.tree.grid, ls.st.tree.size, ls.st.tree.iteration + 1⟩⟩ d
            = some (s1, existing, ecell) →
          ls.st.motions[existing]? = some em →
          ∀ ls1 : LoopState, loop p ls [d] = some ls1 →
          ls1.st.motions.length = ls.st.motions.length + 1 →
          ∃ m : Motion, ls1.st.motions = ls.st.motions ++ [m]
            ∧ (ls1.st = (addMotion p s1 m (p.goal.isSatisfied m.state).2).1
              ∨ ls1.st = scaleScore p.m_goodScoreFactor ecell
                  (addMotion p s1 m (p.goal.isSatisfied m.state).2).1) := by
  refine ⟨addMotion_new_cell p s motion dist, ?_, seed_eq_foldl p s, ?_⟩
  · intro c cell hc hcoord hfirst
    exact addMotion_old_cell p s motion dist c (getCell_of_first _ _ c cell hc hcoord hfirst)
  · intro ls d s1 existing ecell em hsel hem ls1 hloop hlen
    obtain ⟨-, cell, -, -, -, hmot, -, -, -⟩ := selectMotion_spec p _ s1 d existing ecell hsel
    simp only at hmot
    have hem1 : s1.motions[existing]? = some em := by rw [hmot]; exact hem
    rw [loop_single p ls d s1 existing ecell em hsel hem1] at hloop
    simp only [Option.some.injEq, copyState] at hloop
    subst hloop
    split_ifs at hlen ⊢ with hk hsolved hlt
    · exact ⟨_, by simp [kpiece_addMotion_motions, hmot], Or.inl rfl⟩
    · exact ⟨_, by simp [scaleScore, kpiece_addMotion_motions, hmot], Or.inr rfl⟩
    · exact ⟨_, by simp [scaleScore, kpiece_addMotion_motions, hmot], Or.inr rfl⟩
    · simp [scaleScore, hmot] at hlen

end KPIECE1

/-! ## Selection in EST -/

namespace EST

theorem cumulativeWeight_zero (size : ℕ) (c : Cell) (rest : List Cell) :
    cumulativeWeight size (c :: rest) 0 = weight size c := by
  simp [cumulativeWeight]

theorem cumulativeWeight_succ (size : ℕ) (c : Cell) (rest : List Cell) (k : ℕ) :
    cumulativeWeight size (c :: rest) (k + 1) = weight size c + cumulativeWeight size rest k := by
  simp [cumulativeWeight]

theorem weight_eq (size : ℕ) (c : Cell) (h : c.data.length ≤ size) :
    ((size - c.data.length : ℕ) : ℚ) / (size : ℚ) = weight size c := by
  unfold weight
  rw [Nat.cast_sub h]

/-- The loop of `selectMotion` over the cells stops at the first cell whose cumulative weight
exceeds `prob`. -/
theorem selectCell_some (size : ℕ) (prob : ℚ) : ∀ (l : List Cell) (acc : ℚ) (cell : Cell),
    (∀ c ∈ l, c.data.length ≤ size) → selectCell size prob l acc = some cell →
    ∃ k : ℕ, l[k]? = some cell ∧ prob < acc + cumulativeWeight size l k
      ∧ ∀ j : ℕ, j < k → ¬ prob < acc + cumulativeWeight size l j
  | [], _, _, _, h => by simp [selectCell] at h
  | c :: rest, acc, cell, hl, h => by
    unfold selectCell at h
    simp only [weight_eq size c (hl c (List.mem_cons_self _ _))] at h
    by_cases hlt : prob < acc + weight size c
    · rw [if_pos hlt] at h
      simp only [Option.some.injEq] at h
      subst h
      exact ⟨0, by simp, by rw [cumulativeWeight_zero]; exact hlt, fun j hj => by omega⟩
    · rw [if_neg hlt] at h
      obtain ⟨k, h1, h2, h3⟩ := selectCell_some size prob rest _ cell
        (fun c1 hc1 => hl c1 (List.mem_cons_of_mem _ hc1)) h
      refine ⟨k + 1, by simpa using h1, ?_, ?_⟩
      · rw [cumulativeWeight_succ, ← add_assoc]; exact h2
      · intro j hj
        cases j with
        | zero => rw [cumulativeWeight_zero]; exact hlt
        | succ j =>
          rw [cumulativeWeight_succ, ← add_assoc]
          exact h3 j (by omega)

theorem selectCell_none (size : ℕ) (prob : ℚ) : ∀ (l : List Cell) (acc : ℚ),
    (∀ c ∈ l, c.data.length ≤ size) → selectCell size prob l acc = none →
    ∀ k : ℕ, k < l.length → ¬ prob < acc + cumulativeWeight size l k
  | [], _, _, _ => by simp
  | c :: rest, acc, hl, h => by
    unfold selectCell at h
    simp only [weight_eq size c (hl c (List.mem_cons_self _ _))] at h
    by_cases hlt : prob < acc + weight size c
    · rw [if_pos hlt] at h
      exact absurd h (by simp)
    · rw [if_neg hlt] at h
      have ih := selectCell_none size prob rest _
        (fun c1 hc1 => hl c1 (List.mem_cons_of_mem _ hc1)) h
      intro k hk
      cases k with
      | zero => rw [cumulativeWeight_zero]; exact hlt
      | succ k =>
        rw [cumulativeWeight_succ, ← add_assoc]
        exact ih k (by simpa using hk)

/-- The cell that `selectMotion` chooses and the motion it returns from it. -/
theorem selectMotion_cases (s : PlannerState) (d : Inputs)
    (hgrid : s.tree.grid ≠ [])
    (hsize : ∀ c ∈ s.tree.grid, c.data.length ≤ s.tree.size) :
    ∃ cell : Cell,
      ((∃ k : ℕ, s.tree.grid[k]? = some cell
          ∧ d.uniform * ((s.tree.grid.length : ℚ) - 1)
              < cumulativeWeight s.tree.size s.tree.grid k
          ∧ ∀ j : ℕ, j < k → ¬ d.uniform * ((s.tree.grid.length : ℚ) - 1)
              < cumulativeWeight s.tree.size s.tree.grid j)
        ∨ ((∀ k : ℕ, k < s.tree.grid.length →
              ¬ d.uniform * ((s.tree.grid.length : ℚ) - 1)
                < cumulativeWeight s.tree.size s.tree.grid k)
            ∧ s.tree.grid.head? = some cell))
      ∧ selectMotion s d
          = if cell.data = [] then none
            else cell.data[d.uniformInt 0 (cell.data.length - 1)]? := by
  have hlen : 1 ≤ s.tree.grid.length := by
    cases hg : s.tree.grid with
    | nil => exact absurd hg hgrid
    | cons a l => simp
  have hprob : d.uniform * ((s.tree.grid.length - 1 : ℕ) : ℚ)
      = d.uniform * ((s.tree.grid.length : ℚ) - 1) := by
    rw [Nat.cast_sub hlen, Nat.cast_one]
  unfold selectMotion
  simp only [hprob]
  cases hsel : selectCell s.tree.size (d.uniform * ((s.tree.grid.length : ℚ) - 1))
      s.tree.grid 0 with
  | some cell =>
    obtain ⟨k, h1, h2, h3⟩ := selectCell_some _ _ _ _ cell hsize hsel
    simp only [zero_add] at h2 h3
    refine ⟨cell, Or.inl ⟨k, h1, h2, h3⟩, ?_⟩
    by_cases hne : cell.data = [] <;> simp [hne]
  | none =>
    have hn := selectCell_none _ _ _ _ hsize hsel
    simp only [zero_add] at hn
    cases hg : s.tree.grid with
    | nil => exact absurd hg hgrid
    | cons cell rest =>
      rw [hg] at hn
      refine ⟨cell, Or.inr ⟨hn, rfl⟩, ?_⟩
      by_cases hne : cell.data = [] <;> simp [hne]

/-- With a non-empty grid of non-empty cells and a drawn index in its range, `selectMotion`
returns a motion of a cell. -/
theorem selectMotion_nonnull (s : PlannerState) (d : Inputs)
    (hgrid : s.tree.grid ≠ [])
    (hsize : ∀ c ∈ s.tree.grid, c.data.length ≤ s.tree.size)
    (hne : ∀ c ∈ s.tree.grid, c.data ≠ []) (hrng : ∀ hi : ℕ, d.uniformInt 0 hi ≤ hi) :
    ∃ (m : ℕ) (cell : Cell), selectMotion s d = some m ∧ cell ∈ s.tree.grid ∧ m ∈ cell.data := by
  obtain ⟨cell, hcell, hsel⟩ := selectMotion_cases s d hgrid hsize
  have hmem : cell ∈ s.tree.grid := by
    rcases hcell with ⟨k, hk, -, -⟩ | ⟨-, hh⟩
    · exact List.mem_iff_getElem?.mpr ⟨k, hk⟩
    · exact List.mem_of_mem_head? hh
  have hdata := hne cell hmem
  have hpos : 0 < cell.data.length := List.length_pos.mpr hdata
  have hidx : d.uniformInt 0 (cell.data.length - 1) < cell.data.length := by
    have := hrng (cell.data.length - 1); omega
  rw [if_neg hdata, List.getElem?_eq_getElem hidx] at hsel
  exact ⟨_, cell, hsel, hmem, List.getElem_mem _⟩

/-- C14. EST density-inverse selection: with `p = u·(|grid| - 1)` for the draw `u`,
`selectMotion` picks the first cell in enumeration order whose cumulative weight, the sum of
the `w_c = (treeSize - |motions_c|)/treeSize`, strictly exceeds `p`, or the first cell when no
cumulative weight exceeds `p`, and returns the motion at the drawn index of that cell;
therefore, when the grid is not empty, every cell is non-empty and the drawn index is in its
range, the result is a non-null motion of a cell of the tree. -/
theorem est_selectMotion_spec (s : PlannerState) (d : Inputs)
    (hgrid : s.tree.grid ≠ [])
    (hsize : ∀ c ∈ s.tree.grid, c.data.length ≤ s.tree.size) :
    let prob := d.uniform * ((s.tree.grid.length : ℚ) - 1)
    (∃ cell : Cell,
        ((∃ k : ℕ, s.tree.grid[k]? = some cell
            ∧ prob < cumulativeWeight s.tree.size s.tree.grid k
            ∧ ∀ j : ℕ, j < k → ¬ prob < cumulativeWeight s.tree.size s.tree.grid j)
          ∨ ((∀ k : ℕ, k < s.tree.grid.length →
                ¬ prob < cumulativeWeight s.tree.size s.tree.grid k)
              ∧ s.tree.grid.head? = some cell))
        ∧ selectMotion s d
            = if cell.data = [] then none
              else cell.data[d.uniformInt 0 (cell.data.length - 1)]?)
      ∧ ((∀ c ∈ s.tree.grid, c.data ≠ []) → (∀ hi : ℕ, d.uniformInt 0 hi ≤ hi) →
          ∃ (m : ℕ) (cell : Cell), selectMotion s d = some m ∧ cell ∈ s.tree.grid
            ∧ m ∈ cell.data) :=
  ⟨selectMotion_cases s d hgrid hsize, selectMotion_nonnull s d hgrid hsize⟩

end EST

namespace EST

end EST

/-! ## Exact and approximate solutions -/

theorem ltApproxdif_some (x a : ℚ) : ltApproxdif x (some a) = true ↔ x < a := by
  simp [ltApproxdif]

theorem ltApproxdif_lt (x y : ℚ) (a : Option ℚ) (hxy : x < y) (h : ltApproxdif y a = true) :
    ltApproxdif x a = true := by
  cases a with
  | none => rfl
  | some a =>
    rw [ltApproxdif_some] at h ⊢
    exact lt_trans hxy h

/-- When no inserted motion satisfies the goal, the loop ends without exact solution, and
either no inserted motion was below the initial `approxdif`, or `approxsol` is the first
inserted motion of least distance and `approxdif` is that distance. -/
theorem Tracked.unsolved {goal : Goal} {base : ℕ} {created : List Motion}
    {a : Option ℕ × Option ℚ} {out : Option ℕ × Option ℕ × Option ℚ}
    (h : Tracked goal base created a out)
    (hno : ∀ m ∈ created, (goal.isSatisfied m.state).1 = false) :
    out.1 = none
      ∧ ((out.2.1 = a.1 ∧ out.2.2 = a.2
            ∧ ∀ m ∈ created, ltApproxdif (goal.isSatisfied m.state).2 a.2 = false)
        ∨ ∃ (k : ℕ) (m : Motion), created[k]? = some m
            ∧ out.2.1 = some (base + k)
            ∧ out.2.2 = some (goal.isSatisfied m.state).2
            ∧ ltApproxdif (goal.isSatisfied m.state).2 a.2 = true
            ∧ (∀ m1 ∈ created, (goal.isSatisfied m.state).2 ≤ (goal.isSatisfied m1.state).2)
            ∧ ∀ (j : ℕ) (m1 : Motion), j < k → created[j]? = some m1 →
                (goal.isSatisfied m.state).2 < (goal.isSatisfied m1.state).2) := by
  induction h with
  | done base a => exact ⟨rfl, Or.inl ⟨rfl, rfl, by simp⟩⟩
  | solved base m a hs =>
    have := hno m (by simp)
    rw [hs] at this
    exact absurd this (by simp)
  | better base m rest a out hs hlt _ ih =>
    obtain ⟨h1, h2⟩ := ih (fun m1 hm1 => hno m1 (List.mem_cons_of_mem _ hm1))
    refine ⟨h1, Or.inr ?_⟩
    rcases h2 with ⟨e1, e2, e3⟩ | ⟨k, m1, f1, f2, f3, f4, f5, f6⟩
    · refine ⟨0, m, by simp, by simpa using e1, e2, hlt, ?_, fun j m1 hj => by omega⟩
      intro m1 hm1
      rcases List.mem_cons.mp hm1 with rfl | hm1
      · exact le_refl _
      · have := e3 m1 hm1
        simp only [ltApproxdif, decide_eq_false_iff_not, not_lt] at this
        exact this
    · have hlt1 : (goal.isSatisfied m1.state).2 < (goal.isSatisfied m.state).2 := by
        simpa [ltApproxdif] using f4
      refine ⟨k + 1, m1, by simpa using f1, by rw [f2]; congr 1; omega, f3,
        ltApproxdif_lt _ _ _ hlt1 hlt, ?_, ?_⟩
      · intro m2 hm2
        rcases List.mem_cons.mp hm2 with rfl | hm2
        · exact le_of_lt hlt1
        · exact f5 m2 hm2
      · intro j m2 hj hj2
        cases j with
        | zero =>
          simp only [List.getElem?_cons_zero, Option.some.injEq] at hj2
          subst hj2; exact hlt1
        | succ j => exact f6 j m2 (by omega) (by simpa using hj2)
  | worse base m rest a out hs hlt _ ih =>
    obtain ⟨h1, h2⟩ := ih (fun m1 hm1 => hno m1 (List.mem_cons_of_mem _ hm1))
    refine ⟨h1, ?_⟩
    rcases h2 with ⟨e1, e2, e3⟩ | ⟨k, m1, f1, f2, f3, f4, f5, f6⟩
    · refine Or.inl ⟨e1, e2, ?_⟩
      intro m1 hm1
      rcases List.mem_cons.mp hm1 with rfl | hm1
      · exact hlt
      · exact e3 m1 hm1
    · have hle : (goal.isSatisfied m1.state).2 < (goal.isSatisfied m.state).2 := by
        cases ha : a.2 with
        | none => rw [ha] at hlt; simp [ltApproxdif] at hlt
        | some a0 =>
          rw [ha] at hlt f4
          simp only [ltApproxdif, decide_eq_false_iff_not, not_lt] at hlt
          rw [ltApproxdif_some] at f4
          exact lt_of_lt_of_le f4 hlt
      refine Or.inr ⟨k + 1, m1, by simpa using f1, by rw [f2]; congr 1; omega, f3, f4, ?_, ?_⟩
      · intro m2 hm2
        rcases List.mem_cons.mp hm2 with rfl | hm2
        · exact le_of_lt hle
        · exact f5 m2 hm2
      · intro j m2 hj hj2
        cases j with
        | zero =>
          simp only [List.getElem?_cons_zero, Option.some.injEq] at hj2
          subst hj2; exact hle
        | succ j => exact f6 j m2 (by omega) (by simpa using hj2)

/-- When an inserted motion satisfies the goal it is the last one inserted, it is the exact
solution, and `approxdif` is its distance. -/
theorem Tracked.exact {goal : Goal} {base : ℕ} {created : List Motion}
    {a : Option ℕ × Option ℚ} {out : Option ℕ × Option ℕ × Option ℚ}
    (h : Tracked goal base created a out) (m : Motion) (hm : m ∈ created)
    (hs : (goal.isSatisfied m.state).1 = true) :
    created.getLast? = some m
      ∧ out.1 = some (base + (created.length - 1))
      ∧ out.2.2 = some (goal.isSatisfied m.state).2 := by
  induction h with
  | done base a => simp at hm
  | solved base m1 a hs1 =>
    simp only [List.mem_singleton] at hm
    subst hm
    simp
  | better base m1 rest a out hs1 hlt ht ih =>
    rcases List.mem_cons.mp hm with rfl | hm
    · rw [hs] at hs1; exact absurd hs1 (by simp)
    · obtain ⟨h1, h2, h3⟩ := ih hm
      have hne : rest ≠ [] := List.ne_nil_of_mem hm
      have hpos := List.length_pos.mpr hne
      refine ⟨?_, ?_, h3⟩
      · cases rest with
        | nil => exact absurd rfl hne
        | cons x xs => simpa [List.getLast?_cons_cons] using h1
      · rw [h2]; simp only [List.length_cons]; congr 1; omega
  | worse base m1 rest a out hs1 hlt ht ih =>
    rcases List.mem_cons.mp hm with rfl | hm
    · rw [hs] at hs1; exact absurd hs1 (by simp)
    · obtain ⟨h1, h2, h3⟩ := ih hm
      have hne : rest ≠ [] := List.ne_nil_of_mem hm
      have hpos := List.length_pos.mpr hne
      refine ⟨?_, ?_, h3⟩
      · cases rest with
        | nil => exact absurd rfl hne
        | cons x xs => simpa [List.getLast?_cons_cons] using h1
      · rw [h2]; simp only [List.length_cons]; congr 1; omega

/-- The walk from `s`, when it ends, yields a path whose last state is the state of `s`. -/
theorem parentWalk_last (motions : List Motion) (fuel s : ℕ) (mpath : List ℕ)
    (h : parentWalk motions fuel (some s) = some mpath) :
    ∃ m : Motion, motions[s]? = some m
      ∧ (pathStates motions mpath).getLast? = some m.state := by
  cases fuel with
  | zero => simp [parentWalk] at h
  | succ fuel =>
    unfold parentWalk at h
    split at h
    · exact absurd h (by simp)
    · rename_i m hm
      simp only [Option.map_eq_some'] at h
      obtain ⟨rest, -, rfl⟩ := h
      exact ⟨m, hm, by rw [pathStates_cons]; simp [hm, copyState]⟩

/-- What `reportSolution` stores in the goal when a solution, exact or approximate, is
chosen. -/
theorem reportSolution_last (motions : List Motion) (sol app : Option ℕ) (ad : Option ℚ)
    (calls : GoalCalls) (s : ℕ)
    (h : reportSolution motions sol app ad = some calls)
    (hch : (if sol.isNone then app else sol) = some s) :
    ∃ (m : Motion) (path : List State), motions[s]? = some m
      ∧ calls = ⟨some ad, some (path, sol.isNone)⟩
      ∧ path.getLast? = some m.state := by
  unfold reportSolution at h
  simp only [hch] at h
  split at h
  · exact absurd h (by simp)
  · rename_i mpath hw
    obtain ⟨m, hm, hlast⟩ := parentWalk_last motions _ s mpath hw
    simp only [Option.some.injEq] at h
    exact ⟨m, _, hm, h.symm, hlast⟩

/-- The calls on the goal that follow from the bookkeeping of the loop. -/
theorem tracked_report (goal : Goal) (before created : List Motion)
    (sol app : Option ℕ) (ad : Option ℚ) (calls : GoalCalls)
    (ht : Tracked goal before.length created (none, none) (sol, app, ad))
    (hr : reportSolution (before ++ created) sol app ad = some calls) :
    ((∀ m ∈ created, (goal.isSatisfied m.state).1 = false) → created ≠ [] →
        ∃ (k : ℕ) (m : Motion) (path : List State), created[k]? = some m
          ∧ (∀ m1 ∈ created, (goal.isSatisfied m.state).2 ≤ (goal.isSatisfied m1.state).2)
          ∧ (∀ (j : ℕ) (m1 : Motion), j < k → created[j]? = some m1 →
              (goal.isSatisfied m.state).2 < (goal.isSatisfied m1.state).2)
          ∧ calls.setDifference = some (some (goal.isSatisfied m.state).2)
          ∧ calls.setSolutionPath = some (path, true)
          ∧ path.getLast? = some m.state)
      ∧ ∀ m ∈ created, (goal.isSatisfied m.state).1 = true →
          ∃ path : List State, created.getLast? = some m
            ∧ calls.setDifference = some (some (goal.isSatisfied m.state).2)
            ∧ calls.setSolutionPath = some (path, false)
            ∧ path.getLast? = some m.state := by
  constructor
  · intro hno hne
    obtain ⟨h1, h2⟩ := ht.unsolved hno
    simp only at h1 h2
    rcases h2 with ⟨-, -, e3⟩ | ⟨k, m, f1, f2, f3, -, f5, f6⟩
    · obtain ⟨m, hm⟩ := List.exists_mem_of_ne_nil created hne
      have := e3 m hm
      simp [ltApproxdif] at this
    · subst h1 f2 f3
      obtain ⟨m1, path, g1, g2, g3⟩ := reportSolution_last _ _ _ _ calls (before.length + k) hr
        (by simp)
      rw [List.getElem?_append_right (by omega), Nat.add_sub_cancel_left, f1] at g1
      simp only [Option.some.injEq] at g1
      subst g1
      exact ⟨k, m, path, f1, f5, f6, by rw [g2], by rw [g2]; rfl, g3⟩
  · intro m hm hs
    obtain ⟨h1, h2, h3⟩ := ht.exact m hm hs
    simp only at h2 h3
    subst h2 h3
    have hpos : 0 < created.length := List.length_pos_of_mem hm
    obtain ⟨m1, path, g1, g2, g3⟩ := reportSolution_last _ _ _ _ calls
      (before.length + (created.length - 1)) hr (by simp)
    rw [List.getElem?_append_right (by omega), Nat.add_sub_cancel_left] at g1
    have hlast : created[created.length - 1]? = some m := by
      rw [← h1, List.getLast?_eq_getElem?]
    rw [hlast] at g1
    simp only [Option.some.injEq] at g1
    subst g1
    exact ⟨path, h1, by rw [g2], by rw [g2]; rfl, g3⟩

namespace EST

/-- The loop of `solve` inserts motions with a parent and keeps its variables as `Tracked`
describes. -/
theorem loop_tracked (p : EST) : ∀ (inputs : List Inputs) (ls ls1 : LoopState),
    loop p ls inputs = some ls1 → ls.solution = none →
    ∃ created : List Motion,
      ls1.st.motions = ls.st.motions ++ created
        ∧ (∀ m ∈ created, m.parent ≠ none)
        ∧ Tracked p.goal ls.st.motions.length created (ls.approxsol, ls.approxdif)
            (ls1.solution, ls1.approxsol, ls1.approxdif)
  | [], ls, ls1, h, hsol => by
    simp only [loop, Option.some.injEq] at h
    subst h
    refine ⟨[], by simp, by simp, ?_⟩
    rw [hsol]
    exact Tracked.done _ _
  | d :: ds, ls, ls1, h, hsol => by
    unfold loop at h
    split at h
    · exact absurd h (by simp)
    · rename_i existing hsel
      split at h
      · exact absurd h (by simp)
      · rename_i em hem
        simp only [copyState] at h
        by_cases hcms : p.si.checkMotionSubdivision em.state (sample p d em.state) = true
        · rw [if_pos hcms] at h
          by_cases hsolved : (p.goal.isSatisfied (sample p d em.state)).1 = true
          · rw [if_pos hsolved] at h
            simp only [Option.some.injEq] at h
            subst h
            exact ⟨[⟨sample p d em.state, some existing⟩], rfl, by simp,
              Tracked.solved _ ⟨sample p d em.state, some existing⟩ _ hsolved⟩
          · rw [if_neg hsolved] at h
            have hs0 : (p.goal.isSatisfied
                (⟨sample p d em.state, some existing⟩ : Motion).state).1 = false := by
              simpa using hsolved
            by_cases hlt : ltApproxdif (p.goal.isSatisfied (sample p d em.state)).2
                ls.approxdif = true
            · rw [if_pos hlt] at h
              obtain ⟨created, c1, c2, c3⟩ := loop_tracked p ds _ ls1 h hsol
              refine ⟨⟨sample p d em.state, some existing⟩ :: created, ?_, ?_, ?_⟩
              · rw [c1]; simp [addMotion_motions]
              · intro m hm
                rcases List.mem_cons.mp hm with rfl | hm
                · simp
                · exact c2 m hm
              · refine Tracked.better _ _ _ _ _ hs0 hlt ?_
                simpa [addMotion_motions] using c3
            · rw [if_neg hlt] at h
              obtain ⟨created, c1, c2, c3⟩ := loop_tracked p ds _ ls1 h hsol
              refine ⟨⟨sample p d em.state, some existing⟩ :: created, ?_, ?_, ?_⟩
              · rw [c1]; simp [addMotion_motions]
              · intro m hm
                rcases List.mem_cons.mp hm with rfl | hm
                · simp
                · exact c2 m hm
              · refine Tracked.worse _ _ _ _ _ hs0 (by simpa using hlt) ?_
                simpa [addMotion_motions] using c3
        · rw [if_neg hcms] at h
          exact loop_tracked p ds ls ls1 h hsol

end EST

namespace KPIECE1

/-- The loop of `solve` inserts motions with a parent and keeps its variables as `Tracked`
describes. -/
theorem kpiece_loop_tracked (p : KPIECE1) : ∀ (inputs : List Inputs) (ls ls1 : LoopState),
    loop p ls inputs = some ls1 → ls.solution = none →
    ∃ created : List Motion,
      ls1.st.motions = ls.st.motions ++ created
        ∧ (∀ m ∈ created, m.parent ≠ none)
        ∧ Tracked p.goal ls.st.motions.length created (ls.approxsol, ls.approxdif)
            (ls1.solution, ls1.approxsol, ls1.approxdif)
  | [], ls, ls1, h, hsol => by
    simp only [loop, Option.some.injEq] at h
    subst h
    refine ⟨[], by simp, by simp, ?_⟩
    rw [hsol]
    exact Tracked.done _ _
  | d :: ds, ls, ls1, h, hsol => by
    unfold loop at h
    simp only at h
    split at h
    · exact absurd h (by simp)
    · rename_i s1 existing ecell hsel
      have hs1 : s1.motions = ls.st.motions := by
        have := selectMotion_motions p _ s1 d existing ecell hsel
        exact this
      split at h
      · exact absurd h (by simp)
      · rename_i em hem
        generalize hsm : sample p d em.state
          (ls.approxsol.bind fun a => (s1.motions[a]?).map Motion.state) ls.improveValue = sm at h
        generalize hx : copyState
          ((p.si.checkMotion em.state sm.1 (some sm.1) (some 0)).lastValidState.getD sm.1) = x
          at h
        by_cases hkeep : ((p.si.checkMotion em.state sm.1 (some sm.1) (some 0)).result
            || (!(p.si.checkMotion em.state sm.1 (some sm.1) (some 0)).result
                && decide ((p.si.checkMotion em.state sm.1 (some sm.1) (some 0)).lastValidTime.getD
                    0 > p.m_minValidPathPercentage))) = true
        · rw [if_pos hkeep] at h
          by_cases hsolved : (p.goal.isSatisfied x).1 = true
          · rw [if_pos hsolved] at h
            simp only [Option.some.injEq] at h
            subst h
            refine ⟨[⟨x, some existing⟩], by simp [kpiece_addMotion_motions, hs1], by simp, ?_⟩
            simp only [hs1]
            exact Tracked.solved _ ⟨x, some existing⟩ _ hsolved
          · rw [if_neg hsolved] at h
            have hs0 : (p.goal.isSatisfied (⟨x, some existing⟩ : Motion).state).1 = false := by
              simpa using hsolved
            by_cases hlt : ltApproxdif (p.goal.isSatisfied x).2 ls.approxdif = true
            · rw [if_pos hlt] at h
              obtain ⟨created, c1, c2, c3⟩ := kpiece_loop_tracked p ds _ ls1 h hsol
              have hm2 : (scaleScore p.m_goodScoreFactor ecell
                  (addMotion p s1 ⟨x, some existing⟩ (p.goal.isSatisfied x).2).1).motions
                    = ls.st.motions ++ [⟨x, some existing⟩] := by
                show (addMotion p s1 _ _).1.motions = _
                rw [kpiece_addMotion_motions, hs1]
              simp only [hm2] at c1 c3
              refine ⟨⟨x, some existing⟩ :: created, ?_, ?_, ?_⟩
              · rw [c1]; simp
              · intro m hm
                rcases List.mem_cons.mp hm with rfl | hm
                · simp
                · exact c2 m hm
              · refine Tracked.better _ _ _ _ _ hs0 hlt ?_
                simpa [hs1] using c3
            · rw [if_neg hlt] at h
              obtain ⟨created, c1, c2, c3⟩ := kpiece_loop_tracked p ds _ ls1 h hsol
              have hm2 : (scaleScore p.m_goodScoreFactor ecell
                  (addMotion p s1 ⟨x, some existing⟩ (p.goal.isSatisfied x).2).1).motions
                    = ls.st.motions ++ [⟨x, some existing⟩] := by
                show (addMotion p s1 _ _).1.motions = _
                rw [kpiece_addMotion_motions, hs1]
              simp only [hm2] at c1 c3
              refine ⟨⟨x, some existing⟩ :: created, ?_, ?_, ?_⟩
              · rw [c1]; simp
              · intro m hm
                rcases List.mem_cons.mp hm with rfl | hm
                · simp
                · exact c2 m hm
              · refine Tracked.worse _ _ _ _ _ hs0 (by simpa using hlt) ?_
                simpa [hs1] using c3
        · rw [if_neg hkeep] at h
          obtain ⟨created, c1, c2, c3⟩ := kpiece_loop_tracked p ds _ ls1 h hsol
          simp only [scaleScore, hs1] at c1 c3
          exact ⟨created, c1, c2, c3⟩

end KPIECE1

/-- The calls on the goal exist and follow from the bookkeeping of the loop when every parent was
inserted before its child and the chosen pointer is a motion of the tree. -/
theorem tracked_reported (goal : Goal) (before created : List Motion)
    (sol app : Option ℕ) (ad : Option ℚ)
    (hearlier : ∀ (i : ℕ) (m : Motion) (p : ℕ),
      (before ++ created)[i]? = some m → m.parent = some p → p < i)
    (hlt : ∀ s, (if sol.isNone then app else sol) = some s → s < (before ++ created).length)
    (ht : Tracked goal before.length created (none, none) (sol, app, ad)) :
    ∃ calls : GoalCalls, reportSolution (before ++ created) sol app ad = some calls
      ∧ ((∀ m ∈ created, (goal.isSatisfied m.state).1 = false) → created ≠ [] →
        ∃ (k : ℕ) (m : Motion) (path : List State), created[k]? = some m
          ∧ (∀ m1 ∈ created, (goal.isSatisfied m.state).2 ≤ (goal.isSatisfied m1.state).2)
          ∧ (∀ (j : ℕ) (m1 : Motion), j < k → created[j]? = some m1 →
              (goal.isSatisfied m.state).2 < (goal.isSatisfied m1.state).2)
          ∧ calls.setDifference = some (some (goal.isSatisfied m.state).2)
          ∧ calls.setSolutionPath = some (path, true)
          ∧ path.getLast? = some m.state)
      ∧ ∀ m ∈ created, (goal.isSatisfied m.state).1 = true →
          ∃ path : List State, created.getLast? = some m
            ∧ calls.setDifference = some (some (goal.isSatisfied m.state).2)
            ∧ calls.setSolutionPath = some (path, false)
            ∧ path.getLast? = some m.state := by
  have hr : ∃ calls : GoalCalls, reportSolution (before ++ created) sol app ad = some calls := by
    unfold reportSolution
    simp only
    cases hch : (if sol.isNone then app else sol) with
    | none => exact ⟨_, rfl⟩
    | some s =>
      obtain ⟨rest, d, hw, -⟩ := parentWalk_spec (before ++ created) hearlier s (hlt s hch)
        (before ++ created).length (hlt s hch)
      simp only [hw]
      exact ⟨_, rfl⟩
  obtain ⟨calls, hr⟩ := hr
  exact ⟨calls, hr, tracked_report goal before created sol app ad calls ht hr⟩

/-- Appending roots and then motions whose parents are earlier keeps every parent before its
child. -/
theorem earlier_append (before seeded created : List Motion)
    (hb : ∀ (i : ℕ) (m : Motion) (p : ℕ), before[i]? = some m → m.parent = some p → p < i)
    (hs : ∀ m ∈ seeded, m.parent = none)
    (hc : ∀ (k : ℕ) (m : Motion), created[k]? = some m →
      ∃ e : ℕ, m.parent = some e ∧ e < (before ++ seeded).length + k) :
    ∀ (i : ℕ) (m : Motion) (p : ℕ),
      (before ++ seeded ++ created)[i]? = some m → m.parent = some p → p < i := by
  intro i m p hi hp
  by_cases h1 : i < (before ++ seeded).length
  · rw [List.getElem?_append_left h1] at hi
    by_cases h2 : i < before.length
    · rw [List.getElem?_append_left h2] at hi
      exact hb i m p hi hp
    · rw [List.getElem?_append_right (by omega)] at hi
      have := hs m (List.mem_iff_getElem?.mpr ⟨_, hi⟩)
      rw [this] at hp
      exact absurd hp (by simp)
  · rw [List.getElem?_append_right (by omega)] at hi
    obtain ⟨e, he, hlt⟩ := hc _ m hi
    rw [he] at hp
    simp only [Option.some.injEq] at hp
    omega

namespace EST

/-- When `solve` reaches its loop and the loop ends, `solve` returns, and the calls on the goal
are those that the bookkeeping of the loop determines. -/
theorem est_solve_reported (p : EST) (s : PlannerState) (inputs : List Inputs) (ls : LoopState)
    (hearlier : ∀ (i : ℕ) (m : Motion) (e : ℕ),
      s.motions[i]? = some m → m.parent = some e → e < i)
    (hgoal : (p.goal.goal_s.isNone && !p.goal.goal_r) = false)
    (hgrid : (if s.tree.grid.length = 0 then seed p s else s).tree.grid.length ≠ 0)
    (hloop : loop p ⟨if s.tree.grid.length = 0 then seed p s else s, none, none, none⟩ inputs
      = some ls) :
    ∃ (calls : GoalCalls) (seeded created : List Motion),
      solve p s inputs = some ⟨ls.st, calls, p.goal.isAchieved calls.setSolutionPath⟩
      ∧ ls.st.motions = s.motions ++ seeded ++ created
      ∧ (∀ m ∈ seeded, m.parent = none)
      ∧ (∀ m ∈ created, m.parent ≠ none)
      ∧ ((∀ m ∈ created, (p.goal.isSatisfied m.state).1 = false) → created ≠ [] →
        ∃ (k : ℕ) (m : Motion) (path : List State), created[k]? = some m
          ∧ (∀ m1 ∈ created, (p.goal.isSatisfied m.state).2 ≤ (p.goal.isSatisfied m1.state).2)
          ∧ (∀ (j : ℕ) (m1 : Motion), j < k → created[j]? = some m1 →
              (p.goal.isSatisfied m.state).2 < (p.goal.isSatisfied m1.state).2)
          ∧ calls.setDifference = some (some (p.goal.isSatisfied m.state).2)
          ∧ calls.setSolutionPath = some (path, true)
          ∧ path.getLast? = some m.state)
      ∧ ∀ m ∈ created, (p.goal.isSatisfied m.state).1 = true →
          ∃ path : List State, created.getLast? = some m
            ∧ calls.setDifference = some (some (p.goal.isSatisfied m.state).2)
            ∧ calls.setSolutionPath = some (path, false)
            ∧ path.getLast? = some m.state := by
  have hseed : ∃ seeded : List Motion,
      (if s.tree.grid.length = 0 then seed p s else s).motions = s.motions ++ seeded
        ∧ ∀ m ∈ seeded, m.parent = none := by
    by_cases h0 : s.tree.grid.length = 0
    · rw [if_pos h0]
      obtain ⟨added, h1, h2⟩ := seed_added p p.startStates s
      exact ⟨added, h1, fun m hm => (h2 m hm).1⟩
    · rw [if_neg h0]
      exact ⟨[], by simp, by simp⟩
  obtain ⟨seeded, hs1, hs2⟩ := hseed
  unfold solve
  rw [hgoal]
  simp only [Bool.false_eq_true, if_false]
  rw [if_neg hgrid]
  simp only [hloop]
  generalize (if s.tree.grid.length = 0 then seed p s else s) = s1 at hs1 hloop
  obtain ⟨created, c1, c2, c3⟩ := loop_tracked p inputs _ ls hloop rfl
  obtain ⟨added, a1, a2, a3, a4⟩ := loop_added p inputs _ ls hloop
  simp only at c1 c3 a1 a2 a3 a4
  have hadd : added = created := List.append_cancel_left (a1.symm.trans c1)
  subst hadd
  rw [hs1] at c1 c3 a2 a3 a4
  have hearly := earlier_append s.motions seeded added hearlier hs2
    (fun k m hk => by
      obtain ⟨e, em, h1, h2, -⟩ := a2 k m hk
      exact ⟨e, h1, h2⟩)
  have hlt : ∀ x, (if ls.solution.isNone then ls.approxsol else ls.solution) = some x →
      x < (s.motions ++ seeded ++ added).length := by
    intro x hx
    cases hsol : ls.solution with
    | none =>
      rw [hsol] at hx
      rcases a4 x (by simpa using hx) with h | h
      · exact absurd h (by simp)
      · exact h
    | some y =>
      rw [hsol] at hx
      have hy : y = x := by simpa using hx
      subst hy
      rcases a3 y hsol with h | h
      · exact absurd h (by simp)
      · exact h
  obtain ⟨calls, hr, hrep⟩ := tracked_reported p.goal (s.motions ++ seeded) added
    ls.solution ls.approxsol ls.approxdif hearly hlt c3
  rw [c1, hr]
  exact ⟨calls, seeded, added, rfl, rfl, hs2, c2, hrep⟩

end EST

namespace KPIECE1

/-- When `solve` reaches its loop and the loop ends, `solve` returns, and the calls on the goal
are those that the bookkeeping of the loop determines. -/
theorem kpiece_solve_reported (p : KPIECE1) (s : PlannerState) (inputs : List Inputs) (ls : LoopState)
    (hearlier : ∀ (i : ℕ) (m : Motion) (e : ℕ),
      s.motions[i]? = some m → m.parent = some e → e < i)
    (hgoal : (p.goal.goal_s.isNone && !p.goal.goal_r) = false)
    (hgrid : (if s.tree.grid.length = 0 then seed p s else s).tree.grid.length ≠ 0)
    (hloop : loop p ⟨if s.tree.grid.length = 0 then seed p s else s, none, none, none, 1 / 100⟩
      inputs
      = some ls) :
    ∃ (calls : GoalCalls) (seeded created : List Motion),
      solve p s inputs = some ⟨ls.st, calls, p.goal.isAchieved calls.setSolutionPath⟩
      ∧ ls.st.motions = s.motions ++ seeded ++ created
      ∧ (∀ m ∈ seeded, m.parent = none)
      ∧ (∀ m ∈ created, m.parent ≠ none)
      ∧ ((∀ m ∈ created, (p.goal.isSatisfied m.state).1 = false) → created ≠ [] →
        ∃ (k : ℕ) (m : Motion) (path : List State), created[k]? = some m
          ∧ (∀ m1 ∈ created, (p.goal.isSatisfied m.state).2 ≤ (p.goal.isSatisfied m1.state).2)
          ∧ (∀ (j : ℕ) (m1 : Motion), j < k → created[j]? = some m1 →
              (p.goal.isSatisfied m.state).2 < (p.goal.isSatisfied m1.state).2)
          ∧ calls.setDifference = some (some (p.goal.isSatisfied m.state).2)
          ∧ calls.setSolutionPath = some (path, true)
          ∧ path.getLast? = some m.state)
      ∧ ∀ m ∈ created, (p.goal.isSatisfied m.state).1 = true →
          ∃ path : List State, created.getLast? = some m
            ∧ calls.setDifference = some (some (p.goal.isSatisfied m.state).2)
            ∧ calls.setSolutionPath = some (path, false)
            ∧ path.getLast? = some m.state := by
  have hseed : ∃ seeded : List Motion,
      (if s.tree.grid.length = 0 then seed p s else s).motions = s.motions ++ seeded
        ∧ ∀ m ∈ seeded, m.parent = none := by
    by_cases h0 : s.tree.grid.length = 0
    · rw [if_pos h0]
      obtain ⟨added, h1, h2⟩ := kpiece_seed_added p p.startStates s
      exact ⟨added, h1, fun m hm => (h2 m hm).1⟩
    · rw [if_neg h0]
      exact ⟨[], by simp, by simp⟩
  obtain ⟨seeded, hs1, hs2⟩ := hseed
  unfold solve
  rw [hgoal]
  simp only [Bool.false_eq_true, if_false]
  rw [if_neg hgrid]
  simp only [hloop]
  generalize (if s.tree.grid.length = 0 then seed p s else s) = s1 at hs1 hloop
  obtain ⟨created, c1, c2, c3⟩ := kpiece_loop_tracked p inputs _ ls hloop rfl
  obtain ⟨added, a1, a2, a3, a4⟩ := kpiece_loop_added p inputs _ ls hloop
  simp only at c1 c3 a1 a2 a3 a4
  have hadd : added = created := List.append_cancel_left (a1.symm.trans c1)
  subst hadd
  rw [hs1] at c1 c3 a2 a3 a4
  have hearly := earlier_append s.motions seeded added hearlier hs2
    (fun k m hk => by
      obtain ⟨e, h1, h2, -⟩ := a2 k m hk
      exact ⟨e, h1, h2⟩)
  have hlt : ∀ x, (if ls.solution.isNone then ls.approxsol else ls.solution) = some x →
      x < (s.motions ++ seeded ++ added).length := by
    intro x hx
    cases hsol : ls.solution with
    | none =>
      rw [hsol] at hx
      rcases a4 x (by simpa using hx) with h | h
      · exact absurd h (by simp)
      · exact h
    | some y =>
      rw [hsol] at hx
      have hy : y = x := by simpa using hx
      subst hy
      rcases a3 y hsol with h | h
      · exact absurd h (by simp)
      · exact h
  obtain ⟨calls, hr, hrep⟩ := tracked_reported p.goal (s.motions ++ seeded) added
    ls.solution ls.approxsol ls.approxdif hearly hlt c3
  rw [c1, hr]
  exact ⟨calls, seeded, added, rfl, rfl, hs2, c2, hrep⟩

end KPIECE1

theorem lineSpace_step_back (valid : State → Bool) :
    (lineSpace valid).findDifferenceStep [2] [0] 1 = (3, [-2/3]) := by
  have h : |(2:ℚ)| = 2 := abs_of_pos (by norm_num)
  simp [SpaceInformationKinematic.findDifferenceStep, SpaceInformationKinematic.findDivisions,
    SpaceInformationKinematic.findDiff, lineSpace, castInt, wrapInt, List.range_succ]

theorem nearStartEST_solve :
    EST.solve nearStartEST EST.PlannerState.empty [awayInputs] = some nearStartESTResult := by
  have hc : (lineSpace belowThree).checkMotionSubdivision [2] [0] = true := by
    unfold SpaceInformationKinematic.checkMotionSubdivision
    rw [lineSpace_step_back]
    norm_num [lineSpace, belowThree, SpaceInformationKinematic.subdivisionLoop, stateAt,
      List.range_succ, Int.tdiv]
  have hseed : EST.seed nearStartEST EST.PlannerState.empty
      = ⟨[⟨[2], none⟩], ⟨[⟨[2], [0]⟩], 1⟩⟩ := by
    simp [EST.seed, nearStartEST, lineEST, EST.PlannerState.empty, EST.addMotion, EST.getCell,
      copyState, lineSpace, belowThree]
    norm_num
  unfold EST.solve
  rw [if_neg (by simp [nearStartEST, lineEST, lineGoal, Goal.goal_s, Goal.goal_r])]
  simp only [EST.PlannerState.empty, List.length_nil, if_true] at hseed ⊢
  rw [hseed]
  simp [EST.loop, EST.selectMotion, EST.selectCell, awayInputs, lineInputs, EST.sample,
    nearStartEST, lineEST, lineGoal,
    Goal.goal_s, Goal.goal_k, copyState, hc, EST.addMotion, EST.getCell, reportSolution,
    parentWalk, pathStates, ltApproxdif, nearStartESTResult]
  norm_num [parentWalk, pathStates, abs_of_pos]

theorem nearStartEST_seed :
    EST.seed nearStartEST EST.PlannerState.empty = ⟨[⟨[2], none⟩], ⟨[⟨[2], [0]⟩], 1⟩⟩ := by
  simp [EST.seed, nearStartEST, lineEST, EST.PlannerState.empty, EST.addMotion, EST.getCell,
    copyState, lineSpace, belowThree]
  norm_num

theorem nearStartEST_loop :
    EST.loop nearStartEST
        ⟨if EST.PlannerState.empty.tree.grid.length = 0
          then EST.seed nearStartEST EST.PlannerState.empty else EST.PlannerState.empty,
          none, none, none⟩ [awayInputs]
      = some ⟨nearStartESTResult.planner, none, some 1, some (5 / 2)⟩ := by
  have hc : (lineSpace belowThree).checkMotionSubdivision [2] [0] = true := by
    unfold SpaceInformationKinematic.checkMotionSubdivision
    rw [lineSpace_step_back]
    norm_num [lineSpace, belowThree, SpaceInformationKinematic.subdivisionLoop, stateAt,
      List.range_succ, Int.tdiv]
  rw [if_pos (by simp [EST.PlannerState.empty]), nearStartEST_seed]
  simp [EST.loop, EST.selectMotion, EST.selectCell, awayInputs, lineInputs, EST.sample,
    nearStartEST, lineEST, lineGoal,
    Goal.goal_s, Goal.goal_k, copyState, hc, EST.addMotion, EST.getCell, ltApproxdif,
    nearStartESTResult]
  norm_num [abs_of_pos]

theorem lineKPIECE1_seed :
    KPIECE1.seed lineKPIECE1 KPIECE1.PlannerState.empty
      = ⟨[⟨[0], none⟩], ⟨[⟨[0], ⟨[0], 1, 1, 1000 / 1001, 0⟩⟩], 1, 0⟩⟩ := by
  simp [KPIECE1.seed, lineKPIECE1, KPIECE1.PlannerState.empty, KPIECE1.addMotion,
    KPIECE1.getCell, copyState, lineSpace, belowThree]
  norm_num

theorem lineKPIECE1_loop :
    KPIECE1.loop lineKPIECE1
        ⟨if KPIECE1.PlannerState.empty.tree.grid.length = 0
          then KPIECE1.seed lineKPIECE1 KPIECE1.PlannerState.empty
          else KPIECE1.PlannerState.empty,
          none, none, none, 1 / 100⟩ [lineKInputs]
      = some ⟨lineKPIECE1Result.planner, some 1, none, some 0, 1 / 100⟩ := by
  have hc : (lineSpace belowThree).checkMotionIncremental [0] [5/2] (some [5/2]) (some 0)
      = ⟨true, some [5/2], some 0⟩ := by
    unfold SpaceInformationKinematic.checkMotionIncremental
    rw [lineSpace_step]
    norm_num [lineSpace, belowThree, SpaceInformationKinematic.sweepIndices, stateAt,
      List.range_succ, List.find?]
  rw [if_pos (by simp [KPIECE1.PlannerState.empty]), lineKPIECE1_seed]
  simp [KPIECE1.loop, KPIECE1.selectMotion, lineKInputs, KPIECE1.sample, lineKPIECE1, lineGoal,
    Goal.goal_s, Goal.goal_k, copyState, SpaceInformationKinematic.checkMotion, hc,
    KPIECE1.addMotion, KPIECE1.getCell, ltApproxdif,
    lineKPIECE1Result, List.modify, List.modifyTailIdx]
  norm_num

/-- C17 (amended). Approximate solution on budget exhaustion, for EST and for KPIECE1: when
every parent in the tree passed to `solve` was inserted before its child, `solve` reaches its
loop and the loop ends in the state `ls`, then `solve` returns, and with `seeded` the start
motions and `created` the motions that the loop of this call inserted, in order (each with a
finite goal distance, a rational): if no motion of `created` satisfies the goal and `created`
is not empty, the path handed to the goal has `approximate = true` and ends at the state of
the earliest motion of `created` whose goal distance is minimal among `created`, and
`setDifference` receives exactly that distance; if a
motion of `created` satisfies the goal, it is the last one inserted, the path has
`approximate = false` and ends at its state, and `setDifference` receives its distance.  The
start motions `seeded` are not compared. -/
theorem approximate_solution_report
    (pe : EST) (se : EST.PlannerState) (ie : List EST.Inputs) (lse : EST.LoopState)
    (pk : KPIECE1) (sk : KPIECE1.PlannerState) (ik : List KPIECE1.Inputs)
    (lsk : KPIECE1.LoopState)
    (hearlier_e : ∀ (i : ℕ) (m : Motion) (e : ℕ),
      se.motions[i]? = some m → m.parent = some e → e < i)
    (hgoal_e : (pe.goal.goal_s.isNone && !pe.goal.goal_r) = false)
    (hgrid_e : (if se.tree.grid.length = 0 then EST.seed pe se else se).tree.grid.length ≠ 0)
    (hloop_e : EST.loop pe
        ⟨if se.tree.grid.length = 0 then EST.seed pe se else se, none, none, none⟩ ie
      = some lse)
    (hearlier_k : ∀ (i : ℕ) (m : Motion) (e : ℕ),
      sk.motions[i]? = some m → m.parent = some e → e < i)
    (hgoal_k : (pk.goal.goal_s.isNone && !pk.goal.goal_r) = false)
    (hgrid_k :
      (if sk.tree.grid.length = 0 then KPIECE1.seed pk sk else sk).tree.grid.length ≠ 0)
    (hloop_k : KPIECE1.loop pk
        ⟨if sk.tree.grid.length = 0 then KPIECE1.seed pk sk else sk, none, none, none, 1 / 100⟩
        ik
      = some lsk) :
    (∃ (calls : GoalCalls) (seeded created : List Motion),
      EST.solve pe se ie
          = some ⟨lse.st, calls, pe.goal.isAchieved calls.setSolutionPath⟩
        ∧ lse.st.motions = se.motions ++ seeded ++ created
        ∧ (∀ m ∈ seeded, m.parent = none)
        ∧ (∀ m ∈ created, m.parent ≠ none)
        ∧ ((∀ m ∈ created, (pe.goal.isSatisfied m.state).1 = false) → created ≠ [] →
          ∃ (k : ℕ) (m : Motion) (path : List State), created[k]? = some m
            ∧ (∀ m1 ∈ created,
                (pe.goal.isSatisfied m.state).2 ≤ (pe.goal.isSatisfied m1.state).2)
            ∧ (∀ (j : ℕ) (m1 : Motion), j < k → created[j]? = some m1 →
                (pe.goal.isSatisfied m.state).2 < (pe.goal.isSatisfied m1.state).2)
            ∧ calls.setDifference = some (some (pe.goal.isSatisfied m.state).2)
            ∧ calls.setSolutionPath = some (path, true)
            ∧ path.getLast? = some m.state)
        ∧ ∀ m ∈ created, (pe.goal.isSatisfied m.state).1 = true →
            ∃ path : List State, created.getLast? = some m
              ∧ calls.setDifference = some (some (pe.goal.isSatisfied m.state).2)
              ∧ calls.setSolutionPath = some (path, false)
              ∧ path.getLast? = some m.state)
    ∧ ∃ (calls : GoalCalls) (seeded created : List Motion),
      KPIECE1.solve pk sk ik
          = some ⟨lsk.st, calls, pk.goal.isAchieved calls.setSolutionPath⟩
        ∧ lsk.st.motions = sk.motions ++ seeded ++ created
        ∧ (∀ m ∈ seeded, m.parent = none)
        ∧ (∀ m ∈ created, m.parent ≠ none)
        ∧ ((∀ m ∈ created, (pk.goal.isSatisfied m.state).1 = false) → created ≠ [] →
          ∃ (k : ℕ) (m : Motion) (path : List State), created[k]? = some m
            ∧ (∀ m1 ∈ created,
                (pk.goal.isSatisfied m.state).2 ≤ (pk.goal.isSatisfied m1.state).2)
            ∧ (∀ (j : ℕ) (m1 : Motion), j < k → created[j]? = some m1 →
                (pk.goal.isSatisfied m.state).2 < (pk.goal.isSatisfied m1.state).2)
            ∧ calls.setDifference = some (some (pk.goal.isSatisfied m.state).2)
            ∧ calls.setSolutionPath = some (path, true)
            ∧ path.getLast? = some m.state)
        ∧ ∀ m ∈ created, (pk.goal.isSatisfied m.state).1 = true →
            ∃ path : List State, created.getLast? = some m
              ∧ calls.setDifference = some (some (pk.goal.isSatisfied m.state).2)
              ∧ calls.setSolutionPath = some (path, false)
              ∧ path.getLast? = some m.state :=
  ⟨EST.est_solve_reported pe se ie lse hearlier_e hgoal_e hgrid_e hloop_e,
    KPIECE1.kpiece_solve_reported pk sk ik lsk hearlier_k hgoal_k hgrid_k hloop_k⟩

/-- C17 fails as stated: `nearStartEST` inserts, in one call on the empty planner, the start
motion `2` at distance `1/2` from the goal and the loop motion `0` at distance `5/2`; no motion
satisfies the goal, yet the approximate path ends at `0` and `setDifference` receives `5/2`,
not the minimum `1/2` among the motions inserted during the call. -/
theorem approximate_ignores_start :
    EST.solve nearStartEST EST.PlannerState.empty [awayInputs] = some nearStartESTResult
      ∧ nearStartESTResult.planner.motions = [⟨[2], none⟩, ⟨[0], some 0⟩]
      ∧ (∀ m ∈ nearStartESTResult.planner.motions,
          (nearStartEST.goal.isSatisfied m.state).1 = false)
      ∧ (nearStartEST.goal.isSatisfied [2]).2 = 1 / 2
      ∧ (nearStartEST.goal.isSatisfied [0]).2 = 5 / 2
      ∧ nearStartESTResult.goalCalls.setSolutionPath = some ([[2], [0]], true)
      ∧ nearStartESTResult.goalCalls.setDifference = some (some (5 / 2)) := by
  refine ⟨nearStartEST_solve, rfl, ?_, ?_, ?_, rfl, rfl⟩
  · intro m hm
    simp only [nearStartESTResult, List.mem_cons, List.mem_singleton, List.not_mem_nil,
      or_false] at hm
    rcases hm with rfl | rfl <;> norm_num [nearStartEST, lineEST, lineGoal]
  · norm_num [nearStartEST, lineEST, lineGoal, abs_of_neg]
  · norm_num [nearStartEST, lineEST, lineGoal, abs_of_neg]

/-- The amended C17 on a run of EST that ends with an approximate solution and a run of
KPIECE1 that ends with an exact one. -/
theorem approximate_solution_report_witness :
    EST.loop nearStartEST
        ⟨if EST.PlannerState.empty.tree.grid.length = 0
          then EST.seed nearStartEST EST.PlannerState.empty else EST.PlannerState.empty,
          none, none, none⟩ [awayInputs]
      = some ⟨nearStartESTResult.planner, none, some 1, some (5 / 2)⟩
    ∧ KPIECE1.loop lineKPIECE1
        ⟨if KPIECE1.PlannerState.empty.tree.grid.length = 0
          then KPIECE1.seed lineKPIECE1 KPIECE1.PlannerState.empty
          else KPIECE1.PlannerState.empty,
          none, none, none, 1 / 100⟩ [lineKInputs]
      = some ⟨lineKPIECE1Result.planner, some 1, none, some 0, 1 / 100⟩
    ∧ (∃ (calls : GoalCalls) (seeded created : List Motion),
      EST.solve nearStartEST EST.PlannerState.empty [awayInputs]
          = some ⟨(⟨nearStartESTResult.planner, none, some 1, some (5 / 2)⟩ : EST.LoopState).st, calls, nearStartEST.goal.isAchieved calls.setSolutionPath⟩
        ∧ (⟨nearStartESTResult.planner, none, some 1, some (5 / 2)⟩ : EST.LoopState).st.motions = EST.PlannerState.empty.motions ++ seeded ++ created
        ∧ (∀ m ∈ seeded, m.parent = none)
        ∧ (∀ m ∈ created, m.parent ≠ none)
        ∧ ((∀ m ∈ created, (nearStartEST.goal.isSatisfied m.state).1 = false) → created ≠ [] →
          ∃ (k : ℕ) (m : Motion) (path : List State), created[k]? = some m
            ∧ (∀ m1 ∈ created,
                (nearStartEST.goal.isSatisfied m.state).2 ≤ (nearStartEST.goal.isSatisfied m1.state).2)
            ∧ (∀ (j : ℕ) (m1 : Motion), j < k → created[j]? = some m1 →
                (nearStartEST.goal.isSatisfied m.state).2 < (nearStartEST.goal.isSatisfied m1.state).2)
            ∧ calls.setDifference = some (some (nearStartEST.goal.isSatisfied m.state).2)
            ∧ calls.setSolutionPath = some (path, true)
            ∧ path.getLast? = some m.state)
        ∧ ∀ m ∈ created, (nearStartEST.goal.isSatisfied m.state).1 = true →
            ∃ path : List State, created.getLast? = some m
              ∧ calls.setDifference = some (some (nearStartEST.goal.isSatisfied m.state).2)
              ∧ calls.setSolutionPath = some (path, false)
              ∧ path.getLast? = some m.state)
    ∧ ∃ (calls : GoalCalls) (seeded created : List Motion),
      KPIECE1.solve lineKPIECE1 KPIECE1.PlannerState.empty [lineKInputs]
          = some ⟨(⟨lineKPIECE1Result.planner, some 1, none, some 0, 1 / 100⟩ : KPIECE1.LoopState).st, calls, lineKPIECE1.goal.isAchieved calls.setSolutionPath⟩
        ∧ (⟨lineKPIECE1Result.planner, some 1, none, some 0, 1 / 100⟩ : KPIECE1.LoopState).st.motions = KPIECE1.PlannerState.empty.motions ++ seeded ++ created
        ∧ (∀ m ∈ seeded, m.parent = none)
        ∧ (∀ m ∈ created, m.parent ≠ none)
        ∧ ((∀ m ∈ created, (lineKPIECE1.goal.isSatisfied m.state).1 = false) → created ≠ [] →
          ∃ (k : ℕ) (m : Motion) (path : List State), created[k]? = some m
            ∧ (∀ m1 ∈ created,
                (lineKPIECE1.goal.isSatisfied m.state).2 ≤ (lineKPIECE1.goal.isSatisfied m1.state).2)
            ∧ (∀ (j : ℕ) (m1 : Motion), j < k → created[j]? = some m1 →
                (lineKPIECE1.goal.isSatisfied m.state).2 < (lineKPIECE1.goal.isSatisfied m1.state).2)
            ∧ calls.setDifference = some (some (lineKPIECE1.goal.isSatisfied m.state).2)
            ∧ calls.setSolutionPath = some (path, true)
            ∧ path.getLast? = some m.state)
        ∧ ∀ m ∈ created, (lineKPIECE1.goal.isSatisfied m.state).1 = true →
            ∃ path : List State, created.getLast? = some m
              ∧ calls.setDifference = some (some (lineKPIECE1.goal.isSatisfied m.state).2)
              ∧ calls.setSolutionPath = some (path, false)
              ∧ path.getLast? = some m.state :=
  ⟨nearStartEST_loop, lineKPIECE1_loop,
    approximate_solution_report nearStartEST EST.PlannerState.empty [awayInputs] _
      lineKPIECE1 KPIECE1.PlannerState.empty [lineKInputs] _
      (fun i m e h => by simp [EST.PlannerState.empty] at h)
      (by simp [nearStartEST, lineEST, lineGoal, Goal.goal_s, Goal.goal_r])
      (by rw [if_pos (by simp [EST.PlannerState.empty]), nearStartEST_seed]; simp)
      nearStartEST_loop
      (fun i m e h => by simp [KPIECE1.PlannerState.empty] at h)
      (by simp [lineKPIECE1, lineGoal, Goal.goal_s, Goal.goal_r])
      (by rw [if_pos (by simp [KPIECE1.PlannerState.empty]), lineKPIECE1_seed]; simp)
      lineKPIECE1_loop⟩

/-! ## The states of a motion -/

namespace SpaceInformationKinematic

theorem sweepIndices_eq_range' (nd : ℤ) :
    sweepIndices nd = (List.range' 1 (nd.toNat - 1)).map fun (n : ℕ) => (n : ℤ) := by
  unfold sweepIndices
  rw [List.range'_eq_map_range, List.map_map]
  apply List.map_congr_left
  intro n _
  simp only [Function.comp]
  push_cast
  ring

/-- The loop of `getMotionStates` started at `j = added = a` with `m` values of `j` to visit:
it writes `s1 + i * step` to the positions `a ≤ i < a + min m (size - a)` and nothing else. -/
theorem motionStatesLoop_spec (si : SpaceInformationKinematic) (s1 step : State) :
    ∀ (m a : ℕ) (states : List State),
      (motionStatesLoop si s1 step ((List.range' a m).map fun (n : ℕ) => (n : ℤ)) states a).2
          = a + min m (states.length - a)
        ∧ (motionStatesLoop si s1 step ((List.range' a m).map fun (n : ℕ) => (n : ℤ))
            states a).1.length = states.length
        ∧ ∀ i : ℕ,
          (motionStatesLoop si s1 step ((List.range' a m).map fun (n : ℕ) => (n : ℤ))
              states a).1[i]?
            = if a ≤ i ∧ i < a + min m (states.length - a)
              then some (stateAt si.m_stateDimension s1 step (i : ℚ)) else states[i]?
  | 0, a, states => by
    refine ⟨by simp [motionStatesLoop], by simp [motionStatesLoop], fun i => ?_⟩
    rw [if_neg (by omega)]
    simp [motionStatesLoop]
  | m + 1, a, states => by
    simp only [List.range'_succ, List.map_cons, motionStatesLoop]
    by_cases ha : a < states.length
    · rw [if_pos ha]
      obtain ⟨h1, h2, h3⟩ := motionStatesLoop_spec si s1 step m (a + 1)
        (states.set a (stateAt si.m_stateDimension s1 step (a : ℚ)))
      simp only [Int.toNat_ofNat, Int.cast_natCast]
      simp only [List.length_set] at h1 h2 h3
      refine ⟨by rw [h1]; omega, h2, fun i => ?_⟩
      rw [h3 i]
      by_cases hi : i = a
      · subst hi
        rw [if_neg (by omega), if_pos (by omega)]
        simp [ha]
      · rw [List.getElem?_set_ne (Ne.symm hi)]
        by_cases hc : a + 1 ≤ i ∧ i < a + 1 + min m (states.length - (a + 1))
        · rw [if_pos hc, if_pos (by omega)]
        · rw [if_neg hc, if_neg (by omega)]
    · rw [if_neg ha]
      refine ⟨by omega, rfl, fun i => ?_⟩
      rw [if_neg (by omega)]

/-- The entries of the full sweep `s1, s1 + j * step (1 ≤ j < n), s2`. -/
theorem sweep_getElem? (f : ℕ → State) (s1 s2 : State) (n i : ℕ) (hn : 1 ≤ n) :
    (s1 :: ((List.range' 1 (n - 1)).map f ++ [s2]))[i]?
      = if i = 0 then some s1 else if i < n then some (f i) else if i = n then some s2
        else none := by
  cases i with
  | zero => simp
  | succ k =>
    rw [List.getElem?_cons_succ, if_neg (by omega)]
    by_cases h1 : k + 1 < n
    · rw [if_pos h1, List.getElem?_append_left (by simp; omega)]
      simp only [List.getElem?_map]
      rw [List.getElem?_range' _ _ (by omega)]
      simp [Nat.add_comm]
    · rw [if_neg h1, List.getElem?_append_right (by simp; omega)]
      by_cases h2 : k + 1 = n
      · rw [if_pos h2]
        have : k - ((List.range' 1 (n - 1)).map f).length = 0 := by simp; omega
        rw [this]
        rfl
      · rw [if_neg h2]
        have : k - ((List.range' 1 (n - 1)).map f).length = (k + 1 - n - 1) + 1 := by
          simp; omega
        rw [this]
        rfl

/-- The body of `getMotionStates` after the optional allocation, on a vector `st0` of any
size: the full sweep, cut to the size of the vector, overwrites the front of the vector. -/
theorem getMotionStates_core (si : SpaceInformationKinematic) (s1 s2 step : State) (n : ℕ)
    (hn : 1 ≤ n) (st0 : List State) :
    (if (motionStatesLoop si s1 step
            ((List.range' 1 (n - 1)).map fun (k : ℕ) => (k : ℤ))
            (if st0.length > 0 then (st0.set 0 s1, 1) else (st0, 0)).1
            (if st0.length > 0 then (st0.set 0 s1, 1) else (st0, 0)).2).2
          < (motionStatesLoop si s1 step
            ((List.range' 1 (n - 1)).map fun (k : ℕ) => (k : ℤ))
            (if st0.length > 0 then (st0.set 0 s1, 1) else (st0, 0)).1
            (if st0.length > 0 then (st0.set 0 s1, 1) else (st0, 0)).2).1.length
      then
        ((motionStatesLoop si s1 step
            ((List.range' 1 (n - 1)).map fun (k : ℕ) => (k : ℤ))
            (if st0.length > 0 then (st0.set 0 s1, 1) else (st0, 0)).1
            (if st0.length > 0 then (st0.set 0 s1, 1) else (st0, 0)).2).1.set
          (motionStatesLoop si s1 step
            ((List.range' 1 (n - 1)).map fun (k : ℕ) => (k : ℤ))
            (if st0.length > 0 then (st0.set 0 s1, 1) else (st0, 0)).1
            (if st0.length > 0 then (st0.set 0 s1, 1) else (st0, 0)).2).2 s2,
          (motionStatesLoop si s1 step
            ((List.range' 1 (n - 1)).map fun (k : ℕ) => (k : ℤ))
            (if st0.length > 0 then (st0.set 0 s1, 1) else (st0, 0)).1
            (if st0.length > 0 then (st0.set 0 s1, 1) else (st0, 0)).2).2 + 1)
      else
        motionStatesLoop si s1 step
            ((List.range' 1 (n - 1)).map fun (k : ℕ) => (k : ℤ))
            (if st0.length > 0 then (st0.set 0 s1, 1) else (st0, 0)).1
            (if st0.length > 0 then (st0.set 0 s1, 1) else (st0, 0)).2)
      = ((s1 :: ((List.range' 1 (n - 1)).map
              (fun (k : ℕ) => stateAt si.m_stateDimension s1 step (k : ℚ)) ++ [s2])).take
            st0.length ++ st0.drop (n + 1),
          min st0.length (n + 1)) := by
  by_cases hL : st0.length > 0
  · rw [if_pos hL]
    simp only
    obtain ⟨h1, h2, h3⟩ := motionStatesLoop_spec si s1 step (n - 1) 1 (st0.set 0 s1)
    simp only [List.length_set] at h1 h2 h3
    generalize motionStatesLoop si s1 step
      ((List.range' 1 (n - 1)).map fun (k : ℕ) => (k : ℤ)) (st0.set 0 s1) 1 = sw at h1 h2 h3
    obtain ⟨l, a⟩ := sw
    simp only at h1 h2 h3
    subst h1
    have hlen : (List.take st0.length
        (s1 :: ((List.range' 1 (n - 1)).map
          (fun (k : ℕ) => stateAt si.m_stateDimension s1 step (k : ℚ)) ++ [s2]))).length
        = min st0.length (n + 1) := by
      simp only [List.length_take, List.length_cons, List.length_append, List.length_map,
        List.length_range', List.length_singleton, List.length_nil]
      omega
    by_cases hlt : 1 + min (n - 1) (st0.length - 1) < l.length
    · rw [if_pos hlt]
      refine Prod.ext ?_ ?_
      · simp only
        apply List.ext_getElem?
        intro i
        rw [List.getElem?_append, hlen]
        by_cases hi : i = 1 + min (n - 1) (st0.length - 1)
        · subst hi
          rw [List.getElem?_set_self hlt, if_pos (by omega), List.getElem?_take, if_pos (by omega),
            sweep_getElem? _ s1 s2 n _ hn, if_neg (by omega), if_neg (by omega),
            if_pos (by omega)]
        · rw [List.getElem?_set_ne (Ne.symm hi), h3 i]
          by_cases hc : 1 ≤ i ∧ i < 1 + min (n - 1) (st0.length - 1)
          · rw [if_pos hc, if_pos (by omega), List.getElem?_take, if_pos (by omega),
              sweep_getElem? _ s1 s2 n _ hn, if_neg (by omega), if_pos (by omega)]
          · rw [if_neg hc]
            by_cases h0 : i = 0
            · subst h0
              rw [if_pos (by omega), List.getElem?_take, if_pos (by omega),
                sweep_getElem? _ s1 s2 n _ hn, if_pos rfl]
              simp [hL]
            · rw [List.getElem?_set_ne (Ne.symm h0), if_neg (by omega), List.getElem?_drop]
              congr 1
              omega
      · simp only
        omega
    · rw [if_neg hlt]
      refine Prod.ext ?_ ?_
      · simp only
        apply List.ext_getElem?
        intro i
        rw [List.getElem?_append, hlen, h3 i]
        by_cases hc : 1 ≤ i ∧ i < 1 + min (n - 1) (st0.length - 1)
        · rw [if_pos hc, if_pos (by omega), List.getElem?_take, if_pos (by omega),
            sweep_getElem? _ s1 s2 n _ hn, if_neg (by omega), if_pos (by omega)]
        · rw [if_neg hc]
          by_cases h0 : i = 0
          · subst h0
            rw [if_pos (by omega), List.getElem?_take, if_pos (by omega),
              sweep_getElem? _ s1 s2 n _ hn, if_pos rfl]
            simp [hL]
          · rw [List.getElem?_set_ne (Ne.symm h0), if_neg (by omega), List.getElem?_drop,
              List.getElem?_eq_none (by omega), List.getElem?_eq_none (by omega)]
      · simp only
        omega
  · rw [if_neg hL]
    have h0 : st0 = [] := List.eq_nil_of_length_eq_zero (by omega)
    subst h0
    cases hjs : (List.range' 1 (n - 1)).map (fun (k : ℕ) => (k : ℤ)) with
    | nil => simp [motionStatesLoop]
    | cons j js => simp [motionStatesLoop]

theorem resizeStates_length (states : List State) (n : ℕ) :
    (resizeStates states n).length = n := by
  simp only [resizeStates, List.length_append, List.length_take, List.length_replicate]
  omega

/-- C20. `getMotionStates(s1, s2, states, alloc)`, with `nd` and `step` computed by
`findDifferenceStep(s1, s2, 1.0, step)` and `sweep` the list `s1`, then `s1 + j * step` for
`j = 1 .. nd - 1` in order, then `s2`: `sweep` has `nd + 1` states; with `alloc = true` the
vector holds exactly `sweep` after the call and `nd + 1` is returned; with `alloc = false` and
a vector of size `k` the first `min(k, nd + 1)` entries hold `sweep` cut to `k` states (so `s2`
is written only when `k ≥ nd + 1`), the entries from index `nd + 1` on are unchanged, and
`min(k, nd + 1)` is returned. -/
theorem getMotionStates_spec (si : SpaceInformationKinematic) (s1 s2 : State)
    (states : List State) :
    let nd := (si.findDifferenceStep s1 s2 1).1
    let step := (si.findDifferenceStep s1 s2 1).2
    let sweep : List State :=
      s1 :: ((sweepIndices nd).map
        (fun (j : ℤ) => stateAt si.m_stateDimension s1 step (j : ℚ)) ++ [s2])
    (nd.toNat : ℤ) = nd
      ∧ sweep.length = nd.toNat + 1
      ∧ si.getMotionStates s1 s2 states true = (sweep, nd.toNat + 1)
      ∧ si.getMotionStates s1 s2 states false
          = (sweep.take states.length ++ states.drop (nd.toNat + 1),
              min states.length (nd.toNat + 1)) := by
  intro nd step sweep
  have hnd : 1 ≤ nd := si.findDifferenceStep_nd_pos s1 s2 1
  have hn : 1 ≤ nd.toNat := by omega
  have hsweep : sweep = s1 :: ((List.range' 1 (nd.toNat - 1)).map
      (fun (k : ℕ) => stateAt si.m_stateDimension s1 step (k : ℚ)) ++ [s2]) := by
    show s1 :: ((sweepIndices nd).map
        (fun (j : ℤ) => stateAt si.m_stateDimension s1 step (j : ℚ)) ++ [s2]) = _
    rw [sweepIndices_eq_range', List.map_map]
    congr 2
  have hlen : sweep.length = nd.toNat + 1 := by
    rw [hsweep]
    simp only [List.length_cons, List.length_append, List.length_map, List.length_range',
      List.length_singleton, List.length_nil]
    omega
  have hcore := fun st0 => getMotionStates_core si s1 s2 step nd.toNat hn st0
  rw [← hsweep] at hcore
  refine ⟨by omega, hlen, ?_, ?_⟩
  · have h := hcore (resizeStates states (nd + 1).toNat)
    have hr : (resizeStates states (nd + 1).toNat).length = nd.toNat + 1 := by
      rw [resizeStates_length]; omega
    rw [hr] at h
    rw [List.drop_of_length_le (by omega), List.take_of_length_le (by omega),
      List.append_nil, Nat.min_self] at h
    unfold getMotionStates
    simp only [copyState, if_true, sweepIndices_eq_range']
    rw [hr]
    exact h
  · have h := hcore states
    unfold getMotionStates
    simp only [copyState, Bool.false_eq_true, if_false, sweepIndices_eq_range']
    exact h

end SpaceInformationKinematic

/-- The sweep from `0` to `5/2` on the line: allocated in full, and written into a vector of
two states. -/
theorem getMotionStates_line :
    (lineSpace belowThree).getMotionStates [0] [5/2] [] true
        = ([[0], [5/6], [5/3], [5/2]], 4)
      ∧ (lineSpace belowThree).getMotionStates [0] [5/2] [[7], [8]] false
        = ([[0], [5/6]], 2) := by
  constructor
  · unfold SpaceInformationKinematic.getMotionStates
    rw [lineSpace_step]
    norm_num [SpaceInformationKinematic.resizeStates, SpaceInformationKinematic.sweepIndices,
      SpaceInformationKinematic.motionStatesLoop, stateAt, lineSpace, copyState,
      List.range_succ, List.replicate]
    rfl
  · unfold SpaceInformationKinematic.getMotionStates
    rw [lineSpace_step]
    norm_num [SpaceInformationKinematic.resizeStates, SpaceInformationKinematic.sweepIndices,
      SpaceInformationKinematic.motionStatesLoop, stateAt, lineSpace, copyState,
      List.range_succ, List.replicate]

/-! ## The goal swap of IKPlanner -/

namespace IKPlanner

/-- The loop of `IKPlanner::solve`, entered with the user's goal installed, leaves the user's
goal installed; it calls GAIK under the user's goal and the inner planner's `clear` and
`solve`, in this order, under the temporary goal that GAIK produced in the same turn. -/
theorem ik_loop_spec {σ : Type} (p : IKPlanner σ) : ∀ (turns : List Turn) (w : World σ),
    w.installed = Installed.user →
    (loop p w turns).world.installed = Installed.user
      ∧ ∃ blocks : List (Option State),
          (loop p w turns).world.log = w.log ++ blocks.flatMap fun b =>
            match b with
            | none => [(Call.gaikSolve, Installed.user)]
            | some st => [(Call.gaikSolve, Installed.user),
                (Call.clear, Installed.temporary st), (Call.solve, Installed.temporary st)]
  | [], w, hw => ⟨hw, [], by simp [loop]⟩
  | t :: ts, w, hw => by
    unfold loop
    by_cases ht : t.timeLeft ≤ 0
    · rw [if_pos ht]
      exact ⟨hw, [], by simp⟩
    · rw [if_neg ht]
      simp only
      by_cases hg : (t.gaik (t.timeLeft * (1 / 2))).1 = true
      · rw [if_pos hg]
        by_cases hr : (p.inner.solve (Installed.temporary (t.gaik (t.timeLeft * (1 / 2))).2)
            t.timeLeftSolve (p.inner.clear w.planner)).returned = true
        · rw [if_pos hr]
          refine ⟨rfl, [some (t.gaik (t.timeLeft * (1 / 2))).2], ?_⟩
          simp [hw]
        · rw [if_neg hr]
          obtain ⟨h1, blocks, h2⟩ := ik_loop_spec p ts _ (rfl :
            ({ planner := (p.inner.solve (Installed.temporary (t.gaik (t.timeLeft * (1 / 2))).2)
                  t.timeLeftSolve (p.inner.clear w.planner)).planner,
                installed := Installed.user,
                userSolutionPath := some (none, false),
                userDifference := w.userDifference,
                stateGoalPath :=
                  match (p.inner.solve (Installed.temporary (t.gaik (t.timeLeft * (1 / 2))).2)
                    t.timeLeftSolve (p.inner.clear w.planner)).goalCalls.setSolutionPath with
                  | some path => some path.1
                  | none => w.stateGoalPath,
                log := w.log ++ [(Call.gaikSolve, w.installed)]
                  ++ [(Call.clear, Installed.temporary (t.gaik (t.timeLeft * (1 / 2))).2)]
                  ++ [(Call.solve, Installed.temporary (t.gaik (t.timeLeft * (1 / 2))).2)] } :
              World σ).installed = Installed.user)
          refine ⟨h1, some (t.gaik (t.timeLeft * (1 / 2))).2 :: blocks, ?_⟩
          rw [h2]
          simp [hw]
      · rw [if_neg hg]
        obtain ⟨h1, blocks, h2⟩ := ik_loop_spec p ts
          { w with log := w.log ++ [(Call.gaikSolve, w.installed)] } hw
        refine ⟨h1, none :: blocks, ?_⟩
        rw [h2]
        simp [hw]

/-- C19. IKPlanner goal swap is restored: at every return of `IKPlanner::solve` (unknown goal,
no valid start, deadline reached, inner planner success) the goal slot of `SpaceInformation`
holds the user's goal.  When the goal is not a state goal, the calls made are, turn by turn,
GAIK's `solve` under the user's goal, followed when GAIK succeeds by the inner planner's
`clear` and `solve` under the temporary state goal holding the state GAIK produced; no other
call is made while the temporary goal is installed.  When the goal is a state goal, the only
call is the inner planner's `solve(solveTime)` under the user's goal, and its result, planner
and flag, is what `IKPlanner::solve` leaves and returns. -/
theorem ikplanner_goal_restored {σ : Type} (p : IKPlanner σ) (planner : σ) (solveTime : ℚ)
    (turns : List Turn) :
    (solve p planner solveTime turns).world.installed = Installed.user
      ∧ (p.goal.goal_s = none →
          ∃ blocks : List (Option State),
            (solve p planner solveTime turns).world.log = blocks.flatMap fun b =>
              match b with
              | none => [(Call.gaikSolve, Installed.user)]
              | some st => [(Call.gaikSolve, Installed.user),
                  (Call.clear, Installed.temporary st), (Call.solve, Installed.temporary st)])
      ∧ (p.goal.goal_s ≠ none →
          (solve p planner solveTime turns).returned
              = (p.inner.solve Installed.user solveTime planner).returned
            ∧ (solve p planner solveTime turns).world.planner
              = (p.inner.solve Installed.user solveTime planner).planner
            ∧ (solve p planner solveTime turns).world.log = [(Call.solve, Installed.user)]) := by
  cases hs : p.goal.goal_s with
  | some g =>
    refine ⟨?_, fun h => absurd h (by simp), fun _ => ?_⟩
    · simp [solve, hs]
    · simp [solve, hs]
  | none =>
    refine ⟨?_, fun _ => ?_, fun h => absurd rfl h⟩
    · unfold solve
      simp only [hs, Option.isSome_none, Bool.false_eq_true, if_false]
      split_ifs
      · rfl
      · rfl
      · exact (ik_loop_spec p turns _ rfl).1
    · unfold solve
      simp only [hs, Option.isSome_none, Bool.false_eq_true, if_false]
      split_ifs
      · exact ⟨[], rfl⟩
      · exact ⟨[], rfl⟩
      · obtain ⟨-, blocks, h⟩ := ik_loop_spec p turns
          (⟨planner, Installed.user, none, none, none, []⟩ : World σ) rfl
        exact ⟨blocks, by simpa using h⟩

end IKPlanner

theorem lineIK_solve :
    IKPlanner.solve lineIK 7 2 ikTurns
      = ⟨⟨1, IKPlanner.Installed.user, some (some [[0]], false), some (some 0), none,
          [(IKPlanner.Call.gaikSolve, IKPlanner.Installed.user),
            (IKPlanner.Call.gaikSolve, IKPlanner.Installed.user),
            (IKPlanner.Call.clear, IKPlanner.Installed.temporary [1]),
            (IKPlanner.Call.solve, IKPlanner.Installed.temporary [1]),
            (IKPlanner.Call.gaikSolve, IKPlanner.Installed.user),
            (IKPlanner.Call.clear, IKPlanner.Installed.temporary [5/2]),
            (IKPlanner.Call.solve, IKPlanner.Installed.temporary [5/2])]⟩, true⟩ := by
  simp [IKPlanner.solve, IKPlanner.loop, lineIK, regionGoal, lineGoal, Goal.goal_s, Goal.goal_r,
    lineSpace, belowThree, ikTurns, countingInner]
  norm_num

/-- The goal swap of C19 on a run of three turns with a region goal and on a run with a state
goal. -/
theorem ikplanner_goal_restored_witness :
    lineIK.goal.goal_s = none
      ∧ stateIK.goal.goal_s ≠ none
      ∧ (IKPlanner.solve lineIK 7 2 ikTurns).world.installed = IKPlanner.Installed.user
      ∧ (∃ blocks : List (Option State),
          (IKPlanner.solve lineIK 7 2 ikTurns).world.log = blocks.flatMap fun b =>
            match b with
            | none => [(IKPlanner.Call.gaikSolve, IKPlanner.Installed.user)]
            | some st => [(IKPlanner.Call.gaikSolve, IKPlanner.Installed.user),
                (IKPlanner.Call.clear, IKPlanner.Installed.temporary st),
                (IKPlanner.Call.solve, IKPlanner.Installed.temporary st)])
      ∧ (IKPlanner.solve stateIK 7 2 ikTurns).returned
          = (stateIK.inner.solve IKPlanner.Installed.user 2 7).returned
      ∧ (IKPlanner.solve stateIK 7 2 ikTurns).world.planner
          = (stateIK.inner.solve IKPlanner.Installed.user 2 7).planner
      ∧ (IKPlanner.solve stateIK 7 2 ikTurns).world.log
          = [(IKPlanner.Call.solve, IKPlanner.Installed.user)] :=
  ⟨rfl, by simp [stateIK, lineIK, lineGoal, Goal.goal_s],
    (IKPlanner.ikplanner_goal_restored lineIK 7 2 ikTurns).1,
    (IKPlanner.ikplanner_goal_restored lineIK 7 2 ikTurns).2.1 rfl,
    (IKPlanner.ikplanner_goal_restored stateIK 7 2 ikTurns).2.2
      (by simp [stateIK, lineIK, lineGoal, Goal.goal_s])⟩

/-! ## Witnesses and counterexamples of the planner claims -/

/-- The configuration errors of C15 on an EST planner whose goal has no known kind and a
KPIECE1 planner whose start states are out of bounds. -/
theorem solve_configuration_error_witness :
    (noGoalEST.goal.goal_s = none ∧ noGoalEST.goal.goal_r = false)
      ∧ EST.solve noGoalEST seededEST [lineInputs] = some ⟨seededEST, ⟨none, none⟩, false⟩
      ∧ (KPIECE1.PlannerState.empty.tree.grid = [] ∧
          ∀ st ∈ outsideKPIECE1.startStates,
            (outsideKPIECE1.si.satisfiesBounds st && outsideKPIECE1.si.isValid st) = false)
      ∧ KPIECE1.solve outsideKPIECE1 KPIECE1.PlannerState.empty [lineKInputs]
          = some ⟨KPIECE1.PlannerState.empty, ⟨none, none⟩, false⟩ :=
  have h1 : noGoalEST.goal.goal_s = none ∧ noGoalEST.goal.goal_r = false := ⟨rfl, rfl⟩
  have h2 : KPIECE1.PlannerState.empty.tree.grid = [] ∧
      ∀ st ∈ outsideKPIECE1.startStates,
        (outsideKPIECE1.si.satisfiesBounds st && outsideKPIECE1.si.isValid st) = false := by
    refine ⟨rfl, ?_⟩
    intro st hst
    simp only [outsideKPIECE1, List.mem_cons, List.mem_singleton, List.not_mem_nil,
      or_false] at hst
    rcases hst with rfl | rfl <;> norm_num [outsideKPIECE1, lineKPIECE1, lineSpace]
  ⟨h1,
    (solve_configuration_error noGoalEST seededEST [lineInputs] outsideKPIECE1
      KPIECE1.PlannerState.empty [lineKInputs]).1 (Or.inl h1),
    h2,
    (solve_configuration_error noGoalEST seededEST [lineInputs] outsideKPIECE1
      KPIECE1.PlannerState.empty [lineKInputs]).2 (Or.inr h2)⟩

/-- The ingestion of C16 on an EST planner whose first start state fails, from the empty tree,
and on a KPIECE1 planner entered with a tree that is not empty. -/
theorem seed_ingestion_witness :
    (mixedEST.goal.goal_s.isNone && !mixedEST.goal.goal_r) = false
      ∧ EST.PlannerState.empty.tree.grid = []
      ∧ EST.PlannerState.empty.tree.size = 0
      ∧ (EST.seed mixedEST EST.PlannerState.empty).motions = [⟨[0], none⟩, ⟨[1], none⟩]
      ∧ (EST.seed mixedEST EST.PlannerState.empty).tree.size = 2
      ∧ (lineKPIECE1.goal.goal_s.isNone && !lineKPIECE1.goal.goal_r) = false
      ∧ seededKPIECE1.tree.grid ≠ []
      ∧ ∃ r, KPIECE1.solve lineKPIECE1 seededKPIECE1 []
          = some ⟨seededKPIECE1, ⟨none, none⟩, r⟩ := by
  have hge : (mixedEST.goal.goal_s.isNone && !mixedEST.goal.goal_r) = false := by
    simp [mixedEST, lineEST, lineGoal, Goal.goal_s, Goal.goal_r]
  have hgk : (lineKPIECE1.goal.goal_s.isNone && !lineKPIECE1.goal.goal_r) = false := by
    simp [lineKPIECE1, lineGoal, Goal.goal_s, Goal.goal_r]
  have hne : seededKPIECE1.tree.grid ≠ [] := by simp [seededKPIECE1]
  have hpass : (mixedEST.startStates.filter fun st =>
      mixedEST.si.satisfiesBounds st && mixedEST.si.isValid st) = [[0], [1]] := by
    simp only [mixedEST, lineEST, lineSpace, belowThree]
    norm_num [List.filter]
  obtain ⟨he, hk⟩ := seed_ingestion mixedEST EST.PlannerState.empty lineKPIECE1 seededKPIECE1
  obtain ⟨-, hmot, hsize, -⟩ := (he hge).1 rfl rfl
  rw [hpass] at hmot hsize
  exact ⟨hge, rfl, rfl, hmot, hsize, hgk, hne, (hk hgk).2 hne⟩

theorem gapKPIECE1_select :
    KPIECE1.selectMotion gapKPIECE1
        ⟨seededKPIECE1.motions, ⟨seededKPIECE1.tree.grid, seededKPIECE1.tree.size,
          seededKPIECE1.tree.iteration + 1⟩⟩ lineKInputs
      = some (selectedKPIECE1, 0, 0) := by
  simp [KPIECE1.selectMotion, gapKPIECE1, lineKPIECE1, lineKInputs, seededKPIECE1,
    selectedKPIECE1, List.modify, List.modifyTailIdx]

theorem gapOneTwo_check :
    (lineSpace gapOneTwo).checkMotionIncremental [0] [5/2] (some [5/2]) (some 0)
      = ⟨false, some [5/6], some (1 / 3)⟩ := by
  unfold SpaceInformationKinematic.checkMotionIncremental
  rw [lineSpace_step]
  norm_num [lineSpace, gapOneTwo, SpaceInformationKinematic.sweepIndices, stateAt,
    List.range_succ, List.find?]

/-- The partial credit of C11 on the line with the obstacle `(1, 2)`: the check from `0` to
`5/2` fails at index `2` of `3`, `failTime = 1/3` exceeds `1/4`, and the motion `5/6` is
inserted with the selected motion as parent. -/
theorem kpiece_partial_credit_witness :
    KPIECE1.selectMotion gapKPIECE1
        ⟨seededKPIECE1.motions, ⟨seededKPIECE1.tree.grid, seededKPIECE1.tree.size,
          seededKPIECE1.tree.iteration + 1⟩⟩ lineKInputs
      = some (selectedKPIECE1, 0, 0)
    ∧ seededKPIECE1.motions[0]? = some ⟨[0], none⟩
    ∧ ∃ ls1 : KPIECE1.LoopState,
        KPIECE1.loop gapKPIECE1 ⟨seededKPIECE1, none, none, none, 1 / 100⟩ [lineKInputs]
          = some ls1
        ∧ ls1.st.motions = [⟨[0], none⟩, ⟨[5/6], some 0⟩] := by
  have hem : seededKPIECE1.motions[0]? = some ⟨[0], none⟩ := by simp [seededKPIECE1]
  refine ⟨gapKPIECE1_select, hem, ?_⟩
  obtain ⟨ls1, h1, h2, -, -⟩ := KPIECE1.kpiece_partial_credit gapKPIECE1
    ⟨seededKPIECE1, none, none, none, 1 / 100⟩ lineKInputs selectedKPIECE1 0 0 ⟨[0], none⟩
    gapKPIECE1_select hem
  have hx : (KPIECE1.sample gapKPIECE1 lineKInputs [0] none (1 / 100)).1 = [5/2] := by
    simp [KPIECE1.sample, gapKPIECE1, lineKPIECE1, lineKInputs, lineGoal, Goal.goal_s,
      copyState]
  refine ⟨ls1, h1, ?_⟩
  simp only [Option.bind, hx] at h2
  have hc : gapKPIECE1.si.checkMotionIncremental [0] [5/2] (some [5/2]) (some 0)
      = ⟨false, some [5/6], some (1 / 3)⟩ := gapOneTwo_check
  rw [hc] at h2
  have := h2 (Or.inr (by norm_num [gapKPIECE1]))
  simpa [seededKPIECE1] using this

theorem stayKPIECE1_select :
    KPIECE1.selectMotion stayKPIECE1
        ⟨seededKPIECE1.motions, ⟨seededKPIECE1.tree.grid, seededKPIECE1.tree.size,
          seededKPIECE1.tree.iteration + 1⟩⟩ lineKInputs
      = some (selectedKPIECE1, 0, 0) := by
  simp [KPIECE1.selectMotion, stayKPIECE1, lineKPIECE1, lineKInputs, seededKPIECE1,
    selectedKPIECE1, List.modify, List.modifyTailIdx]

theorem stay_check :
    (lineSpace belowThree).checkMotionIncremental [0] [0] (some [0]) (some 0)
      = ⟨true, some [0], some 0⟩ := by
  have hstep : (lineSpace belowThree).findDifferenceStep [0] [0] 1 = (1, [0]) := by
    simp [SpaceInformationKinematic.findDifferenceStep, SpaceInformationKinematic.findDivisions,
      SpaceInformationKinematic.findDiff, lineSpace, castInt, wrapInt, List.range_succ]
  unfold SpaceInformationKinematic.checkMotionIncremental
  rw [hstep]
  norm_num [lineSpace, belowThree, SpaceInformationKinematic.sweepIndices, stateAt,
    List.range_succ, List.find?]

theorem stayKPIECE1_loop :
    KPIECE1.loop stayKPIECE1 ⟨seededKPIECE1, none, none, none, 1 / 100⟩ [lineKInputs]
      = some stayKPIECE1Loop := by
  have hc := stay_check
  simp [KPIECE1.loop, KPIECE1.selectMotion, lineKInputs, KPIECE1.sample, stayKPIECE1,
    lineKPIECE1, lineGoal, seededKPIECE1, stayKPIECE1Loop,
    Goal.goal_s, Goal.goal_k, copyState, SpaceInformationKinematic.checkMotion, hc,
    KPIECE1.addMotion, KPIECE1.getCell, KPIECE1.scaleScore, ltApproxdif,
    List.modify, List.modifyTailIdx]
  norm_num [abs_of_neg]

/-- C12 fails as stated: `goodScoreFactor = 9/10` lies in `(0,1)`; in the first loop turn of
`stayKPIECE1` a motion is inserted and the search goes on, and the score of the selected cell
`[0]` falls from `1000/1001` to `900/1001`. -/
theorem good_factor_lowers_score :
    0 < stayKPIECE1.m_goodScoreFactor ∧ stayKPIECE1.m_goodScoreFactor < 1
      ∧ KPIECE1.seed stayKPIECE1 KPIECE1.PlannerState.empty = seededKPIECE1
      ∧ (seededKPIECE1.tree.grid.map fun c => c.data.score) = [1000 / 1001]
      ∧ KPIECE1.loop stayKPIECE1 ⟨seededKPIECE1, none, none, none, 1 / 100⟩ [lineKInputs]
          = some stayKPIECE1Loop
      ∧ stayKPIECE1Loop.st.motions.length = seededKPIECE1.motions.length + 1
      ∧ stayKPIECE1Loop.solution = none
      ∧ (stayKPIECE1Loop.st.tree.grid.map fun c => c.data.score) = [900 / 1001]
      ∧ (900 / 1001 : ℚ) < 1000 / 1001 := by
  refine ⟨by norm_num [stayKPIECE1, lineKPIECE1], by norm_num [stayKPIECE1, lineKPIECE1], ?_,
    by simp [seededKPIECE1], stayKPIECE1_loop, rfl, rfl, by simp [stayKPIECE1Loop],
    by norm_num⟩
  simp [KPIECE1.seed, stayKPIECE1, lineKPIECE1, KPIECE1.PlannerState.empty, KPIECE1.addMotion,
    KPIECE1.getCell, copyState, lineSpace, belowThree, seededKPIECE1]
  norm_num

/-- The amended C12 on the first loop turn of `stayKPIECE1`: the turn inserts a motion, does
not end the search, and the score of the selected cell is not increased. -/
theorem kpiece_score_update_witness :
    KPIECE1.selectMotion stayKPIECE1
        ⟨seededKPIECE1.motions, ⟨seededKPIECE1.tree.grid, seededKPIECE1.tree.size,
          seededKPIECE1.tree.iteration + 1⟩⟩ lineKInputs
      = some (selectedKPIECE1, 0, 0)
    ∧ seededKPIECE1.motions[0]? = some ⟨[0], none⟩
    ∧ seededKPIECE1.tree.grid[0]? = some ⟨[0], ⟨[0], 1, 1, 1000 / 1001, 0⟩⟩
    ∧ ∃ ls1 : KPIECE1.LoopState,
        KPIECE1.loop stayKPIECE1 ⟨seededKPIECE1, none, none, none, 1 / 100⟩ [lineKInputs]
          = some ls1
        ∧ ∃ cell1 : KPIECE1.Cell, ls1.st.tree.grid[0]? = some cell1
            ∧ 0 ≤ cell1.data.score ∧ cell1.data.score ≤ 1000 / 1001 := by
  have hem : seededKPIECE1.motions[0]? = some ⟨[0], none⟩ := by simp [seededKPIECE1]
  have hcell : seededKPIECE1.tree.grid[0]? = some ⟨[0], ⟨[0], 1, 1, 1000 / 1001, 0⟩⟩ := by
    simp [seededKPIECE1]
  refine ⟨stayKPIECE1_select, hem, hcell, ?_⟩
  obtain ⟨ls1, h1, -, -, h4⟩ := KPIECE1.kpiece_score_update stayKPIECE1
    ⟨seededKPIECE1, none, none, none, 1 / 100⟩ lineKInputs selectedKPIECE1 0 0 ⟨[0], none⟩
    ⟨[0], ⟨[0], 1, 1, 1000 / 1001, 0⟩⟩ stayKPIECE1_select hem hcell
  have hx : (KPIECE1.sample stayKPIECE1 lineKInputs [0] none (1 / 100)).1 = [0] := by
    simp [KPIECE1.sample, stayKPIECE1, lineKPIECE1, lineKInputs, lineGoal, Goal.goal_s,
      copyState]
  simp only [Option.bind, hx] at h4
  have hc : stayKPIECE1.si.checkMotionIncremental [0] [0] (some [0]) (some 0)
      = ⟨true, some [0], some 0⟩ := stay_check
  rw [hc] at h4
  exact ⟨ls1, h1, h4 (by norm_num) (by norm_num [stayKPIECE1, lineKPIECE1])
    (by norm_num [stayKPIECE1, lineKPIECE1]) (by norm_num [stayKPIECE1, lineKPIECE1])
    (by norm_num [stayKPIECE1, lineKPIECE1])
    (fun _ => by norm_num [stayKPIECE1, lineKPIECE1, lineGoal])⟩

/-- C13 fails as stated: the cell that the start state `0` of `lineKPIECE1` creates has the
score `1 / (0.001 + 1.0) = 1000/1001`, while the goal's distance for the state `0` is `5/2`,
for which `1 / (0.001 + goalDistance)` is `1000/2501`. -/
theorem start_cell_score_ignores_goal :
    KPIECE1.seed lineKPIECE1 KPIECE1.PlannerState.empty = seededKPIECE1
      ∧ (seededKPIECE1.tree.grid.map fun c => (c.coord, c.data.motions, c.data.score))
          = [([0], [0], 1000 / 1001)]
      ∧ (lineKPIECE1.goal.isSatisfied [0]).2 = 5 / 2
      ∧ 1 / (1 / 1000 + (lineKPIECE1.goal.isSatisfied [0]).2) = 1000 / 2501
      ∧ (1000 / 1001 : ℚ) ≠ 1000 / 2501 := by
  have hd : (lineKPIECE1.goal.isSatisfied [0]).2 = 5 / 2 := by
    norm_num [lineKPIECE1, lineGoal, abs_of_neg]
  refine ⟨lineKPIECE1_seed, by simp [seededKPIECE1], hd, ?_, by norm_num⟩
  rw [hd]
  norm_num

/-- The amended C13 at two calls of `addMotion`: the start state `0` on the empty tree creates
the cell `[0]` with score `1 / (0.001 + 1)`, and a second motion at `0` with distance `5/2`
joins that cell, changing its motions and coverage only. -/
theorem kpiece_cell_bootstrap_witness :
    (∀ cell ∈ KPIECE1.PlannerState.empty.tree.grid,
        cell.coord ≠ lineKPIECE1.computeCoordinates (⟨[0], none⟩ : Motion).state)
      ∧ (KPIECE1.addMotion lineKPIECE1 KPIECE1.PlannerState.empty ⟨[0], none⟩ 1).1.tree.grid
          = KPIECE1.PlannerState.empty.tree.grid
            ++ [⟨lineKPIECE1.computeCoordinates (⟨[0], none⟩ : Motion).state,
              { motions := [KPIECE1.PlannerState.empty.motions.length], coverage := 1,
                selections := 1, score := 1 / (1 / 1000 + 1),
                iteration := KPIECE1.PlannerState.empty.tree.iteration }⟩]
      ∧ seededKPIECE1.tree.grid[0]? = some ⟨[0], ⟨[0], 1, 1, 1000 / 1001, 0⟩⟩
      ∧ (KPIECE1.addMotion lineKPIECE1 seededKPIECE1 ⟨[0], some 0⟩ (5 / 2)).1.tree.grid
          = List.modify
              (fun cell => ⟨cell.coord,
                { motions := cell.data.motions ++ [seededKPIECE1.motions.length],
                  coverage := cell.data.coverage + 1, selections := cell.data.selections,
                  score := cell.data.score, iteration := cell.data.iteration }⟩)
              0 seededKPIECE1.tree.grid := by
  have h0 : ∀ cell ∈ KPIECE1.PlannerState.empty.tree.grid,
      cell.coord ≠ lineKPIECE1.computeCoordinates (⟨[0], none⟩ : Motion).state := by
    intro cell hcell
    simp [KPIECE1.PlannerState.empty] at hcell
  have hcell : seededKPIECE1.tree.grid[0]? = some ⟨[0], ⟨[0], 1, 1, 1000 / 1001, 0⟩⟩ := by
    simp [seededKPIECE1]
  exact ⟨h0,
    (KPIECE1.kpiece_cell_bootstrap lineKPIECE1 KPIECE1.PlannerState.empty ⟨[0], none⟩ 1).1 h0,
    hcell,
    (KPIECE1.kpiece_cell_bootstrap lineKPIECE1 seededKPIECE1 ⟨[0], some 0⟩ (5 / 2)).2.1 0 _
      hcell (by simp [lineKPIECE1]) (fun j cell1 hj _ => absurd hj (by omega))⟩

/-- The selection of C14 on the tree of two cells that the run `lineESTResult` leaves. -/
theorem est_selectMotion_spec_witness :
    lineESTResult.planner.tree.grid ≠ []
      ∧ (∀ c ∈ lineESTResult.planner.tree.grid,
          c.data.length ≤ lineESTResult.planner.tree.size)
      ∧ (∀ c ∈ lineESTResult.planner.tree.grid, c.data ≠ [])
      ∧ (∀ hi : ℕ, lineInputs.uniformInt 0 hi ≤ hi)
      ∧ ∃ (m : ℕ) (cell : EST.Cell),
          EST.selectMotion lineESTResult.planner lineInputs = some m
            ∧ cell ∈ lineESTResult.planner.tree.grid ∧ m ∈ cell.data := by
  have hgrid : lineESTResult.planner.tree.grid ≠ [] := by simp [lineESTResult]
  have hsize : ∀ c ∈ lineESTResult.planner.tree.grid,
      c.data.length ≤ lineESTResult.planner.tree.size := by
    intro c hc
    simp only [lineESTResult, List.mem_cons, List.mem_singleton, List.not_mem_nil,
      or_false] at hc
    rcases hc with rfl | rfl <;> simp [lineESTResult]
  have hne : ∀ c ∈ lineESTResult.planner.tree.grid, c.data ≠ [] := by
    intro c hc
    simp only [lineESTResult, List.mem_cons, List.mem_singleton, List.not_mem_nil,
      or_false] at hc
    rcases hc with rfl | rfl <;> simp
  have hrng : ∀ hi : ℕ, lineInputs.uniformInt 0 hi ≤ hi := fun hi => Nat.zero_le hi
  exact ⟨hgrid, hsize, hne, hrng,
    (EST.est_selectMotion_spec lineESTResult.planner lineInputs hgrid hsize).2 hne hrng⟩

namespace KPIECE1

/-- C26. No partial credit for an invalid endpoint: when the sampled endpoint `xstate` is
invalid, `checkMotionIncremental` returns false and leaves `lastValidState` and
`lastValidTime` as they were, whatever they are; so in the loop turn of KPIECE1 `failTime`
keeps its initial value `0.0` and, for every `minValidPathPercentage ≥ 0`, the turn inserts no
motion and multiplies the selected cell's score by `badScoreFactor`.  Nothing is assumed about
the samples before the endpoint. -/
theorem kpiece_invalid_endpoint (p : KPIECE1) (ls : LoopState) (d : Inputs) (s1 : PlannerState)
    (existing ecell : ℕ) (em : Motion) (cell : Cell)
    (hsel : selectMotion p
      ⟨ls.st.motions, ⟨ls.st.tree.grid, ls.st.tree.size, ls.st.tree.iteration + 1⟩⟩ d
        = some (s1, existing, ecell))
    (hem : ls.st.motions[existing]? = some em)
    (hcell : ls.st.tree.grid[ecell]? = some cell)
    (hmvpp : 0 ≤ p.m_minValidPathPercentage)
    (hinv : p.si.isValid (sample p d em.state
      (ls.approxsol.bind fun a => (ls.st.motions[a]?).map Motion.state) ls.improveValue).1
        = false) :
    let xstate := (sample p d em.state
      (ls.approxsol.bind fun a => (ls.st.motions[a]?).map Motion.state) ls.improveValue).1
    (∀ (lastValidState : Option State) (lastValidTime : Option ℚ),
        p.si.checkMotionIncremental em.state xstate lastValidState lastValidTime
          = ⟨false, lastValidState, lastValidTime⟩)
      ∧ (p.si.checkMotion em.state xstate (some xstate) (some 0)).lastValidTime.getD 0 = 0
      ∧ ∃ ls1 : LoopState, loop p ls [d] = some ls1
          ∧ ls1.st.motions = ls.st.motions
          ∧ ∃ cell1 : Cell, ls1.st.tree.grid[ecell]? = some cell1
              ∧ cell1.data.score = cell.data.score * p.m_badScoreFactor := by
  intro xstate
  have hc : ∀ (lastValidState : Option State) (lastValidTime : Option ℚ),
      p.si.checkMotionIncremental em.state xstate lastValidState lastValidTime
        = ⟨false, lastValidState, lastValidTime⟩ :=
    fun lvs lvt => SpaceInformationKinematic.checkMotionIncremental_invalid p.si em.state xstate
      lvs lvt hinv
  obtain ⟨ls1, hloop, -, hbad⟩ := turn_scores p ls d s1 existing ecell em cell hsel hem hcell
  have hc0 := hc (some xstate) (some 0)
  refine ⟨hc, by simp [SpaceInformationKinematic.checkMotion, hc0], ls1, hloop, ?_⟩
  apply hbad
  show ¬ ((p.si.checkMotionIncremental em.state xstate (some xstate) (some 0)).result = true
    ∨ (p.si.checkMotionIncremental em.state xstate (some xstate) (some 0)).lastValidTime.getD 0
        > p.m_minValidPathPercentage)
  rw [hc0]
  simp only [Bool.false_eq_true, false_or, Option.getD_some, gt_iff_lt, not_lt]
  exact hmvpp

end KPIECE1

theorem blockedKPIECE1_select :
    KPIECE1.selectMotion blockedKPIECE1
        ⟨seededKPIECE1.motions, ⟨seededKPIECE1.tree.grid, seededKPIECE1.tree.size,
          seededKPIECE1.tree.iteration + 1⟩⟩ lineKInputs
      = some (selectedKPIECE1, 0, 0) := by
  simp [KPIECE1.selectMotion, blockedKPIECE1, lineKPIECE1, lineKInputs, seededKPIECE1,
    selectedKPIECE1, List.modify, List.modifyTailIdx]

/-- The invalid endpoint of C26 on the line: the sample `7/2` of `blockedKPIECE1` is invalid,
no motion is inserted and the score of the selected cell is multiplied by `9/20`. -/
theorem kpiece_invalid_endpoint_witness :
    KPIECE1.selectMotion blockedKPIECE1
        ⟨seededKPIECE1.motions, ⟨seededKPIECE1.tree.grid, seededKPIECE1.tree.size,
          seededKPIECE1.tree.iteration + 1⟩⟩ lineKInputs
      = some (selectedKPIECE1, 0, 0)
    ∧ seededKPIECE1.motions[0]? = some ⟨[0], none⟩
    ∧ seededKPIECE1.tree.grid[0]? = some ⟨[0], ⟨[0], 1, 1, 1000 / 1001, 0⟩⟩
    ∧ (0 : ℚ) ≤ blockedKPIECE1.m_minValidPathPercentage
    ∧ blockedKPIECE1.si.isValid [7/2] = false
    ∧ ∃ ls1 : KPIECE1.LoopState,
        KPIECE1.loop blockedKPIECE1 ⟨seededKPIECE1, none, none, none, 1 / 100⟩ [lineKInputs]
          = some ls1
        ∧ ls1.st.motions = seededKPIECE1.motions
        ∧ ∃ cell1 : KPIECE1.Cell, ls1.st.tree.grid[0]? = some cell1
            ∧ cell1.data.score = 1000 / 1001 * (9 / 20) := by
  have hem : seededKPIECE1.motions[0]? = some ⟨[0], none⟩ := by simp [seededKPIECE1]
  have hcell : seededKPIECE1.tree.grid[0]? = some ⟨[0], ⟨[0], 1, 1, 1000 / 1001, 0⟩⟩ := by
    simp [seededKPIECE1]
  have hm : (0 : ℚ) ≤ blockedKPIECE1.m_minValidPathPercentage := by
    norm_num [blockedKPIECE1, lineKPIECE1]
  have hv : blockedKPIECE1.si.isValid [7/2] = false := by
    norm_num [blockedKPIECE1, lineKPIECE1, lineSpace, belowThree]
  have hx : (KPIECE1.sample blockedKPIECE1 lineKInputs [0] none (1 / 100)).1 = [7/2] := by
    simp [KPIECE1.sample, blockedKPIECE1, lineKPIECE1, lineKInputs, blockedGoal, Goal.goal_s,
      copyState]
  obtain ⟨-, -, h⟩ := KPIECE1.kpiece_invalid_endpoint blockedKPIECE1
    ⟨seededKPIECE1, none, none, none, 1 / 100⟩ lineKInputs selectedKPIECE1 0 0 ⟨[0], none⟩
    ⟨[0], ⟨[0], 1, 1, 1000 / 1001, 0⟩⟩ blockedKPIECE1_select hem hcell hm
    (by simp only [Option.bind]; rw [hx]; exact hv)
  exact ⟨blockedKPIECE1_select, hem, hcell, hm, hv, h⟩

/-! ## The interpolation of a path -/

namespace SpaceInformationKinematic

theorem interpolateLoop_eq (si : SpaceInformationKinematic) (factor : ℚ) :
    ∀ path : List State,
      si.interpolateLoop factor path
        = (path.zip path.tail).flatMap fun (x : State × State) =>
            x.1 :: (sweepIndices (si.findDifferenceStep x.1 x.2 factor).1).map fun (j : ℤ) =>
              stateAt si.m_stateDimension x.1 (si.findDifferenceStep x.1 x.2 factor).2 (j : ℚ)
  | [] => by simp [interpolateLoop]
  | [x] => by simp [interpolateLoop]
  | x :: y :: rest => by
    have ih := interpolateLoop_eq si factor (y :: rest)
    simp only [interpolateLoop, ih, List.tail_cons, List.zip_cons_cons, List.flatMap_cons,
      List.cons_append]

theorem interpolateLoop_length (si : SpaceInformationKinematic) (factor : ℚ) :
    ∀ path : List State, path ≠ [] →
      ((si.interpolateLoop factor path).length : ℤ) + 1
        = (path.length : ℤ)
          + ((path.zip path.tail).map fun (x : State × State) =>
              (si.findDifferenceStep x.1 x.2 factor).1 - 1).sum
  | [], h => absurd rfl h
  | [x], _ => by simp [interpolateLoop]
  | x :: y :: rest, _ => by
    have ih := interpolateLoop_length si factor (y :: rest) (by simp)
    have hnd := si.findDifferenceStep_nd_pos x y factor
    simp only [interpolateLoop, List.tail_cons, List.zip_cons_cons, List.map_cons,
      List.sum_cons, List.length_append, List.length_cons, List.length_map, sweepIndices,
      List.length_range] at ih ⊢
    push_cast at ih ⊢
    omega

theorem interpolateLoop_sublist (si : SpaceInformationKinematic) (factor : ℚ) :
    ∀ (path : List State) (last : State), path.getLast? = some last →
      path.Sublist (si.interpolateLoop factor path ++ [last])
  | [], _, h => by simp at h
  | [x], last, h => by
    simp only [List.getLast?_singleton, Option.some.injEq] at h
    subst h
    simp [interpolateLoop]
  | x :: y :: rest, last, h => by
    have h1 : (y :: rest).getLast? = some last := by simpa [List.getLast?_cons_cons] using h
    have ih := interpolateLoop_sublist si factor (y :: rest) last h1
    simp only [interpolateLoop, List.cons_append, List.append_assoc]
    exact (List.sublist_append_of_sublist_right ih).cons₂ x

/-- C21. `interpolatePath(path, factor)` on a path of `n ≥ 1` states: the states after the call
are, for each consecutive pair `(s_i, s_{i+1})` in order, `s_i` followed by the states
`s_i + j·step_i` for `j = 1 .. nd_i - 1` in increasing `j`, where
`(nd_i, step_i) = findDifferenceStep(s_i, s_{i+1}, factor)`, and then the last state of the
path; the original states are kept in their order (the path is a sublist of the result, with
the same first and last state); the resulting length is `n + Σ_i (nd_i - 1)`; and a one-state
path is left unchanged. -/
theorem interpolatePath_spec (si : SpaceInformationKinematic) (path : List State) (factor : ℚ)
    (hn : 1 ≤ path.length) :
    ∃ (result : List State) (last : State),
      si.interpolatePath path factor = some result
        ∧ path.getLast? = some last
        ∧ result = ((path.zip path.tail).flatMap fun (x : State × State) =>
            x.1 :: (sweepIndices (si.findDifferenceStep x.1 x.2 factor).1).map fun (j : ℤ) =>
              stateAt si.m_stateDimension x.1 (si.findDifferenceStep x.1 x.2 factor).2 (j : ℚ))
            ++ [last]
        ∧ path.Sublist result
        ∧ result.head? = path.head?
        ∧ result.getLast? = path.getLast?
        ∧ (result.length : ℤ)
            = (path.length : ℤ)
              + ((path.zip path.tail).map fun (x : State × State) =>
                  (si.findDifferenceStep x.1 x.2 factor).1 - 1).sum
        ∧ (path.length = 1 → result = path) := by
  have hne : path ≠ [] := by
    intro h; rw [h] at hn; simp at hn
  obtain ⟨last, hlast⟩ : ∃ last, path.getLast? = some last := by
    cases h : path.getLast? with
    | none => exact absurd (List.getLast?_eq_none_iff.mp h) hne
    | some l => exact ⟨l, rfl⟩
  refine ⟨si.interpolateLoop factor path ++ [last], last, ?_, hlast, ?_,
    si.interpolateLoop_sublist factor path last hlast, ?_, ?_, ?_, ?_⟩
  · simp [interpolatePath, hlast]
  · rw [interpolateLoop_eq]
  · cases path with
    | nil => exact absurd rfl hne
    | cons x l =>
      cases l with
      | nil =>
        simp only [List.getLast?_singleton, Option.some.injEq] at hlast
        subst hlast
        simp [interpolateLoop]
      | cons y rest => simp [interpolateLoop]
  · rw [hlast]; simp
  · have := si.interpolateLoop_length factor path hne
    simp only [List.length_append, List.length_singleton]
    push_cast
    exact this
  · intro h1
    obtain ⟨x, hx⟩ := List.length_eq_one.mp h1
    subst hx
    simp only [List.getLast?_singleton, Option.some.injEq] at hlast
    subst hlast
    simp [interpolateLoop]

end SpaceInformationKinematic

/-- The interpolation of C21 on the path `[0, 5/2, 2]` of the line with `factor = 1`: two
states are inserted in the first segment and none in the second. -/
theorem interpolatePath_spec_witness :
    1 ≤ ([[0], [5/2], [2]] : List State).length
      ∧ (lineSpace belowThree).interpolatePath [[0], [5/2], [2]] 1
          = some [[0], [5/6], [5/3], [5/2], [2]]
      ∧ ∃ (result : List State) (last : State),
          (lineSpace belowThree).interpolatePath [[0], [5/2], [2]] 1 = some result
            ∧ ([[0], [5/2], [2]] : List State).getLast? = some last
            ∧ ([[0], [5/2], [2]] : List State).Sublist result
            ∧ (result.length : ℤ)
                = (([[0], [5/2], [2]] : List State).length : ℤ)
                  + ((([[0], [5/2], [2]] : List State).zip
                        ([[0], [5/2], [2]] : List State).tail).map
                      fun (x : State × State) =>
                        ((lineSpace belowThree).findDifferenceStep x.1 x.2 1).1 - 1).sum := by
  have hn : 1 ≤ ([[0], [5/2], [2]] : List State).length := by simp
  have hstep2 : (lineSpace belowThree).findDifferenceStep [5/2] [2] 1 = (1, [-1/2]) := by
    have h : |(2:ℚ) - 5/2| = 1/2 := by rw [abs_of_neg (by norm_num)]; norm_num
    simp [SpaceInformationKinematic.findDifferenceStep,
      SpaceInformationKinematic.findDivisions, SpaceInformationKinematic.findDiff, lineSpace,
      castInt, wrapInt, List.range_succ, h]
    norm_num
  refine ⟨hn, ?_, ?_⟩
  · simp only [SpaceInformationKinematic.interpolatePath,
      SpaceInformationKinematic.interpolateLoop, lineSpace_step, hstep2]
    have h3 : Int.toNat 3 - 1 = 2 := by decide
    norm_num [SpaceInformationKinematic.sweepIndices, stateAt, lineSpace, List.range_succ, h3]
  · obtain ⟨result, last, h1, h2, -, h4, -, -, h7, -⟩ :=
      SpaceInformationKinematic.interpolatePath_spec (lineSpace belowThree)
        [[0], [5/2], [2]] 1 hn
    exact ⟨result, last, h1, h2, h4, h7⟩

/-! ## The selection of KPIECE1 on the heaps of Grid-B -/

namespace KPIECE1

theorem neighborCoords_length (dim : ℕ) (coord : Coord) :
    (neighborCoords dim coord).length = 2 * dim := by
  unfold neighborCoords
  induction dim with
  | zero => simp
  | succ n ih =>
    rw [List.range_succ, List.flatMap_append, List.length_append, ih]
    simp
    omega

/-- A non-empty grid has a cell whose first coordinate is largest. -/
theorem exists_max_first : ∀ (grid : List Cell), grid ≠ [] →
    ∃ (c : ℕ) (cell : Cell), grid[c]? = some cell
      ∧ ∀ cell1 ∈ grid, cell1.coord.getD 0 0 ≤ cell.coord.getD 0 0
  | [], h => absurd rfl h
  | [x], _ => ⟨0, x, by simp, by simp⟩
  | x :: y :: rest, _ => by
    obtain ⟨c, cell, h1, h2⟩ := exists_max_first (y :: rest) (by simp)
    by_cases hx : x.coord.getD 0 0 ≤ cell.coord.getD 0 0
    · refine ⟨c + 1, cell, by simpa using h1, ?_⟩
      intro cell1 hc1
      rcases List.mem_cons.mp hc1 with rfl | hc1
      · exact hx
      · exact h2 cell1 hc1
    · refine ⟨0, x, by simp, ?_⟩
      intro cell1 hc1
      rcases List.mem_cons.mp hc1 with rfl | hc1
      · exact le_refl _
      · have := h2 cell1 hc1
        omega

/-- In a grid of dimension at least 1, a cell whose first coordinate is largest is external:
its neighbour one step further along the first component is not occupied. -/
theorem isExternal_of_max (dim : ℕ) (grid : List Cell) (cell : Cell) (hdim : 1 ≤ dim)
    (hlen : cell.coord.length = dim)
    (hmax : ∀ cell1 ∈ grid, cell1.coord.getD 0 0 ≤ cell.coord.getD 0 0) :
    isExternal dim grid cell = true := by
  unfold isExternal occupiedNeighbors
  rw [decide_eq_true_eq, ← neighborCoords_length dim cell.coord]
  apply lt_of_le_of_ne (List.countP_le_length _)
  intro heq
  have hall := List.countP_eq_length.mp heq
  have hmem : cell.coord.set 0 (cell.coord.getD 0 0 + 1) ∈ neighborCoords dim cell.coord := by
    unfold neighborCoords
    rw [List.mem_flatMap]
    exact ⟨0, List.mem_range.mpr (by omega), by simp⟩
  have := hall _ hmem
  simp only [List.any_eq_true, decide_eq_true_eq] at this
  obtain ⟨cell1, hc1, hco⟩ := this
  have hle := hmax cell1 hc1
  rw [hco] at hle
  have hget : (cell.coord.set 0 (cell.coord.getD 0 0 + 1)).getD 0 0 = cell.coord.getD 0 0 + 1 := by
    cases hc : cell.coord with
    | nil => rw [hc] at hlen; simp at hlen; omega
    | cons a l => simp
  omega

/-- `selectMotion` returns a motion of the selected cell when the selected heap has a top cell
that is a non-empty cell of the grid and the index draw lies in its range. -/
theorem selectMotion_some (p : KPIECE1) (s : PlannerState) (d : Inputs) (c : ℕ) (cell : Cell)
    (hsc : (if d.uniform01Select < max p.m_selectBorderPercentage d.fracExternal
      then d.topExternal else d.topInternal) = some c)
    (hcell : s.tree.grid[c]? = some cell)
    (hne : cell.data.motions ≠ [])
    (hrng : ∀ hi : ℕ, d.halfNormalInt 0 hi ≤ hi) :
    ∃ (s1 : PlannerState) (smotion : ℕ),
      selectMotion p s d = some (s1, smotion, c) ∧ smotion ∈ cell.data.motions := by
  have hpos : 0 < cell.data.motions.length := List.length_pos.mpr hne
  have hidx : d.halfNormalInt 0 (cell.data.motions.length - 1) < cell.data.motions.length := by
    have := hrng (cell.data.motions.length - 1); omega
  unfold selectMotion
  simp only [hsc, hcell]
  have hemp : cell.data.motions.isEmpty = false := by
    cases hm : cell.data.motions with
    | nil => exact absurd hm hne
    | cons a l => rfl
  simp only [hemp, Bool.not_false, if_true, List.getElem?_eq_getElem hidx]
  exact ⟨_, _, rfl, List.getElem_mem _⟩

/-- C23. KPIECE1 selection never yields a null motion.  Grid-B is modelled from the spec: in a
non-empty grid of dimension at least 1 whose heaps `g` partition the cells by the external
flag and whose cells all hold motions, with the answers of the grid in `d` those of `g`, a
draw `u < 1` and an index draw in its range: the external heap is not empty; when the internal
heap is empty, `fracExternal() = 1 > u` and the external heap is consulted; `selectMotion`
picks `topExternal()` when `u < max(selectBorderPercentage, fracExternal())` and
`topInternal()` otherwise, and returns a motion of the selected cell, having incremented that
cell's `selections` by exactly 1 and changed nothing else, so that the `assert(existing)` of
`solve` holds. -/
theorem kpiece_selectMotion_nonnull (p : KPIECE1) (s : PlannerState) (d : Inputs) (g : GridB)
    (dim : ℕ)
    (hdim : 1 ≤ dim)
    (hgrid : s.tree.grid ≠ [])
    (hcoord : ∀ c ∈ s.tree.grid, c.coord.length = dim)
    (hne : ∀ c ∈ s.tree.grid, c.data.motions ≠ [])
    (hpart : g.Partitions dim s.tree.grid)
    (hfrac : d.fracExternal = g.fracExternal)
    (hext : d.topExternal = g.topExternal)
    (hint : d.topInternal = g.topInternal)
    (hu : d.uniform01Select < 1)
    (hrng : ∀ hi : ℕ, d.halfNormalInt 0 hi ≤ hi) :
    g.external ≠ []
      ∧ (g.internal = [] →
          g.fracExternal = 1
            ∧ d.uniform01Select < max p.m_selectBorderPercentage g.fracExternal)
      ∧ ∃ (s1 : PlannerState) (smotion c : ℕ) (cell : Cell),
          selectMotion p s d = some (s1, smotion, c)
            ∧ (if d.uniform01Select < max p.m_selectBorderPercentage g.fracExternal
                then g.topExternal else g.topInternal) = some c
            ∧ s.tree.grid[c]? = some cell
            ∧ smotion ∈ cell.data.motions
            ∧ s1.motions = s.motions
            ∧ s1.tree.size = s.tree.size
            ∧ s1.tree.iteration = s.tree.iteration
            ∧ s1.tree.grid = List.modify
                (fun cell => ⟨cell.coord,
                  { motions := cell.data.motions, coverage := cell.data.coverage,
                    selections := cell.data.selections + 1, score := cell.data.score,
                    iteration := cell.data.iteration }⟩)
                c s.tree.grid := by
  -- the external heap holds a cell with the largest first coordinate
  have hexne : g.external ≠ [] := by
    obtain ⟨c, cell, hc, hmax⟩ := exists_max_first s.tree.grid hgrid
    have hmem : cell ∈ s.tree.grid := List.mem_iff_getElem?.mpr ⟨c, hc⟩
    have hflag := isExternal_of_max dim s.tree.grid cell hdim (hcoord cell hmem) hmax
    have : c ∈ g.external := ((hpart c).1).mpr ⟨cell, hc, hflag⟩
    intro h
    rw [h] at this
    simp at this
  have hint1 : g.internal = [] →
      g.fracExternal = 1
        ∧ d.uniform01Select < max p.m_selectBorderPercentage g.fracExternal := by
    intro h
    have hlen : (g.external.length : ℚ) ≠ 0 := by
      have := List.length_pos.mpr hexne
      exact_mod_cast this.ne'
    have hf : g.fracExternal = 1 := by
      unfold GridB.fracExternal
      rw [h]
      simp only [List.length_nil, Nat.cast_zero, zero_add]
      exact div_self hlen
    refine ⟨hf, ?_⟩
    rw [hf]
    exact lt_of_lt_of_le hu (le_max_right _ _)
  -- the selected heap has a top cell
  have htop : ∃ (c : ℕ) (cell : Cell),
      (if d.uniform01Select < max p.m_selectBorderPercentage g.fracExternal
        then g.topExternal else g.topInternal) = some c
        ∧ s.tree.grid[c]? = some cell := by
    by_cases hsel : d.uniform01Select < max p.m_selectBorderPercentage g.fracExternal
    · rw [if_pos hsel]
      cases he : g.external with
      | nil => exact absurd he hexne
      | cons c l =>
        have hmem : c ∈ g.external := by rw [he]; simp
        obtain ⟨cell, hc, -⟩ := ((hpart c).1).mp hmem
        exact ⟨c, cell, by simp [GridB.topExternal, he], hc⟩
    · rw [if_neg hsel]
      cases hi : g.internal with
      | nil => exact absurd (hint1 hi).2 hsel
      | cons c l =>
        have hmem : c ∈ g.internal := by rw [hi]; simp
        obtain ⟨cell, hc, -⟩ := ((hpart c).2).mp hmem
        exact ⟨c, cell, by simp [GridB.topInternal, hi], hc⟩
  obtain ⟨c, cell, hsc, hcell⟩ := htop
  have hsc1 : (if d.uniform01Select < max p.m_selectBorderPercentage d.fracExternal
      then d.topExternal else d.topInternal) = some c := by
    rw [hfrac, hext, hint]; exact hsc
  have hmem : cell ∈ s.tree.grid := List.mem_iff_getElem?.mpr ⟨c, hcell⟩
  obtain ⟨s1, smotion, hsel, hsm⟩ := selectMotion_some p s d c cell hsc1 hcell (hne cell hmem) hrng
  obtain ⟨-, cell0, hcell0, -, -, hmot, hsize, hiter, hgr⟩ :=
    selectMotion_spec p s s1 d smotion c hsel
  exact ⟨hexne, hint1, s1, smotion, c, cell, hsel, hsc, hcell, hsm, hmot, hsize, hiter, hgr⟩

end KPIECE1

theorem seededKPIECE1_external :
    KPIECE1.isExternal 1 seededKPIECE1.tree.grid ⟨[0], ⟨[0], 1, 1, 1000 / 1001, 0⟩⟩ = true := by
  simp [KPIECE1.isExternal, KPIECE1.occupiedNeighbors, KPIECE1.neighborCoords, seededKPIECE1]
  decide

theorem seededHeaps_partitions : seededHeaps.Partitions 1 seededKPIECE1.tree.grid := by
  intro c
  have hget : ∀ cell : KPIECE1.Cell, seededKPIECE1.tree.grid[c]? = some cell →
      c = 0 ∧ cell = ⟨[0], ⟨[0], 1, 1, 1000 / 1001, 0⟩⟩ := by
    intro cell h
    cases c with
    | zero => exact ⟨rfl, by simpa [seededKPIECE1] using h.symm⟩
    | succ n => simp [seededKPIECE1] at h
  constructor
  · constructor
    · intro h
      have hc : c = 0 := by simpa [seededHeaps] using h
      subst hc
      exact ⟨_, by simp [seededKPIECE1], seededKPIECE1_external⟩
    · rintro ⟨cell, h, -⟩
      rw [(hget cell h).1]
      simp [seededHeaps]
  · constructor
    · intro h
      simp [seededHeaps] at h
    · rintro ⟨cell, h, hf⟩
      rw [(hget cell h).2, seededKPIECE1_external] at hf
      exact absurd hf (by simp)

/-- The selection of C23 on the grid of one cell that holds the start state of `lineKPIECE1`:
the cell is external, the internal heap is empty, and the motion `0` is returned. -/
theorem kpiece_selectMotion_nonnull_witness :
    (1 : ℕ) ≤ 1
      ∧ seededKPIECE1.tree.grid ≠ []
      ∧ (∀ c ∈ seededKPIECE1.tree.grid, c.coord.length = 1)
      ∧ (∀ c ∈ seededKPIECE1.tree.grid, c.data.motions ≠ [])
      ∧ seededHeaps.Partitions 1 seededKPIECE1.tree.grid
      ∧ lineKInputs.fracExternal = seededHeaps.fracExternal
      ∧ lineKInputs.topExternal = seededHeaps.topExternal
      ∧ lineKInputs.topInternal = seededHeaps.topInternal
      ∧ lineKInputs.uniform01Select < 1
      ∧ seededHeaps.external ≠ []
      ∧ ∃ (s1 : KPIECE1.PlannerState) (smotion c : ℕ) (cell : KPIECE1.Cell),
          KPIECE1.selectMotion lineKPIECE1 seededKPIECE1 lineKInputs = some (s1, smotion, c)
            ∧ seededKPIECE1.tree.grid[c]? = some cell
            ∧ smotion ∈ cell.data.motions := by
  have hgrid : seededKPIECE1.tree.grid ≠ [] := by simp [seededKPIECE1]
  have hcoord : ∀ c ∈ seededKPIECE1.tree.grid, c.coord.length = 1 := by
    intro c hc
    simp only [seededKPIECE1, List.mem_singleton] at hc
    subst hc
    rfl
  have hne : ∀ c ∈ seededKPIECE1.tree.grid, c.data.motions ≠ [] := by
    intro c hc
    simp only [seededKPIECE1, List.mem_singleton] at hc
    subst hc
    simp
  have hfrac : lineKInputs.fracExternal = seededHeaps.fracExternal := by
    norm_num [lineKInputs, seededHeaps, KPIECE1.GridB.fracExternal]
  have hu : lineKInputs.uniform01Select < 1 := by norm_num [lineKInputs]
  obtain ⟨h1, -, s1, smotion, c, cell, h3, -, h5, h6, -⟩ :=
    KPIECE1.kpiece_selectMotion_nonnull lineKPIECE1 seededKPIECE1 lineKInputs seededHeaps 1
      (le_refl 1) hgrid hcoord hne seededHeaps_partitions hfrac rfl rfl hu
      (fun hi => Nat.zero_le hi)
  exact ⟨le_refl 1, hgrid, hcoord, hne, seededHeaps_partitions, hfrac, rfl, rfl, hu, h1,
    s1, smotion, c, cell, h3, h5, h6⟩

/-! ## The bisection as the machine runs it -/

namespace SpaceInformationKinematic

end SpaceInformationKinematic

namespace SpaceInformationKinematic

end SpaceInformationKinematic

end ompl
